import Mathlib

/-!
# PPS master and per-pipeline monitor

A shallow embedding of `src/server/pps/server/master.go`: the reconciliation
loop of the PPS master (pipeline PUT events and worker-pod events), the
worker-group driver (`upsertWorkersForPipeline`, `deleteWorkersForPipeline`,
`scaleUpWorkersForPipeline`, `scaleDownWorkersForPipeline`), the githook
service ensurer and the per-pipeline monitor.

Everything the Go code calls on a collaborator (the orchestrator client, the
etcd STM, the data-plane client, helpers of other packages) is a field of
`Env`, an arbitrary deterministic environment over a state `σ`.  The Go code
itself is written once, over any `Env`; every call it makes is recorded in the
`calls` log of the `World`, and every driver call the master loop makes is
recorded in the `acts` log.
-/

set_option autoImplicit false

namespace PPS

/-! ## Data model -/

/-- Modelled from the spec: `pps.PipelineState` is declared outside `src/`; the
spec lists the desired states STARTING, RUNNING, STANDBY, PAUSED, FAILURE. -/
inductive PipelineState where
  | PIPELINE_STARTING
  | PIPELINE_RUNNING
  | PIPELINE_STANDBY
  | PIPELINE_PAUSED
  | PIPELINE_FAILURE
  deriving DecidableEq, Repr

open PipelineState

/-- Modelled from the spec: `pipelineStateToStopped` is declared outside
`src/`; the spec defines `stopped(s)` as `s ∈ { PAUSED, FAILURE }`. -/
def pipelineStateToStopped : PipelineState → Bool
  | PIPELINE_PAUSED => true
  | PIPELINE_FAILURE => true
  | _ => false

/-- Go `error` values.  `errGithookServiceNotFound` is the typed error that
`getGithookService` builds and `checkOrDeployGithookService` tests with a type
assertion; every other error is `plain`. -/
inductive Error where
  | plain (msg : String)
  | errGithookServiceNotFound (msg : String)
  deriving DecidableEq, Repr

/-- The text `err.Error()` returns. -/
def Error.text : Error → String
  | .plain m => m
  | .errGithookServiceNotFound m => m

/-- A `pfs.Commit` reference, of which the master reads the `ID`. -/
structure Commit where
  ID : String
  deriving DecidableEq, Repr

/-- The record `pps.EtcdPipelineInfo` kept in etcd per pipeline name: the fields
the master and the monitor read or write (`State`, `SpecCommit`), and the
failure reason written by `setPipelineFailure`. -/
structure EtcdPipelineInfo where
  State : PipelineState
  SpecCommit : Option Commit
  Reason : String
  deriving DecidableEq, Repr

/-- The zero value of `pps.EtcdPipelineInfo` (`var prevPipelinePtr`,
`&pps.EtcdPipelineInfo{}`). -/
def EtcdPipelineInfo.zero : EtcdPipelineInfo :=
  { State := PIPELINE_STARTING, SpecCommit := none, Reason := "" }

/-- A `pps.Input`: a node that may carry a git source, over its sub-inputs
(cross and union members). -/
inductive Input where
  | node (Git : Option String) (children : List Input)
  deriving Repr

/-- The field `input.Git`. -/
def Input.Git : Input → Option String
  | .node g _ => g

mutual
/-- Modelled from the spec: `pps.VisitInput` is declared outside `src/`; it
traverses the input tree and applies the visitor to every node (sub-inputs
first, then the node).  The result lists the visited nodes in order. -/
def VisitInput : Input → List Input
  | .node g cs => VisitInputs cs ++ [.node g cs]
/-- The traversal of a list of sub-inputs. -/
def VisitInputs : List Input → List Input
  | [] => []
  | c :: cs => VisitInput c ++ VisitInputs cs
end

/-- A transform descriptor (image and command). -/
structure Transform where
  Image : String
  Cmd : List String
  deriving DecidableEq, Repr

/-- A parallelism spec (`CONSTANT n` or a coefficient relative to cluster
size); only `GetExpectedNumWorkers` interprets it. -/
structure ParallelismSpec where
  Constant : Nat
  Coefficient : Nat
  deriving DecidableEq, Repr

/-- A `v1.ResourceList`: resource name to quantity. -/
abbrev ResourceList := List (String × Nat)

/-- The `pps.PipelineInfo` read from the spec repo: the fields `master.go`
uses. -/
structure PipelineInfo where
  Name : String
  Version : Nat
  State : PipelineState
  SpecCommit : Commit
  Input : Input
  OutputBranch : String
  ParallelismSpec : ParallelismSpec
  ResourceRequests : Option ResourceList
  ResourceLimits : Option ResourceList
  Transform : Transform
  CacheSize : String
  Service : Option String
  deriving Repr

/-- The options `getWorkerOptions` derives from a pipeline, with the
environment-variable list the driver appends to. -/
structure workerOptions where
  rcName : String
  parallelism : Int
  resourceRequests : Option ResourceList
  resourceLimits : Option ResourceList
  transform : Transform
  cacheSize : String
  service : Option String
  specCommit : String
  workerEnv : List (String × String)
  deriving Repr

/-- A `v1.ReplicationController`: name, labels and `Spec.Replicas`. -/
structure ReplicationController where
  Name : String
  Labels : List (String × String)
  Replicas : Int
  deriving DecidableEq, Repr

/-- Go map read `m[key]` on a `map[string]string`: the empty string when the
key is absent (also on a nil map). -/
def mapGet (m : List (String × String)) (key : String) : String :=
  match m.find? (fun kv => kv.1 == key) with
  | some kv => kv.2
  | none => ""

/-- The Go conversion `int32(x)` of an `int`. -/
def int32 (x : Int) : Int :=
  (x + 2147483648) % 4294967296 - 2147483648

/-- A `pps.JobInfo`, of which the monitor reads the state through
`ppsutil.IsTerminal`. -/
structure JobInfo where
  State : String
  deriving DecidableEq, Repr

/-- A `pfs.CommitInfo` delivered by the commit subscription: the commit (repo
name and ID) and whether `Finished` is set. -/
structure CommitInfo where
  Repo : String
  ID : String
  Finished : Bool
  deriving DecidableEq, Repr

/-! ## Environment -/

/-- The collaborators of `master.go`.  Each effectful operation maps the
environment state to a result and a new state; the pure helpers of other
packages are plain functions. -/
structure Env (σ : Type) where
  /-- Call `Services(ns).Delete(name, opts)`. -/
  svcDelete : String → σ → Option Error × σ
  /-- Call `ReplicationControllers(ns).Delete(name, opts)` with
  `OrphanDependents = false`. -/
  rcDelete : String → σ → Option Error × σ
  /-- Call `ReplicationControllers(ns).Get(name, opts)`: Go returns both an
  object and an error. -/
  rcGet : String → σ → (ReplicationController × Option Error) × σ
  /-- Call `ReplicationControllers(ns).Update(rc)`. -/
  rcUpdate : ReplicationController → σ → Option Error × σ
  /-- Call `Services(ns).List` with the githook label selector: the number of
  items, or the text of the error.  The error comes from the client library,
  so it is never of the unexported type `errGithookServiceNotFound`. -/
  svcListGithook : σ → Except String Nat × σ
  /-- Call `Services(ns).Create(assets.GithookService(ns))`. -/
  svcCreateGithook : σ → Option Error × σ
  /-- Call `a.createWorkerRc(options)`. -/
  createWorkerRc : workerOptions → σ → Option Error × σ
  /-- Call `Pods(ns).Watch` with the worker label selector. -/
  podWatch : σ → Option Error × σ
  /-- The transaction of `col.NewSTM`: `none` when it commits. -/
  stm : σ → Option Error × σ
  /-- The token step of `a.sudo`. -/
  sudoToken : σ → Option Error × σ
  /-- The spec-repo read of `ppsutil.GetPipelineInfo`, by spec-commit ID. -/
  readSpec : String → σ → Except Error PipelineInfo × σ
  /-- Call `ppsutil.GetExpectedNumWorkers(kubeClient, spec)`. -/
  GetExpectedNumWorkers : ParallelismSpec → σ → Except Error Int × σ
  /-- Call `pachClient.InspectJobOutputCommit(repo, id, block)`. -/
  InspectJobOutputCommit : String → String → Bool → σ → Except Error JobInfo × σ
  /-- Call `pachClient.BlockCommit(repo, id)`. -/
  BlockCommit : String → String → σ → Option Error × σ
  /-- Helper `isNotFoundErr`. -/
  isNotFoundErr : Error → Bool
  /-- Helper `ppsutil.IsTerminal`. -/
  IsTerminal : String → Bool
  /-- Helper `ppsutil.PipelineRcName(name, version)`. -/
  PipelineRcName : String → Nat → String
  /-- Helper `version.PrettyVersion()`. -/
  PrettyVersion : String
  /-- Helper `ppsutil.GetRequestsResourceListFromPipeline`. -/
  GetRequestsResourceListFromPipeline : PipelineInfo → Except Error ResourceList
  /-- Helper `ppsutil.GetLimitsResourceListFromPipeline`. -/
  GetLimitsResourceListFromPipeline : PipelineInfo → Except Error ResourceList
  /-- Helper `a.getWorkerOptions`. -/
  getWorkerOptions : String → Nat → Int → Option ResourceList → Option ResourceList →
    Transform → String → Option String → String → workerOptions
  /-- Constant `client.PPSPipelineNameEnv`. -/
  PPSPipelineNameEnv : String

/-- A collaborator call, logged with its result when it returns; `attempt`
marks the start of one run of the retried body of
`upsertWorkersForPipeline`, `goMonitor` the `go a.monitorPipeline(...)`
statement and `cancel` a call of a monitor cancel function. -/
inductive Call where
  | svcDelete (name : String) (res : Option Error)
  | rcDelete (name : String) (res : Option Error)
  | rcGet (name : String) (res : Option Error)
  | rcUpdate (name : String) (replicas : Int) (res : Option Error)
  | svcListGithook (res : Except String Nat)
  | svcCreateGithook (res : Option Error)
  | createWorkerRc (rcName : String) (parallelism : Int) (res : Option Error)
  | podWatchStop
  | sudoToken (res : Option Error)
  | readSpec (id : String) (res : Option Error)
  | podWatch (res : Option Error)
  | stm (key : String) (res : Option Error)
  | GetExpectedNumWorkers (res : Except Error Int)
  | InspectJobOutputCommit (repo id : String) (block : Bool) (res : Option Error)
  | BlockCommit (repo id : String) (res : Option Error)
  | attempt (name : String)
  | goMonitor (handle : Nat) (name : String)
  | cancel (handle : Nat)
  deriving Repr

/-- A driver call made by the master loop itself, logged with its result when
it returns. -/
inductive Action where
  | deleteWorkers (pipelineInfo : PipelineInfo) (res : Option Error)
  | checkOrDeployGithookService (res : Option Error)
  | upsertWorkers (pipelineInfo : PipelineInfo) (res : Option Error)
  | setPipelineFailure (pipelineName reason : String) (res : Option Error)
  | scaleUp (pipelineInfo : PipelineInfo) (res : Option Error)
  | scaleDown (pipelineInfo : PipelineInfo) (res : Option Error)
  deriving Repr

/-- The state the embedded code runs on: the environment state, the etcd
pipeline collection `a.pipelines`, the map `a.monitorCancels` (pipeline name
to the handle of the cancel function), the supply of fresh handles, and the
two logs. -/
structure World (σ : Type) where
  kube : σ
  pipelines : String → Option EtcdPipelineInfo
  monitorCancels : String → Option Nat
  nextHandle : Nat
  calls : List Call
  acts : List Action

/-- Append a call to the log. -/
def World.log {σ : Type} (w : World σ) (c : Call) : World σ :=
  { w with calls := w.calls ++ [c] }

/-- Append a master-level driver call to the log. -/
def World.act {σ : Type} (w : World σ) (a : Action) : World σ :=
  { w with acts := w.acts ++ [a] }

/-- Run an environment operation that returns an error or nothing, and log
it. -/
def World.run {σ : Type} (w : World σ) (op : σ → Option Error × σ)
    (c : Option Error → Call) : Option Error × World σ :=
  let r := op w.kube
  (r.1, { w with kube := r.2, calls := w.calls ++ [c r.1] })

/-- Run an environment operation that returns a value or an error, and log
it. -/
def World.runE {σ α : Type} (w : World σ) (op : σ → Except Error α × σ)
    (c : Except Error α → Call) : Except Error α × World σ :=
  let r := op w.kube
  (r.1, { w with kube := r.2, calls := w.calls ++ [c r.1] })

/-- Drop the error of a logged result. -/
def errOf {α : Type} : Except Error α → Option Error
  | .error e => some e
  | .ok _ => none

/-! ## Worker-group driver -/

section Driver

variable {σ : Type}

/-- The guard `if err != nil { if !isNotFoundErr(err) { return err } }` that
follows every delete call: the error to return, if any. -/
def notFoundGuard (env : Env σ) : Option Error → Option Error
  | some err => if !env.isNotFoundErr err then some err else none
  | none => none

/-- Embeds master.go 347-351: call the cancel function registered for the
pipeline, if there is one, and delete its entry of `a.monitorCancels`. -/
def cancelMonitor (name : String) (w : World σ) : World σ :=
  match w.monitorCancels name with
  | some cancel =>
    { w.log (.cancel cancel) with
      monitorCancels := fun k => if k = name then none else w.monitorCancels k }
  | none => w

/-- Embeds `deleteWorkersForPipeline` (master.go 346-379). -/
def deleteWorkersForPipeline (env : Env σ) (pipelineInfo : PipelineInfo)
    (w : World σ) : Option Error × World σ :=
  let w0 : World σ := cancelMonitor pipelineInfo.Name w
  let rcName := env.PipelineRcName pipelineInfo.Name pipelineInfo.Version
  let r1 := w0.run (env.svcDelete rcName) (Call.svcDelete rcName)
  match notFoundGuard env r1.1 with
  | some err => (some err, r1.2)
  | none =>
    let r2 : Option Error × World σ :=
      match pipelineInfo.Service with
      | some _ => r1.2.run (env.svcDelete (rcName ++ "-user")) (Call.svcDelete (rcName ++ "-user"))
      | none => (none, r1.2)
    match notFoundGuard env r2.1 with
    | some err => (some err, r2.2)
    | none =>
      let r3 := r2.2.run (env.rcDelete rcName) (Call.rcDelete rcName)
      (notFoundGuard env r3.1, r3.2)

/-- The retried operation of `upsertWorkersForPipeline` (master.go 276-327):
one attempt to create the worker replication controller. -/
def upsertBody (env : Env σ) (pipelineInfo : PipelineInfo)
    (w : World σ) : Option Error × World σ :=
  let w0 := w.log (.attempt pipelineInfo.Name)
  let requests : Except Error (Option ResourceList) :=
    match pipelineInfo.ResourceRequests with
    | some _ => (env.GetRequestsResourceListFromPipeline pipelineInfo).map some
    | none => .ok none
  match requests with
  | .error err => (some err, w0)
  | .ok resourceRequests =>
    let limits : Except Error (Option ResourceList) :=
      match pipelineInfo.ResourceLimits with
      | some _ => (env.GetLimitsResourceListFromPipeline pipelineInfo).map some
      | none => .ok none
    match limits with
    | .error err => (some err, w0)
    | .ok resourceLimits =>
      let rcName := env.PipelineRcName pipelineInfo.Name pipelineInfo.Version
      -- the error of rc.Get is only logged; the returned object is used either way
      let g := env.rcGet rcName w0.kube
      let w1 : World σ := { w0 with kube := g.2, calls := w0.calls ++ [Call.rcGet rcName g.1.2] }
      let workerRc := g.1.1
      let d : Option Error × World σ :=
        if mapGet workerRc.Labels "version" != env.PrettyVersion then
          deleteWorkersForPipeline env pipelineInfo w1
        else (none, w1)
      match d.1 with
      | some err => (some err, d.2)
      | none =>
        let options := env.getWorkerOptions pipelineInfo.Name pipelineInfo.Version 0
          resourceRequests resourceLimits pipelineInfo.Transform pipelineInfo.CacheSize
          pipelineInfo.Service pipelineInfo.SpecCommit.ID
        let options := { options with
          workerEnv := options.workerEnv ++ [(env.PPSPipelineNameEnv, pipelineInfo.Name)] }
        d.2.run (env.createWorkerRc options)
          (Call.createWorkerRc options.rcName options.parallelism)

/-- The loop `backoff.RetryNotify(body, backoff.NewInfiniteBackOff(), notify)`
of `upsertWorkersForPipeline` (master.go 276, 327-334) with its notify
callback, which counts the failures in `errCount` and gives up with the error
once `errCount >= 3`.  An infinite backoff never stops by itself, so the loop
ends on the first successful attempt or on the first error of the callback. -/
def upsertRetry (env : Env σ) (pipelineInfo : PipelineInfo) (errCount : Nat)
    (w : World σ) : Option Error × World σ :=
  match upsertBody env pipelineInfo w with
  | (none, w1) => (none, w1)
  | (some err, w1) =>
    if errCount + 1 ≥ 3 then (some err, w1)
    else upsertRetry env pipelineInfo (errCount + 1) w1
termination_by 3 - errCount
decreasing_by omega

/-- Embeds `upsertWorkersForPipeline` (master.go 274-344). -/
def upsertWorkersForPipeline (env : Env σ) (pipelineInfo : PipelineInfo)
    (w : World σ) : Option Error × World σ :=
  match upsertRetry env pipelineInfo 0 w with
  | (some err, w1) => (some err, w1)
  | (none, w1) =>
    match w1.monitorCancels pipelineInfo.Name with
    | some _ => (none, w1)
    | none =>
      (none, { w1 with
        monitorCancels :=
          fun k => if k = pipelineInfo.Name then some w1.nextHandle else w1.monitorCancels k
        nextHandle := w1.nextHandle + 1
        calls := w1.calls ++ [Call.goMonitor w1.nextHandle pipelineInfo.Name] })

/-- Embeds `scaleDownWorkersForPipeline` (master.go 381-392). -/
def scaleDownWorkersForPipeline (env : Env σ) (pipelineInfo : PipelineInfo)
    (w : World σ) : Option Error × World σ :=
  let rcName := env.PipelineRcName pipelineInfo.Name pipelineInfo.Version
  let g := env.rcGet rcName w.kube
  let w1 : World σ := { w with kube := g.2, calls := w.calls ++ [Call.rcGet rcName g.1.2] }
  match g.1.2 with
  | some err => (some err, w1)
  | none =>
    let workerRc := { g.1.1 with Replicas := 0 }
    w1.run (env.rcUpdate workerRc) (Call.rcUpdate workerRc.Name workerRc.Replicas)

/-- Embeds `scaleUpWorkersForPipeline` (master.go 394-410). -/
def scaleUpWorkersForPipeline (env : Env σ) (pipelineInfo : PipelineInfo)
    (w : World σ) : Option Error × World σ :=
  let rcName := env.PipelineRcName pipelineInfo.Name pipelineInfo.Version
  let g := env.rcGet rcName w.kube
  let w1 : World σ := { w with kube := g.2, calls := w.calls ++ [Call.rcGet rcName g.1.2] }
  match g.1.2 with
  | some err => (some err, w1)
  | none =>
    let n := w1.runE (env.GetExpectedNumWorkers pipelineInfo.ParallelismSpec)
      Call.GetExpectedNumWorkers
    let parallelism : Int :=
      match n.1 with
      | .ok p => p
      | .error _ => 1
    let workerRc := { g.1.1 with Replicas := int32 parallelism }
    n.2.run (env.rcUpdate workerRc) (Call.rcUpdate workerRc.Name workerRc.Replicas)

/-- Embeds `getGithookService` (master.go 251-272): the label lookup, and the
typed not-found error unless exactly one service matches. -/
def getGithookService (env : Env σ) (w : World σ) : Option Error × World σ :=
  let r := env.svcListGithook w.kube
  let w1 : World σ := { w with kube := r.2, calls := w.calls ++ [Call.svcListGithook r.1] }
  match r.1 with
  | .error msg => (some (.plain msg), w1)
  | .ok n =>
    if n != 1 then
      (some (Error.errGithookServiceNotFound
        ("expected 1 githook service but found " ++ toString n)), w1)
    else (none, w1)

/-- Embeds `checkOrDeployGithookService` (master.go 237-249). -/
def checkOrDeployGithookService (env : Env σ) (w : World σ) : Option Error × World σ :=
  let g := getGithookService env w
  match g.1 with
  | some (Error.errGithookServiceNotFound _) =>
    g.2.run env.svcCreateGithook Call.svcCreateGithook
  | some err => (some err, g.2)
  | none => (none, g.2)

/-- Modelled from the spec: `col.NewSTM` and `Upsert` are declared outside
`src/`; within a transaction, `Upsert(key, placeholder, mutator)` reads the
current value (or the default if absent), invokes the mutator on it and writes
the result; nothing is written when the mutator or the transaction fails. -/
def stmUpsert (env : Env σ) (key : String)
    (mutator : EtcdPipelineInfo → EtcdPipelineInfo × Option Error)
    (w : World σ) : Option Error × World σ :=
  let t := w.run env.stm (Call.stm key)
  match t.1 with
  | some err => (some err, t.2)
  | none =>
    let m := mutator ((t.2.pipelines key).getD EtcdPipelineInfo.zero)
    match m.2 with
    | some err => (some err, t.2)
    | none =>
      (none, { t.2 with pipelines := fun k => if k = key then some m.1 else t.2.pipelines k })

/-- Modelled from the spec: `ppsutil.FailPipeline`, which `setPipelineFailure`
(master.go 233-235) forwards to, is declared outside `src/`; it is an STM write
that sets the pipeline to FAILURE with the given reason. -/
def setPipelineFailure (env : Env σ) (pipelineName reason : String)
    (w : World σ) : Option Error × World σ :=
  stmUpsert env pipelineName
    (fun p => ({ p with State := PIPELINE_FAILURE, Reason := reason }, none)) w

end Driver

/-! ## Master loop -/

/-- The kind of a pipeline watch event (`watch.EventType`). -/
inductive EventType where
  | EventPut
  | EventDelete
  | EventError
  deriving DecidableEq, Repr

/-- An event of the pipeline watch (`WatchWithPrev`): its error, its kind, what
`Unmarshal` yields (key and value), and, when `PrevKey` is not nil, what
`UnmarshalPrev` yields. -/
structure PipelineEvent where
  Err : Option Error
  Typ : EventType
  Unmarshal : Except Error (String × EtcdPipelineInfo)
  Prev : Option (Except Error (String × EtcdPipelineInfo))

/-- How one iteration of a loop ends: it goes on to the next iteration
(`next`, also for `continue`), the enclosing function returns an error, or a
nil pointer is dereferenced. -/
inductive Outcome where
  | next
  | ret (err : Error)
  | crash
  deriving DecidableEq, Repr

/-- The local variables of the `EventPut` case after master.go 92-120:
`prev` holds `prevPipelinePtr` and `prevPipelineInfo` when `event.PrevKey` is
not nil. -/
structure PutLocals where
  pipelineName : String
  pipelinePtr : EtcdPipelineInfo
  pipelineInfo : PipelineInfo
  prev : Option (EtcdPipelineInfo × PipelineInfo)

/-- The variable `prevPipelinePtr`: the zero value unless `UnmarshalPrev`
filled it. -/
def PutLocals.prevPipelinePtr (l : PutLocals) : EtcdPipelineInfo :=
  match l.prev with
  | some p => p.1
  | none => EtcdPipelineInfo.zero

/-- The waiting state of a container: reason and message. -/
structure ContainerStateWaiting where
  Reason : String
  Message : String
  deriving DecidableEq, Repr

/-- A `v1.ContainerStatus`: the container name and `State.Waiting` (nil when
the container is not waiting). -/
structure ContainerStatus where
  Name : String
  Waiting : Option ContainerStateWaiting
  deriving DecidableEq, Repr

/-- A `v1.Pod`: annotations, phase, status message and container statuses. -/
structure Pod where
  Annotations : List (String × String)
  Phase : String
  Message : String
  ContainerStatuses : List ContainerStatus
  deriving DecidableEq, Repr

/-- The object of a pod-watch event: a `*v1.Pod` or anything else. -/
inductive KubeObject where
  | pod (p : Pod)
  | other
  deriving DecidableEq, Repr

/-- An event of the pod watch (`kube_watch.Event`); the type is a string, and
`kube_watch.Error` is `"ERROR"`. -/
structure KubeEvent where
  Typ : String
  Object : KubeObject
  deriving DecidableEq, Repr

/-- The variables of `master` that hold the pod watch: whether
`kubePipelineWatch` and `watchChan` are non-nil. -/
structure WatchVars where
  kubePipelineWatch : Bool
  watchChan : Bool
  deriving DecidableEq, Repr

/-- The map `failures` (master.go 31-36). -/
def failures (reason : String) : Bool :=
  reason == "InvalidImageName" || reason == "ErrImagePull"

section Master

variable {σ : Type}

/-- Modelled from the spec: `ppsutil.GetPipelineInfo` is declared outside
`src/`; it retrieves the full PipelineInfo of a record from the spec repo (at
the record's spec commit), and the result carries the record's state and spec
commit.  A record without a spec commit has no ID to read at. -/
def GetPipelineInfo (env : Env σ) (ptr : EtcdPipelineInfo)
    (w : World σ) : Except Outcome PipelineInfo × World σ :=
  match ptr.SpecCommit with
  | none => (.error .crash, w)
  | some c =>
    let r := w.runE (env.readSpec c.ID) (fun x => Call.readSpec c.ID (errOf x))
    match r.1 with
    | .error err => (.error (.ret err), r.2)
    | .ok info => (.ok { info with State := ptr.State, SpecCommit := c }, r.2)

/-- The error `fmt.Errorf("watch event had no pipelineInfo: %v", err)`. -/
def noPipelineInfo : Outcome → Outcome
  | .ret err => .ret (.plain ("watch event had no pipelineInfo: " ++ err.text))
  | o => o

/-- Embeds master.go 92-120: decode the event and retrieve the PipelineInfo of
the current and, when there is one, of the previous value, under `a.sudo`. -/
def putLocals (env : Env σ) (event : PipelineEvent)
    (w : World σ) : Except Outcome PutLocals × World σ :=
  match event.Unmarshal with
  | .error err => (.error (.ret err), w)
  | .ok (pipelineName, pipelinePtr) =>
    let t := w.run env.sudoToken Call.sudoToken
    match t.1 with
    | some err => (.error (noPipelineInfo (.ret err)), t.2)
    | none =>
      let c := GetPipelineInfo env pipelinePtr t.2
      match c.1 with
      | .error o => (.error (noPipelineInfo o), c.2)
      | .ok pipelineInfo =>
        match event.Prev with
        | none =>
          (.ok { pipelineName := pipelineName, pipelinePtr := pipelinePtr,
                 pipelineInfo := pipelineInfo, prev := none }, c.2)
        | some (.error err) => (.error (noPipelineInfo (.ret err)), c.2)
        | some (.ok (prevName, prevPipelinePtr)) =>
          let q := GetPipelineInfo env prevPipelinePtr c.2
          match q.1 with
          | .error o => (.error (noPipelineInfo o), q.2)
          | .ok prevPipelineInfo =>
            (.ok { pipelineName := prevName, pipelinePtr := pipelinePtr,
                   pipelineInfo := pipelineInfo,
                   prev := some (prevPipelinePtr, prevPipelineInfo) }, q.2)

/-- The master calls `deleteWorkersForPipeline`. -/
def mDeleteWorkers (env : Env σ) (pipelineInfo : PipelineInfo)
    (w : World σ) : Option Error × World σ :=
  let r := deleteWorkersForPipeline env pipelineInfo w
  (r.1, r.2.act (.deleteWorkers pipelineInfo r.1))

/-- The master calls `checkOrDeployGithookService`. -/
def mCheckOrDeployGithookService (env : Env σ) (w : World σ) : Option Error × World σ :=
  let r := checkOrDeployGithookService env w
  (r.1, r.2.act (.checkOrDeployGithookService r.1))

/-- The master calls `upsertWorkersForPipeline`. -/
def mUpsertWorkers (env : Env σ) (pipelineInfo : PipelineInfo)
    (w : World σ) : Option Error × World σ :=
  let r := upsertWorkersForPipeline env pipelineInfo w
  (r.1, r.2.act (.upsertWorkers pipelineInfo r.1))

/-- The master calls `setPipelineFailure`. -/
def mSetPipelineFailure (env : Env σ) (pipelineName reason : String)
    (w : World σ) : Option Error × World σ :=
  let r := setPipelineFailure env pipelineName reason w
  (r.1, r.2.act (.setPipelineFailure pipelineName reason r.1))

/-- The master calls `scaleUpWorkersForPipeline`. -/
def mScaleUp (env : Env σ) (pipelineInfo : PipelineInfo)
    (w : World σ) : Option Error × World σ :=
  let r := scaleUpWorkersForPipeline env pipelineInfo w
  (r.1, r.2.act (.scaleUp pipelineInfo r.1))

/-- The master calls `scaleDownWorkersForPipeline`. -/
def mScaleDown (env : Env σ) (pipelineInfo : PipelineInfo)
    (w : World σ) : Option Error × World σ :=
  let r := scaleDownWorkersForPipeline env pipelineInfo w
  (r.1, r.2.act (.scaleDown pipelineInfo r.1))

/-- A stage of the loop body: `some o` ends the iteration with outcome `o`,
`none` falls through to the next statement. -/
abbrev Stage (σ : Type) := World σ → Option Outcome × World σ

/-- Sequential composition of statements. -/
def Stage.andThen (a b : Stage σ) : Stage σ := fun w =>
  match a w with
  | (some o, w1) => (some o, w1)
  | (none, w1) => b w1

/-- The statement `if err := f(); err != nil { return err }`. -/
def orReturn (f : World σ → Option Error × World σ) : Stage σ := fun w =>
  match f w with
  | (some err, w1) => (some (.ret err), w1)
  | (none, w1) => (none, w1)

/-- The statement `if cond { body }`. -/
def whenStage (cond : Bool) (body : Stage σ) : Stage σ := fun w =>
  if cond then body w else (none, w)

/-- The statement of master.go 145-150 and 168-173: upsert the workers; on an
error set the pipeline to FAILURE with the reason
`"failed to create workers: " + err.Error()`, return if that fails, and
`continue` otherwise. -/
def upsertOrFail (env : Env σ) (l : PutLocals) : Stage σ := fun w =>
  match mUpsertWorkers env l.pipelineInfo w with
  | (none, w1) => (none, w1)
  | (some err, w1) =>
    match mSetPipelineFailure env l.pipelineName
        ("failed to create workers: " ++ err.text) w1 with
    | (some err2, w2) => (some (.ret err2), w2)
    | (none, w2) => (some .next, w2)

/-- Variable `hasGitInput` (master.go 130-135). -/
def hasGitInput (pipelineInfo : PipelineInfo) : Bool :=
  (VisitInput pipelineInfo.Input).any (fun input => input.Git.isSome)

/-- Embeds master.go 122-128: if the pipeline has been stopped, delete its
workers. -/
def stageStopped (env : Env σ) (l : PutLocals) : Stage σ :=
  whenStage (pipelineStateToStopped l.pipelinePtr.State)
    (orReturn (mDeleteWorkers env l.pipelineInfo))

/-- Embeds master.go 137-151: if the pipeline has been restarted, create
workers. -/
def stageRestarted (env : Env σ) (l : PutLocals) : Stage σ :=
  whenStage (!pipelineStateToStopped l.pipelinePtr.State && l.prev.isSome &&
      pipelineStateToStopped l.prevPipelinePtr.State)
    ((whenStage (hasGitInput l.pipelineInfo)
        (orReturn (mCheckOrDeployGithookService env))).andThen
      (upsertOrFail env l))

/-- The value of `pipelineUpserted` (master.go 154-155); `none` when
`pipelinePtr.SpecCommit` is nil and is dereferenced. -/
def pipelineUpserted (l : PutLocals) : Option Bool :=
  match l.prevPipelinePtr.SpecCommit with
  | none => some true
  | some prevCommit =>
    match l.pipelinePtr.SpecCommit with
    | none => none
    | some commit => some (commit.ID != prevCommit.ID)

/-- Embeds master.go 153-174: if the pipeline has been created or updated,
create new workers. -/
def stageUpserted (env : Env σ) (l : PutLocals) : Stage σ := fun w =>
  match pipelineUpserted l with
  | none => (some .crash, w)
  | some upserted =>
    whenStage (upserted && !pipelineStateToStopped l.pipelinePtr.State)
      (((match l.prev with
          | some p => orReturn (mDeleteWorkers env p.2)
          | none => fun w1 => (none, w1)).andThen
        (whenStage (hasGitInput l.pipelineInfo)
          (orReturn (mCheckOrDeployGithookService env)))).andThen
        (upsertOrFail env l)) w

/-- Embeds master.go 175-184: scale the workers up for RUNNING and down for
STANDBY. -/
def stageScale (env : Env σ) (l : PutLocals) : Stage σ :=
  (whenStage (l.pipelineInfo.State == PIPELINE_RUNNING)
      (orReturn (mScaleUp env l.pipelineInfo))).andThen
    (whenStage (l.pipelineInfo.State == PIPELINE_STANDBY)
      (orReturn (mScaleDown env l.pipelineInfo)))

/-- Embeds master.go 122-184: the reconciliation of one decoded PUT event. -/
def reconcile (env : Env σ) (l : PutLocals) : Stage σ :=
  (((stageStopped env l).andThen (stageRestarted env l)).andThen
    (stageUpserted env l)).andThen (stageScale env l)

/-- The outcome of a finished loop body: falling off the end goes on to the
next iteration. -/
def finish (r : Option Outcome × World σ) : Outcome × World σ :=
  (r.1.getD .next, r.2)

/-- Embeds the pipeline-watch arm of the master loop (master.go 86-185). -/
def handlePipelineEvent (env : Env σ) (event : PipelineEvent)
    (w : World σ) : Outcome × World σ :=
  match event.Err with
  | some err => (.ret (.plain ("event err: " ++ err.text)), w)
  | none =>
    match event.Typ with
    | .EventPut =>
      match putLocals env event w with
      | (.error o, w1) => (o, w1)
      | (.ok l, w1) => finish (reconcile env l w1)
    | _ => (.next, w)

/-- Embeds master.go 191-210: on an event of type `Error` or of empty type,
stop the pod watch and open a new one. -/
def rebuildWatch (env : Env σ) (event : KubeEvent) (v : WatchVars)
    (w : World σ) : WatchVars × World σ :=
  if event.Typ == "ERROR" || event.Typ == "" then
    let w0 := if v.kubePipelineWatch then w.log .podWatchStop else w
    let r := w0.run env.podWatch Call.podWatch
    match r.1 with
    | some _ => ({ kubePipelineWatch := false, watchChan := false }, r.2)
    | none => ({ kubePipelineWatch := true, watchChan := true }, r.2)
  else (v, w)

/-- Embeds the loop of master.go 218-224 over the container statuses of a
pod. -/
def failContainers (env : Env σ) (pod : Pod) :
    List ContainerStatus → World σ → Option Error × World σ
  | [], w => (none, w)
  | status :: rest, w =>
    match status.Waiting with
    | some waiting =>
      if status.Name == "user" && failures waiting.Reason then
        match mSetPipelineFailure env (mapGet pod.Annotations "pipelineName")
            waiting.Message w with
        | (some err, w1) => (some err, w1)
        | (none, w1) => failContainers env pod rest w1
      else failContainers env pod rest w
    | none => failContainers env pod rest w

/-- Embeds the pod-watch arm of the master loop (master.go 186-224). -/
def handlePodEvent (env : Env σ) (event : KubeEvent) (v : WatchVars)
    (w : World σ) : Outcome × WatchVars × World σ :=
  let r := rebuildWatch env event v w
  match event.Object with
  | .other => (.next, r.1, r.2)
  | .pod pod =>
    match failContainers env pod pod.ContainerStatuses r.2 with
    | (some err, w1) => (.ret err, r.1, w1)
    | (none, w1) => (.next, r.1, w1)

/-- What the `select` of the master loop receives in one iteration. -/
inductive MasterEvent where
  | pipeline (event : PipelineEvent)
  | pod (event : KubeEvent)

/-- Embeds the `for { select { ... } }` loop of `master` (master.go 84-226) on
the events it receives, in order: it runs until an iteration returns an error
(or crashes); `next` means that all the events have been handled and the loop
waits for more.  A nil `watchChan` delivers nothing, so a pod event cannot be
received then, which stops the run (`none`). -/
def masterLoop (env : Env σ) :
    List MasterEvent → WatchVars → World σ → Option (Outcome × WatchVars × World σ)
  | [], v, w => some (.next, v, w)
  | .pipeline event :: rest, v, w =>
    match handlePipelineEvent env event w with
    | (.next, w1) => masterLoop env rest v w1
    | (o, w1) => some (o, v, w1)
  | .pod event :: rest, v, w =>
    if v.watchChan then
      match handlePodEvent env event v w with
      | (.next, v1, w1) => masterLoop env rest v1 w1
      | (o, v1, w1) => some (o, v1, w1)
    else none

end Master

/-! ## Per-pipeline monitor -/

/-- The variable `standbyChan` of `monitorPipeline`: a closed channel, whose
receive is always ready, or nil, whose receive never is. -/
inductive StandbyChan where
  | closed
  | nil
  deriving DecidableEq, Repr

/-- The arm the `select` of the monitor loop takes in one iteration: it
receives a commit from `ciChan`, or it receives from `standbyChan`. -/
inductive Arm where
  | ciChan (ci : CommitInfo)
  | standbyChan
  deriving DecidableEq, Repr

/-- The mutator of the commit arm (master.go 450-456): a PAUSED record is left
as it is, any other record is set to RUNNING; it returns nil. -/
def runningMutator (pipelinePtr : EtcdPipelineInfo) : EtcdPipelineInfo × Option Error :=
  if pipelinePtr.State = PIPELINE_PAUSED then (pipelinePtr, none)
  else ({ pipelinePtr with State := PIPELINE_RUNNING }, none)

/-- The mutator of the standby arm (master.go 474-480): a PAUSED record is
left as it is, any other record is set to STANDBY; it returns nil. -/
def standbyMutator (pipelinePtr : EtcdPipelineInfo) : EtcdPipelineInfo × Option Error :=
  if pipelinePtr.State = PIPELINE_PAUSED then (pipelinePtr, none)
  else ({ pipelinePtr with State := PIPELINE_STANDBY }, none)

section Monitor

variable {σ : Type}

/-- Whether the `select` of the monitor loop can take an arm: the standby arm
needs `standbyChan` to be the closed channel; the commit arm needs a commit
sent on `ciChan`, which the choice of the arm supplies. -/
def armReady (standbyChan : StandbyChan) : Arm → Bool
  | .ciChan _ => true
  | .standbyChan => standbyChan == .closed

/-- Embeds master.go 433-446: for a finished commit, inspect the job; `some`
ends the iteration (an error, or `continue` for a terminal job). -/
def checkFinished (env : Env σ) (ci : CommitInfo) : Stage σ := fun w =>
  if ci.Finished then
    let r := w.runE (env.InspectJobOutputCommit ci.Repo ci.ID false)
      (fun x => Call.InspectJobOutputCommit ci.Repo ci.ID false (errOf x))
    match r.1 with
    | .error err => (some (.ret err), r.2)
    | .ok jobInfo => if env.IsTerminal jobInfo.State then (some .next, r.2) else (none, r.2)
  else (none, w)

/-- Embeds one iteration of the `select` loop of `monitorPipeline`
(master.go 431-486) that takes the given arm. -/
def monitorStep (env : Env σ) (pipelineInfo : PipelineInfo) (arm : Arm)
    (standbyChan : StandbyChan) (w : World σ) : Outcome × StandbyChan × World σ :=
  match arm with
  | .ciChan ci =>
    match checkFinished env ci w with
    | (some o, w1) => (o, standbyChan, w1)
    | (none, w1) =>
      match stmUpsert env pipelineInfo.Name runningMutator w1 with
      | (some err, w2) => (.ret err, standbyChan, w2)
      | (none, w2) =>
        match w2.run (env.BlockCommit ci.Repo ci.ID) (Call.BlockCommit ci.Repo ci.ID) with
        | (some err, w3) => (.ret err, .closed, w3)
        | (none, w3) =>
          let r := w3.runE (env.InspectJobOutputCommit ci.Repo ci.ID true)
            (fun x => Call.InspectJobOutputCommit ci.Repo ci.ID true (errOf x))
          match r.1 with
          | .error err => (.ret err, .closed, r.2)
          | .ok _ => (.next, .closed, r.2)
  | .standbyChan =>
    match stmUpsert env pipelineInfo.Name standbyMutator w with
    | (some err, w1) => (.ret err, standbyChan, w1)
    | (none, w1) => (.next, .nil, w1)

/-- Embeds one run of the body that `monitorPipeline` retries
(master.go 413-488) on the arms its `select` takes, in order, starting from
the given `standbyChan`: it runs until an iteration returns an error; an arm
that is not ready cannot be taken, which stops the run (`none`). -/
def monitorLoop (env : Env σ) (pipelineInfo : PipelineInfo) :
    List Arm → StandbyChan → World σ → Option (Outcome × StandbyChan × World σ)
  | [], standbyChan, w => some (.next, standbyChan, w)
  | arm :: rest, standbyChan, w =>
    if armReady standbyChan arm then
      match monitorStep env pipelineInfo arm standbyChan w with
      | (.next, c1, w1) => monitorLoop env pipelineInfo rest c1 w1
      | (o, c1, w1) => some (o, c1, w1)
    else none

end Monitor

/-! ## Properties of the master-level log -/

/-- In a list of driver calls, every `upsertWorkers` call is immediately
preceded by a `checkOrDeployGithookService` call that returned success. -/
def UpsertsGuarded (new : List Action) : Prop :=
  ∀ pre post info res, new = pre ++ Action.upsertWorkers info res :: post →
    ∃ before, pre = before ++ [Action.checkOrDeployGithookService none]

/-- In a list of driver calls of an iteration with outcome `o`, a failed
`checkOrDeployGithookService` call is the last call, and the iteration returns
its error. -/
def GithookFailureReturns (o : Option Outcome) (new : List Action) : Prop :=
  ∀ pre post err, new = pre ++ Action.checkOrDeployGithookService (some err) :: post →
    post = [] ∧ o = some (.ret err)

/-- A statement keeps the githook discipline: from any world, the driver calls
it adds to the log satisfy `UpsertsGuarded` and `GithookFailureReturns`. -/
def GitOk {σ : Type} (f : Stage σ) : Prop :=
  ∀ w, ∃ new, (f w).2.acts = w.acts ++ new ∧ UpsertsGuarded new ∧
    GithookFailureReturns (f w).1 new

/-- The spec's words for the pod event: the waiting messages of the container
statuses named `user` that are in Waiting with a reason in
`{ InvalidImageName, ErrImagePull }`, in order. -/
def waitingFailures (statuses : List ContainerStatus) : List String :=
  statuses.filterMap fun status =>
    match status.Waiting with
    | some waiting =>
      if status.Name = "user" ∧
          (waiting.Reason = "InvalidImageName" ∨ waiting.Reason = "ErrImagePull") then
        some waiting.Message
      else none
    | none => none

/-- The `setPipelineFailure` calls of a pipeline with the given reasons and
results, in order. -/
def failureCalls (pipelineName : String) (reasons : List String)
    (results : List (Option Error)) : List Action :=
  (reasons.zip results).map fun x => Action.setPipelineFailure pipelineName x.1 x.2

/-- The spec's words for `deleteWorkers`: the delete steps in order, each a
service (`false`) or a replica group (`true`) with its name: the primary worker
service, the `-user` service if the pipeline declares a service, and the
replica group. -/
def deleteSteps (rcName : String) (pipelineInfo : PipelineInfo) : List (Bool × String) :=
  [(false, rcName)] ++
    (if pipelineInfo.Service.isSome then [(false, rcName ++ "-user")] else []) ++
    [(true, rcName)]

/-- The logged call of a delete step with its result. -/
def stepCall (x : (Bool × String) × Option Error) : Call :=
  if x.1.1 then Call.rcDelete x.1.2 x.2 else Call.svcDelete x.1.2 x.2

/-- The logged call of the monitor cancel function of a pipeline, if one is
registered. -/
def cancelCalls (monitorCancels : String → Option Nat) (name : String) : List Call :=
  match monitorCancels name with
  | some cancel => [Call.cancel cancel]
  | none => []

/-- The spec's words for the retry of `upsertWorkers`: the create body is
attempted up to `n` times, stopping at the first attempt that succeeds; the
result lists the attempts, each with its outcome and the world it leaves. -/
def bodyRuns {σ : Type} (env : Env σ) (pipelineInfo : PipelineInfo) :
    Nat → World σ → List (Option Error × World σ)
  | 0, _ => []
  | n + 1, w =>
    (upsertBody env pipelineInfo w) ::
      (if (upsertBody env pipelineInfo w).1.isNone then []
       else bodyRuns env pipelineInfo n (upsertBody env pipelineInfo w).2)

/-- The number of attempts of the create body in a call log. -/
def attemptCount (calls : List Call) : Nat :=
  (calls.filter fun c => match c with
    | .attempt _ => true
    | _ => false).length

/-- The number of monitors started in a call log. -/
def monitorStarts (calls : List Call) : Nat :=
  (calls.filter fun c => match c with
    | .goMonitor _ _ => true
    | _ => false).length

/-- In a list of driver calls of an iteration with outcome `o`, a failed
`upsertWorkers` call is followed by exactly one more call, `setPipelineFailure`
for the pipeline with the reason `"failed to create workers: "` and the text of
the error; the iteration goes on to the next event when that call succeeds and
returns its error when it fails. -/
def UpsertFailureHandled (pipelineName : String) (o : Option Outcome)
    (new : List Action) : Prop :=
  ∀ pre post info e, new = pre ++ Action.upsertWorkers info (some e) :: post →
    ∃ res,
      post = [Action.setPipelineFailure pipelineName
        ("failed to create workers: " ++ e.text) res] ∧
      o = some (match res with
        | some e2 => .ret e2
        | none => .next)

/-- A list of driver calls without `scaleUp` and `scaleDown`. -/
def NoScale (new : List Action) : Prop :=
  ∀ a ∈ new, (∀ info r, a ≠ Action.scaleUp info r) ∧ (∀ info r, a ≠ Action.scaleDown info r)

/-- A statement handles upsert failures: from any world, the driver calls it
adds to the log satisfy `UpsertFailureHandled` and `NoScale`. -/
def FailOk {σ : Type} (pipelineName : String) (f : Stage σ) : Prop :=
  ∀ w, ∃ new, (f w).2.acts = w.acts ++ new ∧ UpsertFailureHandled pipelineName (f w).1 new ∧
    NoScale new

/-! ## A model of the cluster -/

/-- What the orchestrator stores for a replication controller besides its
name. -/
structure RCData where
  Labels : List (String × String)
  Replicas : Int
  deriving DecidableEq, Repr

/-- Modelled from the spec: the collaborators are outside `src/`.  The
orchestrator holds replica groups and services by name (the githook service
under the name `githook`, next to `foreignGithook` other services that carry
the githook labels) and a number of nodes; the spec repo holds a PipelineInfo
per spec-commit ID; the data plane holds the state of the job of a commit. -/
structure Cluster where
  rcs : String → Option RCData
  services : String → Bool
  foreignGithook : Nat
  nodes : Nat
  specs : String → Option PipelineInfo
  jobs : String → String → Option String

/-- The not-found sentinel of the orchestrator model. -/
def errNotFound : Error := .plain "not found"

/-- The already-exists error of the orchestrator model. -/
def errAlreadyExists : Error := .plain "already exists"

/-- Modelled from the spec: the replica group of a pipeline is named
`pipeline-<name>-v<version>`. -/
def rcNameOf (name : String) (version : Nat) : String :=
  "pipeline-" ++ name ++ "-v" ++ toString version

/-- Modelled from the spec: the collaborators are outside `src/`.  Delete,
get and update fail with the not-found sentinel on an absent object and
succeed otherwise; the githook lookup counts the services that carry the
githook labels; creating the githook service fails when it exists;
`createWorkerRc` creates the replica group at the replica count of its options
with the `version` label of the control plane, its service and, for a pipeline
that declares one, the `-user` service, and leaves what already exists as it
is; the expected number of workers is `CONSTANT n`, or the coefficient
relative to the cluster size. -/
def clusterEnv (prettyVersion : String) : Env Cluster where
  svcDelete name c :=
    if c.services name then
      (none, { c with services := fun k => if k = name then false else c.services k })
    else (some errNotFound, c)
  rcDelete name c :=
    match c.rcs name with
    | some _ => (none, { c with rcs := fun k => if k = name then none else c.rcs k })
    | none => (some errNotFound, c)
  rcGet name c :=
    match c.rcs name with
    | some d => (({ Name := name, Labels := d.Labels, Replicas := d.Replicas }, none), c)
    | none => (({ Name := "", Labels := [], Replicas := 0 }, some errNotFound), c)
  rcUpdate rc c :=
    match c.rcs rc.Name with
    | some _ =>
      (none, { c with rcs := fun k =>
        if k = rc.Name then some { Labels := rc.Labels, Replicas := rc.Replicas } else c.rcs k })
    | none => (some errNotFound, c)
  svcListGithook c := (.ok ((if c.services "githook" then 1 else 0) + c.foreignGithook), c)
  svcCreateGithook c :=
    if c.services "githook" then (some errAlreadyExists, c)
    else (none, { c with services := fun k => if k = "githook" then true else c.services k })
  createWorkerRc options c :=
    (none, { c with
      rcs := fun k =>
        if k = options.rcName then
          some ((c.rcs k).getD
            { Labels := [("version", prettyVersion)], Replicas := options.parallelism })
        else c.rcs k
      services := fun k =>
        if k = options.rcName then true
        else if options.service.isSome && k = options.rcName ++ "-user" then true
        else c.services k })
  podWatch c := (none, c)
  stm c := (none, c)
  sudoToken c := (none, c)
  readSpec id c :=
    match c.specs id with
    | some info => (.ok info, c)
    | none => (.error errNotFound, c)
  GetExpectedNumWorkers spec c :=
    if 0 < spec.Constant then (.ok spec.Constant, c)
    else if 0 < spec.Coefficient then (.ok (spec.Coefficient * c.nodes : Nat), c)
    else (.error (.plain "unable to interpret ParallelismSpec"), c)
  InspectJobOutputCommit repo id _ c :=
    match c.jobs repo id with
    | some state => (.ok { State := state }, c)
    | none => (.error errNotFound, c)
  BlockCommit _ _ c := (none, c)
  isNotFoundErr err := err == errNotFound
  IsTerminal state := state == "JOB_FAILURE" || state == "JOB_SUCCESS" || state == "JOB_KILLED"
  PipelineRcName := rcNameOf
  PrettyVersion := prettyVersion
  GetRequestsResourceListFromPipeline info := .ok (info.ResourceRequests.getD [])
  GetLimitsResourceListFromPipeline info := .ok (info.ResourceLimits.getD [])
  getWorkerOptions name version parallelism requests limits transform cacheSize service
      specCommit :=
    { rcName := rcNameOf name version, parallelism := parallelism,
      resourceRequests := requests, resourceLimits := limits, transform := transform,
      cacheSize := cacheSize, service := service, specCommit := specCommit, workerEnv := [] }
  PPSPipelineNameEnv := "PPS_PIPELINE_NAME"

/-- A cluster with no replica group and no service, one node, and nothing in
the spec repo or the data plane. -/
def Cluster.empty : Cluster :=
  { rcs := fun _ => none, services := fun _ => false, foreignGithook := 0, nodes := 1,
    specs := fun _ => none, jobs := fun _ _ => none }

/-! ## The cluster state of the idempotence property -/

/-- The cluster state the idempotence property speaks of: the replica groups
with their replica counts, the services, and the set of pipelines with a
registered monitor. -/
structure ClusterView where
  rcs : String → Option RCData
  services : String → Bool
  monitors : String → Bool

/-- The cluster state of a world of the cluster model. -/
def clusterView (w : World Cluster) : ClusterView :=
  { rcs := w.kube.rcs, services := w.kube.services,
    monitors := fun name => (w.monitorCancels name).isSome }

/-- The part of a world of the cluster model that the reconciliation of a PUT
event reads or writes: the cluster state, and the parts of the cluster that no
driver operation changes (the services of other owners with the githook labels,
the nodes, the spec repo). -/
structure AState where
  rcs : String → Option RCData
  services : String → Bool
  monitors : String → Bool
  foreignGithook : Nat
  nodes : Nat
  specs : String → Option PipelineInfo

/-- The abstraction of a world of the cluster model. -/
def absWorld (w : World Cluster) : AState :=
  { rcs := w.kube.rcs, services := w.kube.services,
    monitors := fun name => (w.monitorCancels name).isSome,
    foreignGithook := w.kube.foreignGithook, nodes := w.kube.nodes, specs := w.kube.specs }

/-- What `deleteWorkersForPipeline` does to the abstract state: the monitor of
the name, the service, the `-user` service of a pipeline with a service, and
the replica group are gone. -/
def deleteA (pipelineInfo : PipelineInfo) (a : AState) : AState :=
  { a with
    rcs := fun k =>
      if k = rcNameOf pipelineInfo.Name pipelineInfo.Version then none else a.rcs k
    services := fun k =>
      if k = rcNameOf pipelineInfo.Name pipelineInfo.Version then false
      else if pipelineInfo.Service.isSome ∧
          k = rcNameOf pipelineInfo.Name pipelineInfo.Version ++ "-user" then false
      else a.services k
    monitors := fun k => if k = pipelineInfo.Name then false else a.monitors k }

/-- The `version` label of a replica group that may be absent, as
`upsertWorkersForPipeline` reads it after `rc.Get`. -/
def versionLabel (rc : Option RCData) : String :=
  match rc with
  | some d => mapGet d.Labels "version"
  | none => ""

/-- What a successful `upsertWorkersForPipeline` does to the abstract state: a
replica group with another `version` label (or none) is deleted with its
services and monitor; then the replica group (at 0 replicas, unless it
exists), the service, the `-user` service of a pipeline with a service, and
the monitor are there. -/
def upsertA (prettyVersion : String) (pipelineInfo : PipelineInfo) (a : AState) : AState :=
  let a1 :=
    if versionLabel (a.rcs (rcNameOf pipelineInfo.Name pipelineInfo.Version)) = prettyVersion
    then a else deleteA pipelineInfo a
  { a1 with
    rcs := fun k =>
      if k = rcNameOf pipelineInfo.Name pipelineInfo.Version then
        some ((a1.rcs k).getD { Labels := [("version", prettyVersion)], Replicas := 0 })
      else a1.rcs k
    services := fun k =>
      if k = rcNameOf pipelineInfo.Name pipelineInfo.Version then true
      else if pipelineInfo.Service.isSome ∧
          k = rcNameOf pipelineInfo.Name pipelineInfo.Version ++ "-user" then true
      else a1.services k
    monitors := fun k => if k = pipelineInfo.Name then true else a1.monitors k }

/-- The replica group a successful upsert leaves: the existing one when its
`version` label is that of the control plane, else a new one at 0 replicas. -/
def upsertedRc (prettyVersion : String) (old : Option RCData) : RCData :=
  if versionLabel old = prettyVersion then
    old.getD { Labels := [("version", prettyVersion)], Replicas := 0 }
  else { Labels := [("version", prettyVersion)], Replicas := 0 }

/-- What a successful `checkOrDeployGithookService` does to the abstract state:
nothing when exactly one service carries the githook labels, else the githook
service is there. -/
def githookA (a : AState) : AState :=
  if (if a.services "githook" then 1 else 0) + a.foreignGithook = 1 then a
  else { a with services := fun k => if k = "githook" then true else a.services k }

/-- The replica count `scaleUpWorkersForPipeline` sets in the cluster model. -/
def expectedWorkers (spec : ParallelismSpec) (nodes : Nat) : Int :=
  if 0 < spec.Constant then (spec.Constant : Int)
  else if 0 < spec.Coefficient then ((spec.Coefficient * nodes : Nat) : Int)
  else 1

/-- What a successful update of the replica count of the replica group of a
pipeline does to the abstract state. -/
def scaleA (pipelineInfo : PipelineInfo) (replicas : Int) (a : AState) : AState :=
  { a with
    rcs := fun k =>
      if k = rcNameOf pipelineInfo.Name pipelineInfo.Version then
        (a.rcs k).map fun d => { Labels := d.Labels, Replicas := replicas }
      else a.rcs k }

/-- The githook statement `if hasGitInput { check }` on the abstract state. -/
def gitA (l : PutLocals) (a : AState) : AState :=
  if hasGitInput l.pipelineInfo then githookA a else a

/-- The statement of master.go 122-128 on the abstract state. -/
def stoppedA (l : PutLocals) (a : AState) : AState :=
  if pipelineStateToStopped l.pipelinePtr.State then deleteA l.pipelineInfo a else a

/-- The statement of master.go 137-151 on the abstract state, when the upsert
succeeds. -/
def restartedA (prettyVersion : String) (l : PutLocals) (a : AState) : AState :=
  if !pipelineStateToStopped l.pipelinePtr.State && l.prev.isSome &&
      pipelineStateToStopped l.prevPipelinePtr.State then
    upsertA prettyVersion l.pipelineInfo (gitA l a)
  else a

/-- The statement of master.go 158-162 on the abstract state. -/
def deletePrevA (l : PutLocals) (a : AState) : AState :=
  match l.prev with
  | some p => deleteA p.2 a
  | none => a

/-- The statement of master.go 153-174 on the abstract state, when the upsert
succeeds. -/
def upsertedA (prettyVersion : String) (l : PutLocals) (a : AState) : AState :=
  if (pipelineUpserted l).getD false && !pipelineStateToStopped l.pipelinePtr.State then
    upsertA prettyVersion l.pipelineInfo (gitA l (deletePrevA l a))
  else a

/-- The statements of master.go 175-184 on the abstract state. -/
def scaleStageA (l : PutLocals) (a : AState) : AState :=
  let a1 :=
    if l.pipelineInfo.State = PIPELINE_RUNNING then
      scaleA l.pipelineInfo (int32 (expectedWorkers l.pipelineInfo.ParallelismSpec a.nodes)) a
    else a
  if l.pipelineInfo.State = PIPELINE_STANDBY then scaleA l.pipelineInfo 0 a1 else a1

/-- What the reconciliation of a decoded PUT event (master.go 122-184) does to
the abstract state when it runs to its end without returning an error. -/
def reconcileA (prettyVersion : String) (l : PutLocals) (a : AState) : AState :=
  scaleStageA l (upsertedA prettyVersion l (restartedA prettyVersion l (stoppedA l a)))

/-- A statement of the master loop, run in the cluster model, acts on the
abstract state as `fA` whenever it falls through to the next statement, and it
never ends the iteration with `continue`. -/
def Refines (f : Stage Cluster) (fA : AState → AState) : Prop :=
  ∀ w, (f w).1 ≠ some Outcome.next ∧ ((f w).1 = none → absWorld (f w).2 = fA (absWorld w))

/-- A statement of the loop body that leaves the replica group of name `k` as
it is, whatever its outcome. -/
def KeepsGroup (k : String) (s : Stage Cluster) : Prop :=
  ∀ w, (s w).2.kube.rcs k = w.kube.rcs k

/-- The pipeline `A` of the spec scenarios: v1, STARTING, spec commit `c1`,
parallelism CONSTANT 2, no git input. -/
def pipelineA : PipelineInfo :=
  { Name := "A", Version := 1, State := PIPELINE_STARTING, SpecCommit := { ID := "c1" },
    Input := .node none [], OutputBranch := "master",
    ParallelismSpec := { Constant := 2, Coefficient := 0 },
    ResourceRequests := none, ResourceLimits := none,
    Transform := { Image := "ubuntu", Cmd := ["sh"] }, CacheSize := "64M", Service := none }

/-- A PAUSED pipeline record at spec commit `c1`. -/
def pausedRecord : EtcdPipelineInfo :=
  { State := PIPELINE_PAUSED, SpecCommit := some { ID := "c1" }, Reason := "" }

/-- A cluster like `Cluster.empty` whose spec repo holds `pipelineA` at spec
commit `c1`. -/
def clusterA : Cluster :=
  { Cluster.empty with specs := fun id => if id = "c1" then some pipelineA else none }

/-- The PUT event that stops pipeline `A`: the current value is PAUSED, and
there is no previous value. -/
def pausedPut : PipelineEvent :=
  { Err := none, Typ := .EventPut, Unmarshal := .ok ("A", pausedRecord), Prev := none }

/-- A pipeline `G` whose input tree contains a git input. -/
def pipelineG : PipelineInfo :=
  { pipelineA with
    Name := "G", SpecCommit := { ID := "g1" },
    Input := .node none [.node none [], .node (some "https://example.com/repo.git") []] }

/-- A cluster like `Cluster.empty` whose spec repo holds `pipelineG` at spec
commit `g1`. -/
def clusterG : Cluster :=
  { Cluster.empty with specs := fun id => if id = "g1" then some pipelineG else none }

/-- A STARTING pipeline record at spec commit `g1`. -/
def startingRecordG : EtcdPipelineInfo :=
  { State := PIPELINE_STARTING, SpecCommit := some { ID := "g1" }, Reason := "" }

/-- The PUT event that creates pipeline `G`: no previous value. -/
def createPutG : PipelineEvent :=
  { Err := none, Typ := .EventPut, Unmarshal := .ok ("G", startingRecordG), Prev := none }

/-- The locals the master decodes from `createPutG`. -/
def createLocalsG : PutLocals :=
  { pipelineName := "G", pipelinePtr := startingRecordG, pipelineInfo := pipelineG, prev := none }

/-- Version 2 of pipeline `A`, at spec commit `c2`. -/
def pipelineA2 : PipelineInfo :=
  { pipelineA with Version := 2, SpecCommit := { ID := "c2" } }

/-- A cluster whose spec repo holds `pipelineA` at `c1` and `pipelineA2` at
`c2`. -/
def clusterA2 : Cluster :=
  { Cluster.empty with
    specs := fun id =>
      if id = "c1" then some pipelineA else if id = "c2" then some pipelineA2 else none }

/-- The cluster `clusterA2` running version 1 of pipeline `A`: its replica
group with two replicas, and its service. -/
def clusterRunningA : Cluster :=
  { clusterA2 with
    rcs := fun name =>
      if name = rcNameOf "A" 1 then some { Labels := [("version", "1.7.0")], Replicas := 2 }
      else none
    services := fun name => name = rcNameOf "A" 1 }

/-- A RUNNING pipeline record at spec commit `c1`. -/
def runningRecord1 : EtcdPipelineInfo :=
  { State := PIPELINE_RUNNING, SpecCommit := some { ID := "c1" }, Reason := "" }

/-- A RUNNING pipeline record at spec commit `c2`. -/
def runningRecord2 : EtcdPipelineInfo :=
  { State := PIPELINE_RUNNING, SpecCommit := some { ID := "c2" }, Reason := "" }

/-- The PUT event of the spec update of pipeline `A` from `c1` to `c2`, both
values RUNNING. -/
def updatePutA : PipelineEvent :=
  { Err := none, Typ := .EventPut, Unmarshal := .ok ("A", runningRecord2),
    Prev := some (.ok ("A", runningRecord1)) }

/-- The locals the master decodes from `updatePutA`. -/
def updateLocalsA : PutLocals :=
  { pipelineName := "A", pipelinePtr := runningRecord2,
    pipelineInfo := { pipelineA2 with State := PIPELINE_RUNNING },
    prev := some (runningRecord1, { pipelineA with State := PIPELINE_RUNNING }) }

/-- The pod of the image-pull scenario: a worker of `A` whose container `user`
waits with reason `ErrImagePull` and message `manifest unknown`, next to a
`storage` container that waits for another reason. -/
def podA : Pod :=
  { Annotations := [("pipelineName", "A")], Phase := "Pending", Message := "",
    ContainerStatuses :=
      [{ Name := "storage", Waiting := some { Reason := "ErrImagePull", Message := "x" } },
       { Name := "user", Waiting := some { Reason := "ImagePullBackOff", Message := "y" } },
       { Name := "user", Waiting := some { Reason := "ErrImagePull",
                                           Message := "manifest unknown" } },
       { Name := "user", Waiting := none }] }

/-- The pod event that carries `podA`. -/
def podEventA : KubeEvent :=
  { Typ := "MODIFIED", Object := .pod podA }

/-- A cluster in which two services of other owners carry the githook labels
and the githook service itself does not exist. -/
def clusterTwoGithooks : Cluster :=
  { Cluster.empty with foreignGithook := 2 }

/-- The cluster model with an orchestrator that refuses to create worker
replica groups. -/
def quotaEnv : Env Cluster :=
  { clusterEnv "1.7.0" with
    createWorkerRc := fun _ c => (some (.plain "exceeded quota"), c) }

/-- The PUT event that creates pipeline `A`: STARTING at `c1`, no previous
value. -/
def createPutA : PipelineEvent :=
  { Err := none, Typ := .EventPut,
    Unmarshal := .ok ("A", { State := PIPELINE_STARTING, SpecCommit := some { ID := "c1" },
                             Reason := "" }),
    Prev := none }

/-- The locals the master decodes from `createPutA`. -/
def createLocalsA : PutLocals :=
  { pipelineName := "A",
    pipelinePtr := { State := PIPELINE_STARTING, SpecCommit := some { ID := "c1" },
                     Reason := "" },
    pipelineInfo := pipelineA, prev := none }

/-- A world with no pipeline record, no monitor and empty logs. -/
def World.init {σ : Type} (kube : σ) : World σ :=
  { kube := kube, pipelines := fun _ => none, monitorCancels := fun _ => none,
    nextHandle := 0, calls := [], acts := [] }

/-- A pod-watch event of type `ERROR` that carries `podA`. -/
def errorPodEventA : KubeEvent :=
  { Typ := "ERROR", Object := .pod podA }

/-- The arms the `select` of the monitor loop (master.go 431-432, 470) can take
in an iteration: the receive from `ciChan` when the subscription goroutine
waits to send a commit on it, and the receive from `standbyChan` when it is the
closed channel.  When both can proceed, the `select` takes either of them. -/
def selectArms (waiting : Option CommitInfo) (standbyChan : StandbyChan) : List Arm :=
  (match waiting with
    | some ci => [Arm.ciChan ci]
    | none => []) ++
  (if standbyChan = .closed then [Arm.standbyChan] else [])

/-- A READY commit of the output branch of pipeline `A` that is not finished. -/
def commitReady : CommitInfo :=
  { Repo := "A", ID := "o1", Finished := false }

/-- A world of the cluster model in which pipeline `A` is RUNNING. -/
def worldRunningA : World Cluster :=
  { World.init clusterA with
    pipelines := fun name => if name = "A" then some runningRecord1 else none }

/-- The PUT event that restarts pipeline `A` and updates its spec at once: the
previous value is PAUSED at spec commit `c1`, the current value is RUNNING at
spec commit `c2`. -/
def restartUpdatePut : PipelineEvent :=
  { Err := none, Typ := .EventPut, Unmarshal := .ok ("A", runningRecord2),
    Prev := some (.ok ("A", pausedRecord)) }

/-- The locals the master decodes from `restartUpdatePut`. -/
def restartUpdateLocals : PutLocals :=
  { pipelineName := "A", pipelinePtr := runningRecord2,
    pipelineInfo := { pipelineA2 with State := PIPELINE_RUNNING },
    prev := some (pausedRecord, { pipelineA with State := PIPELINE_PAUSED }) }

/-- A pipeline record in state FAILURE at spec commit `c1`. -/
def failedRecord : EtcdPipelineInfo :=
  { State := PIPELINE_FAILURE, SpecCommit := some { ID := "c1" }, Reason := "boom" }

/-- A world of the cluster model in which pipeline `A` is RUNNING and the data
plane holds the running job of the output commit `o1`. -/
def worldJobA : World Cluster :=
  { worldRunningA with
    kube := { clusterA with
      jobs := fun repo id => if repo = "A" ∧ id = "o1" then some "JOB_RUNNING" else none } }

end PPS

namespace PPS

open PipelineState

/-! ## Frame lemmas -/

section Frame

variable {σ : Type}

@[simp] theorem run_fst (w : World σ) (op : σ → Option Error × σ) (c : Option Error → Call) :
    (w.run op c).1 = (op w.kube).1 := rfl

@[simp] theorem run_pipelines (w : World σ) (op : σ → Option Error × σ)
    (c : Option Error → Call) : (w.run op c).2.pipelines = w.pipelines := rfl

@[simp] theorem run_acts (w : World σ) (op : σ → Option Error × σ)
    (c : Option Error → Call) : (w.run op c).2.acts = w.acts := rfl

@[simp] theorem run_monitorCancels (w : World σ) (op : σ → Option Error × σ)
    (c : Option Error → Call) : (w.run op c).2.monitorCancels = w.monitorCancels := rfl

@[simp] theorem run_calls (w : World σ) (op : σ → Option Error × σ)
    (c : Option Error → Call) : (w.run op c).2.calls = w.calls ++ [c (op w.kube).1] := rfl

@[simp] theorem runE_fst {α : Type} (w : World σ) (op : σ → Except Error α × σ)
    (c : Except Error α → Call) : (w.runE op c).1 = (op w.kube).1 := rfl

@[simp] theorem runE_pipelines {α : Type} (w : World σ) (op : σ → Except Error α × σ)
    (c : Except Error α → Call) : (w.runE op c).2.pipelines = w.pipelines := rfl

@[simp] theorem runE_acts {α : Type} (w : World σ) (op : σ → Except Error α × σ)
    (c : Except Error α → Call) : (w.runE op c).2.acts = w.acts := rfl

@[simp] theorem runE_monitorCancels {α : Type} (w : World σ) (op : σ → Except Error α × σ)
    (c : Except Error α → Call) : (w.runE op c).2.monitorCancels = w.monitorCancels := rfl

@[simp] theorem runE_calls {α : Type} (w : World σ) (op : σ → Except Error α × σ)
    (c : Except Error α → Call) : (w.runE op c).2.calls = w.calls ++ [c (op w.kube).1] := rfl

/-- A transaction whose mutator keeps a record keeps the stored record. -/
theorem stmUpsert_keeps (env : Env σ) (name key : String)
    (mutator : EtcdPipelineInfo → EtcdPipelineInfo × Option Error) (p : EtcdPipelineInfo)
    (hm : (mutator p).1 = p) (w : World σ) (hw : w.pipelines key = some p) :
    (stmUpsert env name mutator w).2.pipelines key = some p := by
  unfold stmUpsert
  simp only []
  split
  · simpa using hw
  · split
    · simpa using hw
    · by_cases hk : key = name
      · subst hk
        simp [hw, hm]
      · simp [hk, hw]

/-- The check of a finished commit writes no pipeline record. -/
theorem checkFinished_pipelines (env : Env σ) (ci : CommitInfo) (w : World σ) :
    (checkFinished env ci w).2.pipelines = w.pipelines := by
  unfold checkFinished
  split
  · simp only []
    split
    · rfl
    · split <;> rfl
  · rfl

/-- One iteration of the monitor keeps every PAUSED record. -/
theorem monitorStep_keeps_paused (env : Env σ) (pipelineInfo : PipelineInfo) (arm : Arm)
    (c : StandbyChan) (w : World σ) (key : String) (p : EtcdPipelineInfo)
    (hp : p.State = PIPELINE_PAUSED) (hw : w.pipelines key = some p) :
    (monitorStep env pipelineInfo arm c w).2.2.pipelines key = some p := by
  have hr : (runningMutator p).1 = p := by simp [runningMutator, hp]
  have hs : (standbyMutator p).1 = p := by simp [standbyMutator, hp]
  cases arm with
  | ciChan ci =>
    have h1 : (checkFinished env ci w).2.pipelines key = some p := by
      rw [checkFinished_pipelines]; exact hw
    have h2 := stmUpsert_keeps env pipelineInfo.Name key runningMutator p hr
      (checkFinished env ci w).2 h1
    simp only [monitorStep]
    split
    · next o w1 heq => rw [heq] at h1; exact h1
    · next w1 heq =>
      rw [heq] at h2
      split
      · next err w2 heq2 => rw [heq2] at h2; exact h2
      · next w2 heq2 =>
        rw [heq2] at h2
        split
        · next err w3 heq3 =>
          have := congrArg (fun x => x.2.pipelines key) heq3
          simp at this; rw [← this]; exact h2
        · next w3 heq3 =>
          have := congrArg (fun x => x.2.pipelines key) heq3
          simp only [run_pipelines] at this
          split <;> exact this ▸ h2
  | standbyChan =>
    have h2 := stmUpsert_keeps env pipelineInfo.Name key standbyMutator p hs w hw
    simp only [monitorStep]
    split
    · next err w1 heq => rw [heq] at h2; exact h2
    · next w1 heq => rw [heq] at h2; exact h2

end Frame

end PPS

namespace PPS

open PipelineState

/-! ## The monitor and PAUSED -/

/-- C1: for every pipeline record whose state is PAUSED, the mutator of the
commit arm (target RUNNING) and the mutator of the standby arm (target
STANDBY) both return the record unchanged (and nil); hence every iteration of
the monitor loop, whatever arm it takes and whatever the collaborators answer,
leaves every stored PAUSED record as it is, and so does every run of the
loop. -/
theorem monitor_never_leaves_paused {σ : Type} (env : Env σ) (pipelineInfo : PipelineInfo)
    (p : EtcdPipelineInfo) (hp : p.State = PIPELINE_PAUSED) :
    runningMutator p = (p, none) ∧ standbyMutator p = (p, none) ∧
    (∀ (arm : Arm) (c : StandbyChan) (w : World σ) (key : String),
      w.pipelines key = some p →
      (monitorStep env pipelineInfo arm c w).2.2.pipelines key = some p) ∧
    (∀ (arms : List Arm) (c : StandbyChan) (w : World σ) (key : String)
      (r : Outcome × StandbyChan × World σ),
      w.pipelines key = some p → monitorLoop env pipelineInfo arms c w = some r →
      r.2.2.pipelines key = some p) := by
  refine ⟨by simp [runningMutator, hp], by simp [standbyMutator, hp], ?_, ?_⟩
  · intro arm c w key hw
    exact monitorStep_keeps_paused env pipelineInfo arm c w key p hp hw
  · intro arms
    induction arms with
    | nil =>
      intro c w key r hw h
      simp only [monitorLoop, Option.some.injEq] at h
      subst h
      exact hw
    | cons arm rest ih =>
      intro c w key r hw h
      have hstep := monitorStep_keeps_paused env pipelineInfo arm c w key p hp hw
      simp only [monitorLoop] at h
      split at h
      · split at h
        · next c1 w1 heq =>
          rw [heq] at hstep
          exact ih c1 w1 key r hstep h
        · next o c1 w1 _ heq =>
          rw [heq] at hstep
          simp only [Option.some.injEq] at h
          subst h
          exact hstep
      · exact absurd h (by simp)

/-- Witness of C1 at the PAUSED record of the sample pipeline in the cluster
model. -/
theorem monitor_never_leaves_paused_witness :
    pausedRecord.State = PIPELINE_PAUSED ∧
    (runningMutator pausedRecord = (pausedRecord, none) ∧
     standbyMutator pausedRecord = (pausedRecord, none) ∧
     (∀ (arm : Arm) (c : StandbyChan) (w : World Cluster) (key : String),
       w.pipelines key = some pausedRecord →
       (monitorStep (clusterEnv "1.7.0") pipelineA arm c w).2.2.pipelines key
         = some pausedRecord) ∧
     (∀ (arms : List Arm) (c : StandbyChan) (w : World Cluster) (key : String)
       (r : Outcome × StandbyChan × World Cluster),
       w.pipelines key = some pausedRecord →
       monitorLoop (clusterEnv "1.7.0") pipelineA arms c w = some r →
       r.2.2.pipelines key = some pausedRecord)) :=
  ⟨rfl, monitor_never_leaves_paused (clusterEnv "1.7.0") pipelineA pausedRecord rfl⟩

end PPS
namespace PPS

open PipelineState

section MasterLemmas

variable {σ : Type}

@[simp] theorem log_acts (w : World σ) (c : Call) : (w.log c).acts = w.acts := rfl

@[simp] theorem log_pipelines (w : World σ) (c : Call) : (w.log c).pipelines = w.pipelines := rfl

@[simp] theorem act_acts (w : World σ) (a : Action) : (w.act a).acts = w.acts ++ [a] := rfl

/-- Cancelling a monitor logs no master-level action. -/
@[simp] theorem cancelMonitor_acts (name : String) (w : World σ) :
    (cancelMonitor name w).acts = w.acts := by
  unfold cancelMonitor
  split <;> rfl

/-- Cancelling a monitor logs the call of the cancel function, if any. -/
theorem cancelMonitor_calls (name : String) (w : World σ) :
    (cancelMonitor name w).calls = w.calls ++ cancelCalls w.monitorCancels name := by
  unfold cancelMonitor cancelCalls
  split <;> simp [World.log]

/-- Deleting workers logs no master-level action. -/
theorem deleteWorkersForPipeline_acts (env : Env σ) (pipelineInfo : PipelineInfo)
    (w : World σ) : (deleteWorkersForPipeline env pipelineInfo w).2.acts = w.acts := by
  unfold deleteWorkersForPipeline
  simp only []
  repeat' split
  all_goals simp

end MasterLemmas

end PPS

namespace PPS

open PipelineState

section MasterLemmas2

variable {σ : Type}

/-- One attempt of the upsert logs no master-level action. -/
theorem upsertBody_acts (env : Env σ) (pipelineInfo : PipelineInfo) (w : World σ) :
    (upsertBody env pipelineInfo w).2.acts = w.acts := by
  unfold upsertBody
  simp only []
  repeat' split
  all_goals simp [deleteWorkersForPipeline_acts]

/-- The retried upsert logs no master-level action. -/
theorem upsertRetry_acts (env : Env σ) (pipelineInfo : PipelineInfo) (errCount : Nat)
    (w : World σ) : (upsertRetry env pipelineInfo errCount w).2.acts = w.acts := by
  induction errCount, w using upsertRetry.induct env pipelineInfo with
  | case1 errCount w w1 h =>
    have := upsertBody_acts env pipelineInfo w
    rw [upsertRetry, h]
    rw [h] at this
    exact this
  | case2 errCount w err w1 h hc =>
    have := upsertBody_acts env pipelineInfo w
    rw [upsertRetry, h]
    rw [h] at this
    simpa [hc] using this
  | case3 errCount w err w1 h hc ih =>
    have := upsertBody_acts env pipelineInfo w
    rw [upsertRetry, h]
    rw [h] at this
    simp only [hc, if_false, ih]
    exact this

/-- Upserting workers logs no master-level action. -/
theorem upsertWorkersForPipeline_acts (env : Env σ) (pipelineInfo : PipelineInfo)
    (w : World σ) : (upsertWorkersForPipeline env pipelineInfo w).2.acts = w.acts := by
  have := upsertRetry_acts env pipelineInfo 0 w
  unfold upsertWorkersForPipeline
  repeat' split
  all_goals simp_all

/-- Scaling down logs no master-level action. -/
theorem scaleDownWorkersForPipeline_acts (env : Env σ) (pipelineInfo : PipelineInfo)
    (w : World σ) : (scaleDownWorkersForPipeline env pipelineInfo w).2.acts = w.acts := by
  unfold scaleDownWorkersForPipeline
  simp only []
  repeat' split
  all_goals simp

/-- Scaling up logs no master-level action. -/
theorem scaleUpWorkersForPipeline_acts (env : Env σ) (pipelineInfo : PipelineInfo)
    (w : World σ) : (scaleUpWorkersForPipeline env pipelineInfo w).2.acts = w.acts := by
  unfold scaleUpWorkersForPipeline
  simp only []
  repeat' split
  all_goals simp

/-- The githook ensurer logs no master-level action. -/
theorem checkOrDeployGithookService_acts (env : Env σ) (w : World σ) :
    (checkOrDeployGithookService env w).2.acts = w.acts := by
  unfold checkOrDeployGithookService getGithookService
  simp only []
  repeat' split
  all_goals simp

/-- A transaction logs no master-level action. -/
theorem stmUpsert_acts (env : Env σ) (key : String)
    (mutator : EtcdPipelineInfo → EtcdPipelineInfo × Option Error) (w : World σ) :
    (stmUpsert env key mutator w).2.acts = w.acts := by
  unfold stmUpsert
  simp only []
  repeat' split
  all_goals simp

/-- Retrieving a PipelineInfo logs no master-level action. -/
theorem GetPipelineInfo_acts (env : Env σ) (ptr : EtcdPipelineInfo) (w : World σ) :
    (GetPipelineInfo env ptr w).2.acts = w.acts := by
  unfold GetPipelineInfo
  repeat' first | split | simp only []
  all_goals simp

/-- Decoding an event logs no master-level action. -/
theorem putLocals_acts (env : Env σ) (event : PipelineEvent) (w : World σ) :
    (putLocals env event w).2.acts = w.acts := by
  unfold putLocals
  simp only []
  repeat' split
  all_goals simp [GetPipelineInfo_acts]

end MasterLemmas2

end PPS

namespace PPS

open PipelineState

section PutLemmas

variable {σ : Type}

/-- A retrieved PipelineInfo carries the state and the spec commit of its
record. -/
theorem GetPipelineInfo_ok (env : Env σ) (ptr : EtcdPipelineInfo) (w : World σ)
    (info : PipelineInfo) (h : (GetPipelineInfo env ptr w).1 = .ok info) :
    info.State = ptr.State ∧ ptr.SpecCommit = some info.SpecCommit := by
  unfold GetPipelineInfo at h
  split at h
  · simp at h
  · next c hc =>
    simp only [] at h
    split at h
    · simp at h
    · simp only [Except.ok.injEq] at h
      subst h
      exact ⟨rfl, hc⟩

/-- What the decoded locals of a PUT event are: the current record is the
decoded value, the current PipelineInfo carries its state and spec commit, and
the previous pair is present exactly when the event has a previous key, and is
then the decoded previous value with a PipelineInfo that carries its state and
spec commit. -/
theorem putLocals_ok (env : Env σ) (event : PipelineEvent) (w : World σ) (l : PutLocals)
    (h : (putLocals env event w).1 = .ok l) :
    (∃ name, event.Unmarshal = .ok (name, l.pipelinePtr)) ∧
    l.pipelineInfo.State = l.pipelinePtr.State ∧
    l.pipelinePtr.SpecCommit = some l.pipelineInfo.SpecCommit ∧
    (event.Prev = none → l.prev = none) ∧
    (∀ p, l.prev = some p →
      (∃ name, event.Prev = some (.ok (name, p.1))) ∧
      p.2.State = p.1.State ∧ p.1.SpecCommit = some p.2.SpecCommit) := by
  unfold putLocals at h
  split at h
  · simp at h
  · next pipelineName pipelinePtr hU =>
    simp only [] at h
    split at h
    · simp at h
    · split at h
      · simp at h
      · next pipelineInfo hc =>
        have hcur := GetPipelineInfo_ok env pipelinePtr _ pipelineInfo hc
        split at h
        · next hP =>
          simp only [Except.ok.injEq] at h
          subst h
          exact ⟨⟨_, hU⟩, hcur.1, hcur.2, fun _ => rfl, fun p hp => by simp at hp⟩
        · simp at h
        · next prevName prevPipelinePtr hP =>
          split at h
          · simp at h
          · next prevPipelineInfo hq =>
            have hprev := GetPipelineInfo_ok env prevPipelinePtr _ prevPipelineInfo hq
            simp only [Except.ok.injEq] at h
            subst h
            refine ⟨⟨_, hU⟩, hcur.1, hcur.2, fun hn => by simp [hn] at hP, ?_⟩
            intro p hp
            simp only [Option.some.injEq] at hp
            subst hp
            exact ⟨⟨_, hP⟩, hprev.1, hprev.2⟩

/-- A skipped `if` statement does nothing. -/
@[simp] theorem whenStage_false (body : Stage σ) (w : World σ) :
    whenStage false body w = (none, w) := rfl

/-- An `if` statement whose condition holds runs its body. -/
@[simp] theorem whenStage_true (body : Stage σ) (w : World σ) :
    whenStage true body w = body w := rfl

/-- A statement followed by one that does nothing is the statement. -/
theorem andThen_skip (a b : Stage σ) (hb : ∀ w, b w = (none, w)) (w : World σ) :
    a.andThen b w = a w := by
  unfold Stage.andThen
  rcases h : a w with ⟨o, w1⟩
  cases o <;> simp [hb]

/-- A statement that does nothing, followed by another, is the other. -/
theorem skip_andThen (a b : Stage σ) (w : World σ) (ha : a w = (none, w)) :
    a.andThen b w = b w := by
  unfold Stage.andThen
  rw [ha]

/-- The master-level log of a `deleteWorkersForPipeline` call of the master. -/
theorem mDeleteWorkers_acts (env : Env σ) (pipelineInfo : PipelineInfo) (w : World σ) :
    (mDeleteWorkers env pipelineInfo w).2.acts =
      w.acts ++ [.deleteWorkers pipelineInfo (deleteWorkersForPipeline env pipelineInfo w).1] := by
  simp [mDeleteWorkers, deleteWorkersForPipeline_acts]

/-- The reconciliation of a stopped pipeline: delete the workers of the current
PipelineInfo, return the error of that if there is one, and nothing else. -/
theorem reconcile_stopped (env : Env σ) (l : PutLocals) (w : World σ)
    (hs : pipelineStateToStopped l.pipelinePtr.State = true)
    (hst : l.pipelineInfo.State = l.pipelinePtr.State)
    (hc : l.pipelinePtr.SpecCommit = some l.pipelineInfo.SpecCommit) :
    reconcile env l w = orReturn (mDeleteWorkers env l.pipelineInfo) w := by
  have hup : ∃ b, pipelineUpserted l = some b := by
    unfold pipelineUpserted
    split
    · exact ⟨_, rfl⟩
    · simp [hc]
  obtain ⟨b, hb⟩ := hup
  have hr : (l.pipelineInfo.State == PIPELINE_RUNNING) = false := by
    rw [hst]; revert hs; cases l.pipelinePtr.State <;> simp [pipelineStateToStopped]
  have hy : (l.pipelineInfo.State == PIPELINE_STANDBY) = false := by
    rw [hst]; revert hs; cases l.pipelinePtr.State <;> simp [pipelineStateToStopped]
  unfold reconcile
  rw [andThen_skip, andThen_skip, andThen_skip]
  · simp [stageStopped, hs]
  · intro w1
    simp [stageRestarted, hs]
  · intro w1
    simp [stageUpserted, hb, hs]
  · intro w1
    simp [stageScale, Stage.andThen, hr, hy]

end PutLemmas

end PPS

namespace PPS

open PipelineState

/-! ## Pipeline PUT events -/

/-- C2: for every pipeline PUT event whose current state is stopped (PAUSED or
FAILURE), with or without a previous value: either the PipelineInfo cannot be
retrieved, and the master performs no driver action at all, or the one driver
action the master performs is `deleteWorkers` on the current PipelineInfo (no
githook check, no `upsertWorkers`, no `scaleUp`, no `scaleDown`), and the
iteration returns the error of that deletion if there is one. -/
theorem stopped_put_only_deletes {σ : Type} (env : Env σ) (event : PipelineEvent)
    (w : World σ) (name : String) (ptr : EtcdPipelineInfo)
    (hE : event.Err = none) (hT : event.Typ = .EventPut)
    (hU : event.Unmarshal = .ok (name, ptr))
    (hs : pipelineStateToStopped ptr.State = true) :
    (∃ o, (putLocals env event w).1 = .error o ∧
      (handlePipelineEvent env event w).1 = o ∧
      (handlePipelineEvent env event w).2.acts = w.acts) ∨
    (∃ l, (putLocals env event w).1 = .ok l ∧ l.pipelinePtr = ptr ∧
      (handlePipelineEvent env event w).2.acts = w.acts ++
        [.deleteWorkers l.pipelineInfo
          (deleteWorkersForPipeline env l.pipelineInfo (putLocals env event w).2).1] ∧
      (handlePipelineEvent env event w).1 =
        match (deleteWorkersForPipeline env l.pipelineInfo (putLocals env event w).2).1 with
        | some err => .ret err
        | none => .next) := by
  have hacts := putLocals_acts env event w
  rcases hp : putLocals env event w with ⟨r, w1⟩
  rw [hp] at hacts
  simp only [] at hacts
  cases r with
  | error o =>
    left
    refine ⟨o, rfl, ?_, ?_⟩ <;> simp [handlePipelineEvent, hE, hT, hp, hacts]
  | ok l =>
    right
    have hl := putLocals_ok env event w l (by rw [hp])
    obtain ⟨⟨nm, hnm⟩, hst, hc, -, -⟩ := hl
    have hptr : l.pipelinePtr = ptr := by
      rw [hU] at hnm
      simp only [Except.ok.injEq, Prod.mk.injEq] at hnm
      exact hnm.2.symm
    have hrec := reconcile_stopped env l w1 (hptr ▸ hs) hst hc
    refine ⟨l, rfl, hptr, ?_, ?_⟩
    · simp only [handlePipelineEvent, hE, hT, hp, finish, hrec, orReturn]
      have := mDeleteWorkers_acts env l.pipelineInfo w1
      rcases hd : mDeleteWorkers env l.pipelineInfo w1 with ⟨d, w2⟩
      rw [hd, hacts] at this
      cases d <;> simpa using this
    · simp only [handlePipelineEvent, hE, hT, hp, finish, hrec, orReturn]
      have : (mDeleteWorkers env l.pipelineInfo w1).1 =
          (deleteWorkersForPipeline env l.pipelineInfo w1).1 := rfl
      rcases hd : mDeleteWorkers env l.pipelineInfo w1 with ⟨d, w2⟩
      rw [hd] at this
      simp only [] at this
      rw [← this]
      cases d <;> simp

/-- Witness of C2: the PUT event that pauses pipeline `A`, in the cluster
model. -/
theorem stopped_put_only_deletes_witness :
    pausedPut.Err = none ∧ pausedPut.Typ = .EventPut ∧
    pausedPut.Unmarshal = .ok ("A", pausedRecord) ∧
    pipelineStateToStopped pausedRecord.State = true ∧
    ((∃ o, (putLocals (clusterEnv "1.7.0") pausedPut (World.init clusterA)).1 = .error o ∧
      (handlePipelineEvent (clusterEnv "1.7.0") pausedPut (World.init clusterA)).1 = o ∧
      (handlePipelineEvent (clusterEnv "1.7.0") pausedPut (World.init clusterA)).2.acts
        = (World.init clusterA).acts) ∨
    (∃ l, (putLocals (clusterEnv "1.7.0") pausedPut (World.init clusterA)).1 = .ok l ∧
      l.pipelinePtr = pausedRecord ∧
      (handlePipelineEvent (clusterEnv "1.7.0") pausedPut (World.init clusterA)).2.acts
        = (World.init clusterA).acts ++
        [.deleteWorkers l.pipelineInfo
          (deleteWorkersForPipeline (clusterEnv "1.7.0") l.pipelineInfo
            (putLocals (clusterEnv "1.7.0") pausedPut (World.init clusterA)).2).1] ∧
      (handlePipelineEvent (clusterEnv "1.7.0") pausedPut (World.init clusterA)).1 =
        match (deleteWorkersForPipeline (clusterEnv "1.7.0") l.pipelineInfo
          (putLocals (clusterEnv "1.7.0") pausedPut (World.init clusterA)).2).1 with
        | some err => .ret err
        | none => .next)) :=
  ⟨rfl, rfl, rfl, rfl,
    stopped_put_only_deletes (clusterEnv "1.7.0") pausedPut (World.init clusterA) "A"
      pausedRecord rfl rfl rfl rfl⟩

end PPS

namespace PPS

open PipelineState

section Githook

variable {σ : Type}

/-- Sequencing keeps the githook discipline. -/
theorem gitOk_andThen {a b : Stage σ} (ha : GitOk a) (hb : GitOk b) : GitOk (a.andThen b) := by
  intro w
  obtain ⟨na, hna, ga, fa⟩ := ha w
  unfold Stage.andThen
  rcases h : a w with ⟨oa, w1⟩
  rw [h] at hna fa
  simp only [] at hna fa
  cases oa with
  | some o => exact ⟨na, hna, ga, fa⟩
  | none =>
    obtain ⟨nb, hnb, gb, fb⟩ := hb w1
    refine ⟨na ++ nb, by simp [hnb, hna], ?_, ?_⟩
    · intro pre post info res heq
      rcases List.append_eq_append_iff.mp heq with ⟨t, hpre, hnb2⟩ | ⟨t, hna2, hcons⟩
      · obtain ⟨before, hbefore⟩ := gb t post info res hnb2
        exact ⟨na ++ before, by simp [hpre, hbefore]⟩
      · cases t with
        | nil =>
          simp only [List.nil_append] at hcons
          obtain ⟨before, hbefore⟩ := gb [] post info res hcons.symm
          simp at hbefore
        | cons x t =>
          simp only [List.cons_append, List.cons.injEq] at hcons
          obtain ⟨hx, hpost⟩ := hcons
          subst hx
          exact ga pre t info res hna2
    · intro pre post err heq
      rcases List.append_eq_append_iff.mp heq with ⟨t, hpre, hnb2⟩ | ⟨t, hna2, hcons⟩
      · exact fb t post err hnb2
      · cases t with
        | nil =>
          simp only [List.nil_append] at hcons
          exact fb [] post err hcons.symm
        | cons x t =>
          simp only [List.cons_append, List.cons.injEq] at hcons
          obtain ⟨hx, hpost⟩ := hcons
          subst hx
          have := (fa pre t err hna2).2
          simp at this

/-- An `if` statement keeps the githook discipline when its body does. -/
theorem gitOk_whenStage {body : Stage σ} (c : Bool) (hb : GitOk body) :
    GitOk (whenStage c body) := by
  intro w
  cases c with
  | true => exact hb w
  | false =>
    refine ⟨[], by simp, ?_, ?_⟩
    · intro pre post info res h; simp at h
    · intro pre post err h; simp at h

/-- A statement that does nothing keeps the githook discipline. -/
theorem gitOk_skip : GitOk (fun (w : World σ) => ((none : Option Outcome), w)) := by
  intro w
  refine ⟨[], by simp, ?_, ?_⟩
  · intro pre post info res h; simp at h
  · intro pre post err h; simp at h

/-- A statement that logs one driver call, neither `upsertWorkers` nor
`checkOrDeployGithookService`, keeps the githook discipline. -/
theorem gitOk_single (f : Stage σ) (a : World σ → Action)
    (hf : ∀ w, (f w).2.acts = w.acts ++ [a w])
    (hu : ∀ w info res, a w ≠ .upsertWorkers info res)
    (hg : ∀ w res, a w ≠ .checkOrDeployGithookService res) : GitOk f := by
  intro w
  refine ⟨[a w], hf w, ?_, ?_⟩
  · intro pre post info res h
    rcases pre with _ | ⟨x, pre⟩
    · simp only [List.nil_append, List.cons.injEq] at h
      exact absurd h.1 (hu w info res)
    · simp at h
  · intro pre post err h
    rcases pre with _ | ⟨x, pre⟩
    · simp only [List.nil_append, List.cons.injEq] at h
      exact absurd h.1 (hg w (some err))
    · simp at h

/-- The statement `if err := f(); err != nil { return err }` changes the world
as `f` does. -/
@[simp] theorem orReturn_snd (f : World σ → Option Error × World σ) (w : World σ) :
    (orReturn f w).2 = (f w).2 := by
  unfold orReturn
  split <;> simp_all

/-- The statement `if err := f(); err != nil { return err }` returns the error
of `f`. -/
@[simp] theorem orReturn_fst (f : World σ → Option Error × World σ) (w : World σ) :
    (orReturn f w).1 = (f w).1.map Outcome.ret := by
  unfold orReturn
  split <;> simp_all

/-- Deleting workers keeps the githook discipline. -/
theorem gitOk_delete (env : Env σ) (pipelineInfo : PipelineInfo) :
    GitOk (orReturn (mDeleteWorkers env pipelineInfo)) :=
  gitOk_single _ (fun w => .deleteWorkers pipelineInfo
      (deleteWorkersForPipeline env pipelineInfo w).1)
    (fun w => by simp [mDeleteWorkers_acts]) (fun _ _ _ => by simp) (fun _ _ => by simp)

/-- Scaling keeps the githook discipline. -/
theorem gitOk_scale (env : Env σ) (l : PutLocals) : GitOk (stageScale env l) := by
  unfold stageScale
  refine gitOk_andThen (gitOk_whenStage _ ?_) (gitOk_whenStage _ ?_)
  · exact gitOk_single _ (fun w => .scaleUp l.pipelineInfo
        (scaleUpWorkersForPipeline env l.pipelineInfo w).1)
      (fun w => by simp [mScaleUp, scaleUpWorkersForPipeline_acts])
      (fun _ _ _ => by simp) (fun _ _ => by simp)
  · exact gitOk_single _ (fun w => .scaleDown l.pipelineInfo
        (scaleDownWorkersForPipeline env l.pipelineInfo w).1)
      (fun w => by simp [mScaleDown, scaleDownWorkersForPipeline_acts])
      (fun _ _ _ => by simp) (fun _ _ => by simp)

/-- The driver calls of the statement `upsertWorkers, or set FAILURE`: the
upsert, followed by `setPipelineFailure` when the upsert failed. -/
theorem upsertOrFail_acts (env : Env σ) (l : PutLocals) (w : World σ) :
    ((upsertOrFail env l w).1 = none ∧
      (upsertOrFail env l w).2.acts = w.acts ++ [.upsertWorkers l.pipelineInfo none]) ∨
    (∃ err res, (upsertWorkersForPipeline env l.pipelineInfo w).1 = some err ∧
      (upsertOrFail env l w).1 = some (match res with | some e => .ret e | none => .next) ∧
      (upsertOrFail env l w).2.acts = w.acts ++
        [.upsertWorkers l.pipelineInfo (some err),
         .setPipelineFailure l.pipelineName ("failed to create workers: " ++ err.text) res]) := by
  unfold upsertOrFail
  have hu : (mUpsertWorkers env l.pipelineInfo w).2.acts = w.acts ++
      [.upsertWorkers l.pipelineInfo (upsertWorkersForPipeline env l.pipelineInfo w).1] := by
    simp [mUpsertWorkers, upsertWorkersForPipeline_acts]
  have hu1 : (mUpsertWorkers env l.pipelineInfo w).1 =
      (upsertWorkersForPipeline env l.pipelineInfo w).1 := rfl
  rcases h : mUpsertWorkers env l.pipelineInfo w with ⟨r, w1⟩
  rw [h] at hu hu1
  simp only [] at hu hu1
  cases r with
  | none =>
    left
    simp [hu, ← hu1]
  | some err =>
    right
    have hf : ∀ reason, (mSetPipelineFailure env l.pipelineName reason w1).2.acts = w1.acts ++
        [.setPipelineFailure l.pipelineName reason
          (mSetPipelineFailure env l.pipelineName reason w1).1] := by
      intro reason
      simp [mSetPipelineFailure, setPipelineFailure, stmUpsert_acts]
    have hf := hf ("failed to create workers: " ++ err.text)
    rcases h2 : mSetPipelineFailure env l.pipelineName
        ("failed to create workers: " ++ err.text) w1 with ⟨r2, w2⟩
    rw [h2] at hf
    simp only [] at hf
    refine ⟨err, r2, hu1.symm, ?_, ?_⟩
    · simp only [h2]
      cases r2 <;> rfl
    · simp only [h2]
      cases r2 <;> simp [hf, hu, ← hu1]

/-- The githook check followed by the upsert keeps the githook discipline. -/
theorem gitOk_guardedUpsert (env : Env σ) (l : PutLocals) :
    GitOk ((orReturn (mCheckOrDeployGithookService env)).andThen (upsertOrFail env l)) := by
  intro w
  have hc : (mCheckOrDeployGithookService env w).2.acts = w.acts ++
      [.checkOrDeployGithookService (mCheckOrDeployGithookService env w).1] := by
    simp [mCheckOrDeployGithookService, checkOrDeployGithookService_acts]
  unfold Stage.andThen orReturn
  rcases h : mCheckOrDeployGithookService env w with ⟨r, w1⟩
  rw [h] at hc
  simp only [] at hc
  cases r with
  | some err =>
    refine ⟨[.checkOrDeployGithookService (some err)], hc, ?_, ?_⟩
    · intro pre post info res heq
      rcases pre with _ | ⟨x, pre⟩ <;> simp at heq
    · intro pre post e heq
      rcases pre with _ | ⟨x, pre⟩ <;> simp at heq
      obtain ⟨he, hpost⟩ := heq
      simp [he, hpost]
  | none =>
    simp only []
    rcases upsertOrFail_acts env l w1 with ⟨h1, h2⟩ | ⟨err, res, -, h1, h2⟩
    · refine ⟨[.checkOrDeployGithookService none, .upsertWorkers l.pipelineInfo none],
        by simp [h2, hc], ?_, ?_⟩
      · intro pre post info res heq
        rcases pre with _ | ⟨x, _ | ⟨y, pre⟩⟩ <;> simp at heq
        exact ⟨[], by simp [heq.1]⟩
      · intro pre post e heq
        rcases pre with _ | ⟨x, _ | ⟨y, pre⟩⟩ <;> simp at heq
    · refine ⟨[.checkOrDeployGithookService none, .upsertWorkers l.pipelineInfo (some err),
          .setPipelineFailure l.pipelineName ("failed to create workers: " ++ err.text) res],
        by simp [h2, hc], ?_, ?_⟩
      · intro pre post info r heq
        rcases pre with _ | ⟨x, _ | ⟨y, _ | ⟨z, pre⟩⟩⟩ <;> simp at heq
        exact ⟨[], by simp [heq.1]⟩
      · intro pre post e heq
        rcases pre with _ | ⟨x, _ | ⟨y, _ | ⟨z, pre⟩⟩⟩ <;> simp at heq

/-- The reconciliation of a pipeline with a git input keeps the githook
discipline. -/
theorem gitOk_reconcile (env : Env σ) (l : PutLocals)
    (hg : hasGitInput l.pipelineInfo = true) : GitOk (reconcile env l) := by
  unfold PPS.reconcile
  refine gitOk_andThen (gitOk_andThen (gitOk_andThen ?_ ?_) ?_) (gitOk_scale env l)
  · exact gitOk_whenStage _ (gitOk_delete env _)
  · unfold stageRestarted
    rw [hg]
    exact gitOk_whenStage _ (gitOk_guardedUpsert env l)
  · intro w
    unfold stageUpserted
    cases pipelineUpserted l with
    | none =>
      refine ⟨[], by simp, ?_, ?_⟩
      · intro pre post info res h; simp at h
      · intro pre post err h; simp at h
    | some upserted =>
      simp only [hg]
      refine gitOk_whenStage _ ?_ w
      have hassoc : ∀ (a b c : Stage σ), (a.andThen b).andThen c = a.andThen (b.andThen c) := by
        intro a b c
        funext w
        unfold Stage.andThen
        rcases a w with ⟨_ | o, w1⟩ <;> simp
      rw [hassoc]
      refine gitOk_andThen ?_ (gitOk_guardedUpsert env l)
      cases l.prev with
      | none => exact gitOk_skip
      | some p => exact gitOk_delete env p.2

end Githook

end PPS

namespace PPS

open PipelineState

/-- C3: for every pipeline PUT event of a pipeline whose input tree contains a
git input, in the driver calls the master makes for the event every
`upsertWorkers` call is immediately preceded by a
`checkOrDeployGithookService` call that returned success; and a
`checkOrDeployGithookService` call that fails is the last driver call of the
event (so no `upsertWorkers` follows it), and its error is returned from the
loop. -/
theorem git_put_checks_githook_before_upsert {σ : Type} (env : Env σ)
    (event : PipelineEvent) (w : World σ) (l : PutLocals)
    (hE : event.Err = none) (hT : event.Typ = .EventPut)
    (hl : (putLocals env event w).1 = .ok l)
    (hg : hasGitInput l.pipelineInfo = true) :
    ∃ new, (handlePipelineEvent env event w).2.acts = w.acts ++ new ∧
      (∀ pre post info res, new = pre ++ Action.upsertWorkers info res :: post →
        ∃ before, pre = before ++ [Action.checkOrDeployGithookService none]) ∧
      (∀ pre post err, new = pre ++ Action.checkOrDeployGithookService (some err) :: post →
        post = [] ∧ (handlePipelineEvent env event w).1 = .ret err) := by
  have hacts := putLocals_acts env event w
  rcases hp : putLocals env event w with ⟨r, w1⟩
  rw [hp] at hacts hl
  simp only [] at hacts hl
  subst hl
  obtain ⟨new, hnew, hguard, hfail⟩ := gitOk_reconcile env l hg w1
  refine ⟨new, ?_, hguard, ?_⟩
  · simp [handlePipelineEvent, hE, hT, hp, finish, hnew, hacts]
  · intro pre post err heq
    obtain ⟨hpost, ho⟩ := hfail pre post err heq
    refine ⟨hpost, ?_⟩
    simp [handlePipelineEvent, hE, hT, hp, finish, ho]

/-- Witness of C3: the PUT event that creates pipeline `G`, which has a git
input, in the cluster model. -/
theorem git_put_checks_githook_before_upsert_witness :
    createPutG.Err = none ∧ createPutG.Typ = .EventPut ∧
    (putLocals (clusterEnv "1.7.0") createPutG (World.init clusterG)).1 = .ok createLocalsG ∧
    hasGitInput createLocalsG.pipelineInfo = true ∧
    ∃ new, (handlePipelineEvent (clusterEnv "1.7.0") createPutG (World.init clusterG)).2.acts
        = (World.init clusterG).acts ++ new ∧
      (∀ pre post info res, new = pre ++ Action.upsertWorkers info res :: post →
        ∃ before, pre = before ++ [Action.checkOrDeployGithookService none]) ∧
      (∀ pre post err, new = pre ++ Action.checkOrDeployGithookService (some err) :: post →
        post = [] ∧
        (handlePipelineEvent (clusterEnv "1.7.0") createPutG (World.init clusterG)).1
          = .ret err) :=
  ⟨rfl, rfl, rfl, rfl,
    git_put_checks_githook_before_upsert (clusterEnv "1.7.0") createPutG
      (World.init clusterG) createLocalsG rfl rfl rfl rfl⟩

end PPS

namespace PPS

open PipelineState

section SpecChange

variable {σ : Type}

/-- The driver calls of the scaling statements extend the log. -/
theorem stageScale_acts (env : Env σ) (l : PutLocals) (w : World σ) :
    ∃ new, (stageScale env l w).2.acts = w.acts ++ new := by
  obtain ⟨new, h, -, -⟩ := gitOk_scale env l w
  exact ⟨new, h⟩

/-- Two statements that act alike on a world act alike on it when followed by
the same statement. -/
theorem andThen_congr_left (a c b : Stage σ) (w : World σ) (h : a w = c w) :
    a.andThen b w = c.andThen b w := by
  unfold Stage.andThen
  rw [h]

/-- The reconciliation of a spec-commit change between two non-stopped states:
delete the workers of the previous PipelineInfo and return if that fails; then
check the githook service if there is a git input, upsert the workers of the
current PipelineInfo, and scale. -/
theorem reconcile_specChange (env : Env σ) (l : PutLocals) (w : World σ)
    (p : EtcdPipelineInfo × PipelineInfo) (commit prevCommit : Commit)
    (hprev : l.prev = some p)
    (hps : pipelineStateToStopped p.1.State = false)
    (hcs : pipelineStateToStopped l.pipelinePtr.State = false)
    (hpc : p.1.SpecCommit = some prevCommit) (hc : l.pipelinePtr.SpecCommit = some commit)
    (hne : commit.ID ≠ prevCommit.ID) :
    reconcile env l w =
      ((((orReturn (mDeleteWorkers env p.2)).andThen
        (whenStage (hasGitInput l.pipelineInfo)
          (orReturn (mCheckOrDeployGithookService env)))).andThen
        (upsertOrFail env l)).andThen (stageScale env l)) w := by
  have hpp : l.prevPipelinePtr = p.1 := by simp [PutLocals.prevPipelinePtr, hprev]
  have hup : pipelineUpserted l = some true := by
    simp [pipelineUpserted, hpp, hpc, hc, hne]
  unfold reconcile
  have h1 : ((stageStopped env l).andThen (stageRestarted env l)) w = (none, w) := by
    simp [Stage.andThen, stageStopped, stageRestarted, hcs, hpp, hps]
  have h2 : (((stageStopped env l).andThen (stageRestarted env l)).andThen
      (stageUpserted env l)) w = stageUpserted env l w := skip_andThen _ _ w h1
  have h3 : stageUpserted env l w =
      (((orReturn (mDeleteWorkers env p.2)).andThen
        (whenStage (hasGitInput l.pipelineInfo)
          (orReturn (mCheckOrDeployGithookService env)))).andThen
        (upsertOrFail env l)) w := by
    simp [stageUpserted, hup, hcs, hprev]
  exact andThen_congr_left _ _ _ w (h2.trans h3)

/-- The driver calls of the githook statement `if hasGitInput { check }`: none
without a git input, else the check, which ends the iteration when it
fails. -/
theorem gitStage_acts (env : Env σ) (hasGit : Bool) (w : World σ) :
    ((whenStage hasGit (orReturn (mCheckOrDeployGithookService env)) w).1 = none ∧
      (whenStage hasGit (orReturn (mCheckOrDeployGithookService env)) w).2.acts = w.acts ++
        (if hasGit then [Action.checkOrDeployGithookService none] else [])) ∨
    (∃ err, (whenStage hasGit (orReturn (mCheckOrDeployGithookService env)) w).1
        = some (.ret err) ∧
      (whenStage hasGit (orReturn (mCheckOrDeployGithookService env)) w).2.acts = w.acts ++
        [Action.checkOrDeployGithookService (some err)]) := by
  cases hasGit with
  | false => left; simp
  | true =>
    have hc : (mCheckOrDeployGithookService env w).2.acts = w.acts ++
        [.checkOrDeployGithookService (mCheckOrDeployGithookService env w).1] := by
      simp [mCheckOrDeployGithookService, checkOrDeployGithookService_acts]
    simp only [whenStage_true, orReturn_fst, orReturn_snd, hc]
    cases (mCheckOrDeployGithookService env w).1 with
    | none => left; simp
    | some err => right; exact ⟨err, by simp⟩

end SpecChange

/-- The driver calls of a spec-commit change between two non-stopped states:
the first one is `deleteWorkers` on the previous PipelineInfo.  If it fails, it
is the only driver call and its error is returned from the loop.  If it
succeeds, either the githook check fails (and nothing follows), or
`upsertWorkers` on the current PipelineInfo follows, after the deletion and the
successful githook check of a pipeline with a git input. -/
theorem specChange_acts {σ : Type} (env : Env σ) (event : PipelineEvent)
    (w : World σ) (l : PutLocals) (p : EtcdPipelineInfo × PipelineInfo)
    (commit prevCommit : Commit)
    (hE : event.Err = none) (hT : event.Typ = .EventPut)
    (hl : (putLocals env event w).1 = .ok l)
    (hprev : l.prev = some p)
    (hps : pipelineStateToStopped p.1.State = false)
    (hcs : pipelineStateToStopped l.pipelinePtr.State = false)
    (hpc : p.1.SpecCommit = some prevCommit) (hc : l.pipelinePtr.SpecCommit = some commit)
    (hne : commit.ID ≠ prevCommit.ID) :
    ∃ rest,
      (handlePipelineEvent env event w).2.acts = w.acts ++
        Action.deleteWorkers p.2
          (deleteWorkersForPipeline env p.2 (putLocals env event w).2).1 :: rest ∧
      (∀ err, (deleteWorkersForPipeline env p.2 (putLocals env event w).2).1 = some err →
        rest = [] ∧ (handlePipelineEvent env event w).1 = .ret err) ∧
      ((deleteWorkersForPipeline env p.2 (putLocals env event w).2).1 = none →
        (∃ err, rest = [Action.checkOrDeployGithookService (some err)] ∧
          (handlePipelineEvent env event w).1 = .ret err) ∨
        (∃ res after, rest =
          (if hasGitInput l.pipelineInfo then [Action.checkOrDeployGithookService none]
            else []) ++ Action.upsertWorkers l.pipelineInfo res :: after)) := by
  have hacts := putLocals_acts env event w
  rcases hp : putLocals env event w with ⟨r, w1⟩
  rw [hp] at hacts hl
  simp only [] at hacts hl
  subst hl
  have hrec := reconcile_specChange env l w1 p commit prevCommit hprev hps hcs hpc hc hne
  have hh : handlePipelineEvent env event w = finish (reconcile env l w1) := by
    simp [handlePipelineEvent, hE, hT, hp]
  rw [hh, hrec]
  have hd : (mDeleteWorkers env p.2 w1).2.acts = w.acts ++
      [.deleteWorkers p.2 (deleteWorkersForPipeline env p.2 w1).1] := by
    rw [mDeleteWorkers_acts, hacts]
  have hd1 : (mDeleteWorkers env p.2 w1).1 = (deleteWorkersForPipeline env p.2 w1).1 := rfl
  rcases hm : mDeleteWorkers env p.2 w1 with ⟨d, w2⟩
  rw [hm] at hd hd1
  simp only [] at hd hd1
  rw [← hd1]
  cases d with
  | some err =>
    refine ⟨[], ?_, ?_, ?_⟩
    · simp [Stage.andThen, orReturn, hm, finish, hd, ← hd1]
    · intro e he
      simp only [Option.some.injEq] at he
      subst he
      simp [Stage.andThen, orReturn, hm, finish]
    · intro h; simp at h
  | none =>
    have hg := gitStage_acts env (hasGitInput l.pipelineInfo) w2
    rcases hgs : whenStage (hasGitInput l.pipelineInfo)
      (orReturn (mCheckOrDeployGithookService env)) w2 with ⟨go, w3⟩
    rw [hgs] at hg
    simp only [] at hg
    rcases hg with ⟨hgo, hga⟩ | ⟨err, hgo, hga⟩
    · subst hgo
      rcases upsertOrFail_acts env l w3 with ⟨hu1, hu2⟩ | ⟨err, res, -, hu1, hu2⟩
      · rcases hu : upsertOrFail env l w3 with ⟨uo, w4⟩
        rw [hu] at hu1 hu2
        simp only [] at hu1 hu2
        subst hu1
        obtain ⟨new, hnew⟩ := stageScale_acts env l w4
        refine ⟨(if hasGitInput l.pipelineInfo then [Action.checkOrDeployGithookService none]
            else []) ++ Action.upsertWorkers l.pipelineInfo none :: new, ?_, ?_, ?_⟩
        · simp [Stage.andThen, orReturn, hm, hgs, hu, finish, hnew, hu2, hga, hd, ← hd1]
        · intro e he; simp at he
        · intro _; right; exact ⟨none, new, rfl⟩
      · rcases hu : upsertOrFail env l w3 with ⟨uo, w4⟩
        rw [hu] at hu1 hu2
        simp only [] at hu1 hu2
        subst hu1
        refine ⟨(if hasGitInput l.pipelineInfo then [Action.checkOrDeployGithookService none]
            else []) ++ Action.upsertWorkers l.pipelineInfo (some err) ::
            [.setPipelineFailure l.pipelineName ("failed to create workers: " ++ err.text) res],
          ?_, ?_, ?_⟩
        · simp [Stage.andThen, orReturn, hm, hgs, hu, finish, hu2, hga, hd, ← hd1]
        · intro e he; simp at he
        · intro _; right; exact ⟨some err, _, rfl⟩
    · subst hgo
      refine ⟨[Action.checkOrDeployGithookService (some err)], ?_, ?_, ?_⟩
      · simp [Stage.andThen, orReturn, hm, hgs, finish, hga, hd, ← hd1]
      · intro e he; simp at he
      · intro _; left; exact ⟨err, rfl, by simp [Stage.andThen, orReturn, hm, hgs, finish]⟩

end PPS

namespace PPS

open PipelineState

/-! ## Pod events -/

section PodLemmas

variable {σ : Type}

/-- Rebuilding the pod watch logs no master-level action. -/
theorem rebuildWatch_acts (env : Env σ) (event : KubeEvent) (v : WatchVars) (w : World σ) :
    (rebuildWatch env event v w).2.acts = w.acts := by
  unfold rebuildWatch
  repeat' first | split | simp only []
  all_goals simp

/-- The master-level log of a `setPipelineFailure` call of the master. -/
theorem mSetPipelineFailure_acts (env : Env σ) (pipelineName reason : String) (w : World σ) :
    (mSetPipelineFailure env pipelineName reason w).2.acts = w.acts ++
      [.setPipelineFailure pipelineName reason
        (mSetPipelineFailure env pipelineName reason w).1] := by
  simp [mSetPipelineFailure, setPipelineFailure, stmUpsert_acts]

/-- The loop over the container statuses calls `setPipelineFailure` for the
waiting failures of the statuses, in order, up to the first call that fails. -/
theorem failContainers_spec (env : Env σ) (pod : Pod) (statuses : List ContainerStatus)
    (w : World σ) :
    ∃ results : List (Option Error),
      (failContainers env pod statuses w).2.acts = w.acts ++
        failureCalls (mapGet pod.Annotations "pipelineName") (waitingFailures statuses)
          results ∧
      ((results.length = (waitingFailures statuses).length ∧ (∀ r ∈ results, r = none) ∧
          (failContainers env pod statuses w).1 = none) ∨
        (∃ before err, results = before ++ [some err] ∧ (∀ r ∈ before, r = none) ∧
          results.length ≤ (waitingFailures statuses).length ∧
          (failContainers env pod statuses w).1 = some err)) := by
  induction statuses generalizing w with
  | nil =>
    exact ⟨[], by simp [failContainers, failureCalls, waitingFailures], Or.inl (by
      simp [failContainers, waitingFailures])⟩
  | cons status rest ih =>
    unfold failContainers
    cases hw : status.Waiting with
    | none =>
      obtain ⟨results, h1, h2⟩ := ih w
      refine ⟨results, ?_, ?_⟩
      · simpa [waitingFailures, hw] using h1
      · simpa [waitingFailures, hw] using h2
    | some waiting =>
      by_cases hc : status.Name = "user" ∧
          (waiting.Reason = "InvalidImageName" ∨ waiting.Reason = "ErrImagePull")
      · have hcb : (status.Name == "user" && failures waiting.Reason) = true := by
          simp [failures, hc.1, hc.2]
        have hwf : waitingFailures (status :: rest) =
            waiting.Message :: waitingFailures rest := by
          simp [waitingFailures, hw, hc]
        simp only [hcb, if_true, hwf]
        have ha := mSetPipelineFailure_acts env (mapGet pod.Annotations "pipelineName")
          waiting.Message w
        rcases hm : mSetPipelineFailure env (mapGet pod.Annotations "pipelineName")
          waiting.Message w with ⟨r, w1⟩
        rw [hm] at ha
        simp only [] at ha
        cases r with
        | some err =>
          refine ⟨[some err], by simp [failureCalls, ha], Or.inr ⟨[], err, ?_⟩⟩
          simp
        | none =>
          obtain ⟨results, h1, h2⟩ := ih w1
          refine ⟨none :: results, ?_, ?_⟩
          · simp only [h1, ha, failureCalls, List.zip_cons_cons, List.map_cons,
              List.append_assoc, List.singleton_append]
          · rcases h2 with ⟨hlen, hall, hres⟩ | ⟨before, err, hr, hall, hlen, hres⟩
            · left
              refine ⟨by simp [hlen], ?_, hres⟩
              intro r hr
              simp only [List.mem_cons] at hr
              rcases hr with hr | hr
              · exact hr
              · exact hall r hr
            · right
              refine ⟨none :: before, err, by simp [hr], ?_, by simp; omega, hres⟩
              intro r hr
              simp only [List.mem_cons] at hr
              rcases hr with hr | hr
              · exact hr
              · exact hall r hr
      · have hcb : (status.Name == "user" && failures waiting.Reason) = false := by
          simp only [failures, Bool.and_eq_false_imp, beq_iff_eq, Bool.or_eq_false_iff,
            beq_eq_false_iff_ne, ne_eq]
          intro hn
          simp only [hn, true_and, not_or] at hc
          exact hc
        have hwf : waitingFailures (status :: rest) = waitingFailures rest := by
          simp [waitingFailures, hw, hc]
        simp only [hcb, hwf]
        exact ih w

end PodLemmas

end PPS

namespace PPS

open PipelineState

/-- C6: for every pod event that carries a Pod, the `setPipelineFailure` calls
the master makes are exactly those for the container statuses that are named
`user`, are in Waiting and have the reason InvalidImageName or ErrImagePull, in
order, each with the pod's `pipelineName` annotation as pipeline and the
waiting message as reason, up to the first call that fails, whose error is
returned; no other container status leads to a call. -/
theorem pod_event_sets_failures {σ : Type} (env : Env σ) (event : KubeEvent) (v : WatchVars)
    (w : World σ) (pod : Pod) (hpod : event.Object = .pod pod) :
    ∃ results : List (Option Error),
      (handlePodEvent env event v w).2.2.acts = w.acts ++
        failureCalls (mapGet pod.Annotations "pipelineName")
          (waitingFailures pod.ContainerStatuses) results ∧
      ((results.length = (waitingFailures pod.ContainerStatuses).length ∧
          (∀ r ∈ results, r = none) ∧ (handlePodEvent env event v w).1 = .next) ∨
        (∃ before err, results = before ++ [some err] ∧ (∀ r ∈ before, r = none) ∧
          results.length ≤ (waitingFailures pod.ContainerStatuses).length ∧
          (handlePodEvent env event v w).1 = .ret err)) := by
  obtain ⟨results, h1, h2⟩ :=
    failContainers_spec env pod pod.ContainerStatuses (rebuildWatch env event v w).2
  rw [rebuildWatch_acts] at h1
  refine ⟨results, ?_, ?_⟩
  · simp only [handlePodEvent, hpod]
    split <;> simp_all
  · rcases h2 with ⟨hlen, hall, hres⟩ | ⟨before, err, hr, hall, hlen, hres⟩
    · left
      refine ⟨hlen, hall, ?_⟩
      simp only [handlePodEvent, hpod]
      split <;> simp_all
    · right
      refine ⟨before, err, hr, hall, hlen, ?_⟩
      simp only [handlePodEvent, hpod]
      split <;> simp_all

/-- Witness of C6: the pod event of the image-pull scenario in the cluster
model; of the four container statuses of `podA` only the third sets a
failure. -/
theorem pod_event_sets_failures_witness :
    podEventA.Object = .pod podA ∧
    waitingFailures podA.ContainerStatuses = ["manifest unknown"] ∧
    ∃ results : List (Option Error),
      (handlePodEvent (clusterEnv "1.7.0") podEventA
          { kubePipelineWatch := true, watchChan := true } (World.init clusterA)).2.2.acts
        = (World.init clusterA).acts ++
        failureCalls (mapGet podA.Annotations "pipelineName")
          (waitingFailures podA.ContainerStatuses) results ∧
      ((results.length = (waitingFailures podA.ContainerStatuses).length ∧
          (∀ r ∈ results, r = none) ∧
          (handlePodEvent (clusterEnv "1.7.0") podEventA
            { kubePipelineWatch := true, watchChan := true } (World.init clusterA)).1
            = .next) ∨
        (∃ before err, results = before ++ [some err] ∧ (∀ r ∈ before, r = none) ∧
          results.length ≤ (waitingFailures podA.ContainerStatuses).length ∧
          (handlePodEvent (clusterEnv "1.7.0") podEventA
            { kubePipelineWatch := true, watchChan := true } (World.init clusterA)).1
            = .ret err)) :=
  ⟨rfl, by decide,
    pod_event_sets_failures (clusterEnv "1.7.0") podEventA
      { kubePipelineWatch := true, watchChan := true } (World.init clusterA) podA rfl⟩

end PPS

namespace PPS

open PipelineState

/-! ## deleteWorkers -/

section DeleteLemmas

variable {σ : Type}

@[simp] theorem run_kube (w : World σ) (op : σ → Option Error × σ) (c : Option Error → Call) :
    (w.run op c).2.kube = (op w.kube).2 := rfl

/-- The not-found guard lets a result pass exactly when it is a success or a
not-found error. -/
theorem notFoundGuard_eq_none (env : Env σ) (r : Option Error) :
    notFoundGuard env r = none ↔ ∀ e, r = some e → env.isNotFoundErr e = true := by
  cases r with
  | none => simp [notFoundGuard]
  | some e => simp [notFoundGuard]

/-- The not-found guard returns an error exactly when the result is that error
and it is not a not-found error. -/
theorem notFoundGuard_eq_some (env : Env σ) (r : Option Error) (err : Error) :
    notFoundGuard env r = some err ↔ r = some err ∧ env.isNotFoundErr err = false := by
  cases r with
  | none => simp [notFoundGuard]
  | some e =>
    simp only [notFoundGuard, Option.some.injEq]
    constructor
    · intro h
      split at h
      · simp only [Option.some.injEq] at h
        subst h
        simp_all
      · simp at h
    · rintro ⟨rfl, h⟩
      simp [h]

/-- The not-found guard lets a success pass. -/
theorem notFoundGuard_none (env : Env σ) : notFoundGuard env none = none := rfl

end DeleteLemmas

/-- C7: `deleteWorkersForPipeline` attempts a prefix of its delete steps (the
primary worker service, the `-user` service exactly when the pipeline declares
a service, the replica group), in that order and after cancelling the monitor.
It returns success if and only if every step it attempted returned success or
a not-found error, and then it attempted all the steps; otherwise it returns
the error of the last step it attempted, which is not a not-found error and is
the first such error, and it attempts no later step. -/
theorem deleteWorkers_swallows_not_found {σ : Type} (env : Env σ)
    (pipelineInfo : PipelineInfo) (w : World σ) :
    ∃ results : List (Option Error),
      (deleteWorkersForPipeline env pipelineInfo w).2.calls = w.calls ++
        cancelCalls w.monitorCancels pipelineInfo.Name ++
        ((deleteSteps (env.PipelineRcName pipelineInfo.Name pipelineInfo.Version)
          pipelineInfo).zip results).map stepCall ∧
      results.length ≤
        (deleteSteps (env.PipelineRcName pipelineInfo.Name pipelineInfo.Version)
          pipelineInfo).length ∧
      ((deleteWorkersForPipeline env pipelineInfo w).1 = none ↔
        ∀ r ∈ results, ∀ e, r = some e → env.isNotFoundErr e = true) ∧
      ((deleteWorkersForPipeline env pipelineInfo w).1 = none →
        results.length =
          (deleteSteps (env.PipelineRcName pipelineInfo.Name pipelineInfo.Version)
            pipelineInfo).length) ∧
      (∀ err, (deleteWorkersForPipeline env pipelineInfo w).1 = some err →
        env.isNotFoundErr err = false ∧
        ∃ before, results = before ++ [some err] ∧
          ∀ r ∈ before, ∀ e, r = some e → env.isNotFoundErr e = true) := by
  unfold deleteWorkersForPipeline
  simp only []
  have hw0 := cancelMonitor_calls pipelineInfo.Name w
  generalize cancelMonitor pipelineInfo.Name w = w0 at hw0 ⊢
  generalize env.PipelineRcName pipelineInfo.Name pipelineInfo.Version = rcName
  split
  · next err hg1 =>
    simp only [run_fst] at hg1
    have hg1b := (notFoundGuard_eq_some env _ err).mp hg1
    refine ⟨[some err], ?_, ?_, ?_, ?_, ?_⟩
    · simp [deleteSteps, stepCall, hw0, hg1b.1]
    · simp [deleteSteps]
    · simp [hg1b.2]
    · simp
    · intro e he
      simp only [Option.some.injEq] at he
      subst he
      exact ⟨hg1b.2, [], by simp⟩
  · next hg1 =>
    simp only [run_fst] at hg1
    have hg1b := (notFoundGuard_eq_none env _).mp hg1
    cases hS : pipelineInfo.Service with
    | none =>
      simp only [notFoundGuard_none]
      generalize hr3 : (env.rcDelete rcName (env.svcDelete rcName w0.kube).2).1 = r3
      refine ⟨[(env.svcDelete rcName w0.kube).1, r3], ?_, ?_, ?_, ?_, ?_⟩
      · simp [deleteSteps, stepCall, hw0, hS, hr3]
      · simp [deleteSteps, hS]
      · simp only [run_fst, run_kube, hr3, notFoundGuard_eq_none, List.mem_cons,
          List.mem_singleton, List.not_mem_nil, or_false, forall_eq_or_imp, forall_eq]
        exact ⟨fun h => ⟨hg1b, h⟩, fun h => h.2⟩
      · simp [deleteSteps, hS]
      · intro e he
        simp only [run_fst, run_kube, hr3] at he
        have := (notFoundGuard_eq_some env _ e).mp he
        refine ⟨this.2, [(env.svcDelete rcName w0.kube).1], by simp [this.1], ?_⟩
        simpa using hg1b
    | some svc =>
      simp only []
      split
      · next err hg2 =>
        simp only [run_fst, run_kube] at hg2
        have hg2b := (notFoundGuard_eq_some env _ err).mp hg2
        refine ⟨[(env.svcDelete rcName w0.kube).1, some err], ?_, ?_, ?_, ?_, ?_⟩
        · simp [deleteSteps, stepCall, hw0, hS, hg2b.1]
        · simp [deleteSteps, hS]
        · simp [hg2b.2]
        · simp
        · intro e he
          simp only [Option.some.injEq] at he
          subst he
          refine ⟨hg2b.2, [(env.svcDelete rcName w0.kube).1], by simp, ?_⟩
          simpa using hg1b
      · next hg2 =>
        simp only [run_fst, run_kube] at hg2
        have hg2b := (notFoundGuard_eq_none env _).mp hg2
        generalize hr2 : (env.svcDelete (rcName ++ "-user")
          (env.svcDelete rcName w0.kube).2).1 = r2 at hg2b
        generalize hr3 : (env.rcDelete rcName (env.svcDelete (rcName ++ "-user")
          (env.svcDelete rcName w0.kube).2).2).1 = r3
        refine ⟨[(env.svcDelete rcName w0.kube).1, r2, r3], ?_, ?_, ?_, ?_, ?_⟩
        · simp [deleteSteps, stepCall, hw0, hS, hr2, hr3]
        · simp [deleteSteps, hS]
        · simp only [run_fst, run_kube, hr3, notFoundGuard_eq_none, List.mem_cons,
            List.mem_singleton, List.not_mem_nil, or_false, forall_eq_or_imp, forall_eq]
          exact ⟨fun h => ⟨hg1b, hg2b, h⟩, fun h => h.2.2⟩
        · simp [deleteSteps, hS]
        · intro e he
          simp only [run_fst, run_kube, hr3] at he
          have := (notFoundGuard_eq_some env _ e).mp he
          refine ⟨this.2, [(env.svcDelete rcName w0.kube).1, r2], by simp [this.1], ?_⟩
          intro r hr
          simp only [List.mem_cons, List.mem_singleton, List.not_mem_nil, or_false] at hr
          rcases hr with rfl | rfl
          · exact hg1b
          · exact hg2b

end PPS

namespace PPS

open PipelineState

/-! ## upsertWorkers -/

section UpsertLemmas

variable {σ : Type}

@[simp] theorem attemptCount_append (a b : List Call) :
    attemptCount (a ++ b) = attemptCount a + attemptCount b := by
  simp [attemptCount]

@[simp] theorem monitorStarts_append (a b : List Call) :
    monitorStarts (a ++ b) = monitorStarts a + monitorStarts b := by
  simp [monitorStarts]

@[simp] theorem log_calls (w : World σ) (c : Call) : (w.log c).calls = w.calls ++ [c] := rfl

/-- Deleting workers attempts no create body and starts no monitor. -/
theorem deleteWorkersForPipeline_counts (env : Env σ) (pipelineInfo : PipelineInfo)
    (w : World σ) :
    attemptCount (deleteWorkersForPipeline env pipelineInfo w).2.calls = attemptCount w.calls ∧
    monitorStarts (deleteWorkersForPipeline env pipelineInfo w).2.calls
      = monitorStarts w.calls := by
  have hc := cancelMonitor_calls pipelineInfo.Name w
  unfold deleteWorkersForPipeline
  simp only []
  repeat' split
  all_goals simp [hc]
  all_goals simp [attemptCount, monitorStarts, cancelCalls]
  all_goals split <;> simp

/-- One run of the create body logs one attempt and starts no monitor. -/
theorem upsertBody_counts (env : Env σ) (pipelineInfo : PipelineInfo) (w : World σ) :
    attemptCount (upsertBody env pipelineInfo w).2.calls = attemptCount w.calls + 1 ∧
    monitorStarts (upsertBody env pipelineInfo w).2.calls = monitorStarts w.calls := by
  unfold upsertBody
  simp only []
  repeat' split
  all_goals simp [deleteWorkersForPipeline_counts]
  all_goals simp [attemptCount, monitorStarts]

end UpsertLemmas

end PPS

namespace PPS

open PipelineState

section UpsertRetry

variable {σ : Type}

/-- The retry loop is the last of at most three chained runs of the body. -/
theorem upsertRetry_eq_last (env : Env σ) (pipelineInfo : PipelineInfo) (w : World σ) :
    (bodyRuns env pipelineInfo 3 w).getLast? = some (upsertRetry env pipelineInfo 0 w) ∧
    ((upsertRetry env pipelineInfo 0 w).1 ≠ none → (bodyRuns env pipelineInfo 3 w).length = 3) ∧
    (∀ b ∈ (bodyRuns env pipelineInfo 3 w).dropLast, b.1 ≠ none) ∧
    attemptCount (upsertRetry env pipelineInfo 0 w).2.calls =
      attemptCount w.calls + (bodyRuns env pipelineInfo 3 w).length ∧
    monitorStarts (upsertRetry env pipelineInfo 0 w).2.calls = monitorStarts w.calls := by
  have c1 := upsertBody_counts env pipelineInfo w
  rcases h1 : upsertBody env pipelineInfo w with ⟨r1, w1⟩
  rw [h1] at c1
  simp only [] at c1
  cases r1 with
  | none =>
    rw [upsertRetry, h1]
    simp [bodyRuns, h1, c1]
  | some e1 =>
    have c2 := upsertBody_counts env pipelineInfo w1
    rcases h2 : upsertBody env pipelineInfo w1 with ⟨r2, w2⟩
    rw [h2] at c2
    simp only [] at c2
    cases r2 with
    | none =>
      rw [upsertRetry, h1]
      simp only [ge_iff_le, Nat.reduceLeDiff, if_false]
      rw [upsertRetry, h2]
      simp [bodyRuns, h1, h2, c1, c2]
    | some e2 =>
      have c3 := upsertBody_counts env pipelineInfo w2
      rcases h3 : upsertBody env pipelineInfo w2 with ⟨r3, w3⟩
      rw [h3] at c3
      simp only [] at c3
      rw [upsertRetry, h1]
      simp only [ge_iff_le, Nat.reduceLeDiff, if_false]
      rw [upsertRetry, h2]
      simp only [ge_iff_le, Nat.reduceLeDiff, if_false]
      rw [upsertRetry, h3]
      cases r3 with
      | none =>
        simp [bodyRuns, h1, h2, h3, c1, c2, c3]
      | some e3 =>
        simp [bodyRuns, h1, h2, h3, c1, c2, c3]

/-- At most `n` attempts are made. -/
theorem bodyRuns_length_le (env : Env σ) (pipelineInfo : PipelineInfo) (n : Nat)
    (w : World σ) : (bodyRuns env pipelineInfo n w).length ≤ n := by
  induction n generalizing w with
  | zero => simp [bodyRuns]
  | succ n ih =>
    simp only [bodyRuns, List.length_cons]
    split
    · simp
    · have := ih (upsertBody env pipelineInfo w).2
      omega

end UpsertRetry

/-- C8: `upsertWorkersForPipeline` runs its create body as the spec says, up
to 3 times and stopping at the first attempt that succeeds: the attempts it
logs are those of `bodyRuns 3`, at most 3, every attempt before the last one
failed, and the result is the outcome of the last attempt.  If it returns an
error, three attempts were made, the error is that of the third attempt, and
the world is the one the third attempt left: there is no fourth attempt and no
monitor is started. -/
theorem upsert_retries_at_most_three {σ : Type} (env : Env σ) (pipelineInfo : PipelineInfo)
    (w : World σ) :
    ∃ last, (bodyRuns env pipelineInfo 3 w).getLast? = some last ∧
      (bodyRuns env pipelineInfo 3 w).length ≤ 3 ∧
      (∀ b ∈ (bodyRuns env pipelineInfo 3 w).dropLast, b.1 ≠ none) ∧
      (upsertWorkersForPipeline env pipelineInfo w).1 = last.1 ∧
      attemptCount (upsertWorkersForPipeline env pipelineInfo w).2.calls =
        attemptCount w.calls + (bodyRuns env pipelineInfo 3 w).length ∧
      (∀ err, (upsertWorkersForPipeline env pipelineInfo w).1 = some err →
        (bodyRuns env pipelineInfo 3 w).length = 3 ∧
        (upsertWorkersForPipeline env pipelineInfo w).2 = last.2 ∧
        monitorStarts (upsertWorkersForPipeline env pipelineInfo w).2.calls
          = monitorStarts w.calls) := by
  obtain ⟨hlast, hlen, hdrop, hcount, hmon⟩ := upsertRetry_eq_last env pipelineInfo w
  refine ⟨upsertRetry env pipelineInfo 0 w, hlast, bodyRuns_length_le env pipelineInfo 3 w,
    hdrop, ?_, ?_, ?_⟩
  · unfold upsertWorkersForPipeline
    repeat' split
    all_goals simp_all
  · rw [← hcount]
    unfold upsertWorkersForPipeline
    repeat' split
    all_goals simp_all [attemptCount]
  · intro err herr
    unfold upsertWorkersForPipeline at herr ⊢
    rcases h : upsertRetry env pipelineInfo 0 w with ⟨r, w1⟩
    rw [h] at herr hlen hmon
    cases r with
    | none =>
      simp only [] at herr
      split at herr <;> simp at herr
    | some e =>
      simp only [] at herr ⊢
      exact ⟨hlen (by simp), trivial, hmon⟩

end PPS

namespace PPS

open PipelineState

/-! ## The githook service ensurer -/

/-- C9, as stated, fails: in a cluster where the label lookup succeeds and
finds two matching services (not none), `checkOrDeployGithookService` still
attempts to create the githook service. -/
theorem githook_create_attempted_with_two_services :
    (clusterEnv "1.7.0").svcListGithook clusterTwoGithooks = (.ok 2, clusterTwoGithooks) ∧
    (checkOrDeployGithookService (clusterEnv "1.7.0") (World.init clusterTwoGithooks)).2.calls
      = [Call.svcListGithook (.ok 2), Call.svcCreateGithook none] ∧
    ¬ ((Call.svcCreateGithook none ∈
        (checkOrDeployGithookService (clusterEnv "1.7.0")
          (World.init clusterTwoGithooks)).2.calls) ↔
      (clusterEnv "1.7.0").svcListGithook clusterTwoGithooks = (.ok 0, clusterTwoGithooks)) := by
  have h1 : (clusterEnv "1.7.0").svcListGithook clusterTwoGithooks
      = (.ok 2, clusterTwoGithooks) := rfl
  have h2 : (checkOrDeployGithookService (clusterEnv "1.7.0")
      (World.init clusterTwoGithooks)).2.calls
      = [Call.svcListGithook (.ok 2), Call.svcCreateGithook none] := rfl
  refine ⟨h1, h2, ?_⟩
  rw [h1, h2]
  simp

/-- C9, amended: `checkOrDeployGithookService` makes the label lookup and
nothing else, returning its error, when the lookup fails; it makes the lookup
and nothing else, returning success, when the lookup finds exactly one
matching service; and in every other case (the lookup finds none, or two or
more) it makes the lookup, then attempts to create the githook service, and
returns the result of the creation. -/
theorem githook_create_iff_not_exactly_one {σ : Type} (env : Env σ) (w : World σ) :
    match (env.svcListGithook w.kube).1 with
    | .error msg =>
      (checkOrDeployGithookService env w).1 = some (.plain msg) ∧
      (checkOrDeployGithookService env w).2.calls =
        w.calls ++ [Call.svcListGithook (.error msg)]
    | .ok n =>
      if n = 1 then
        (checkOrDeployGithookService env w).1 = none ∧
        (checkOrDeployGithookService env w).2.calls = w.calls ++ [Call.svcListGithook (.ok 1)]
      else
        (checkOrDeployGithookService env w).1 =
          (env.svcCreateGithook (env.svcListGithook w.kube).2).1 ∧
        (checkOrDeployGithookService env w).2.calls = w.calls ++
          [Call.svcListGithook (.ok n),
           Call.svcCreateGithook (env.svcCreateGithook (env.svcListGithook w.kube).2).1] := by
  unfold checkOrDeployGithookService getGithookService
  cases h : (env.svcListGithook w.kube).1 with
  | error err => simp [h]
  | ok n =>
    by_cases hn : n = 1
    · subst hn
      simp [h]
    · simp [hn, h]

end PPS

namespace PPS

open PipelineState

/-! ## Failed upserts -/

section UpsertFailure

variable {σ : Type}

/-- Sequencing keeps the handling of upsert failures. -/
theorem failOk_seq {name : String} {a b : Stage σ} (ha : FailOk name a)
    (hb : FailOk name b) : FailOk name (a.andThen b) := by
  intro w
  obtain ⟨na, hna, fa, sa⟩ := ha w
  unfold Stage.andThen
  rcases h : a w with ⟨oa, w1⟩
  rw [h] at hna fa
  simp only [] at hna fa
  cases oa with
  | some o => exact ⟨na, hna, fa, sa⟩
  | none =>
    obtain ⟨nb, hnb, fb, sb⟩ := hb w1
    refine ⟨na ++ nb, by simp [hnb, hna], ?_, ?_⟩
    · intro pre post info e heq
      rcases List.append_eq_append_iff.mp heq with ⟨t, hpre, hnb2⟩ | ⟨t, hna2, hcons⟩
      · exact fb t post info e hnb2
      · cases t with
        | nil =>
          simp only [List.nil_append] at hcons
          exact fb [] post info e hcons.symm
        | cons x t =>
          simp only [List.cons_append, List.cons.injEq] at hcons
          obtain ⟨hx, hpost⟩ := hcons
          subst hx
          obtain ⟨res, -, ho⟩ := fa pre t info e hna2
          simp at ho
    · intro x hx
      rcases List.mem_append.mp hx with hx | hx
      · exact sa x hx
      · exact sb x hx

/-- An `if` statement handles upsert failures when its body does. -/
theorem failOk_cond {name : String} {body : Stage σ} (c : Bool)
    (hb : FailOk name body) : FailOk name (whenStage c body) := by
  intro w
  cases c with
  | true => exact hb w
  | false =>
    refine ⟨[], by simp, ?_, ?_⟩
    · intro pre post info e h; simp at h
    · intro a ha; simp at ha

/-- A statement that does nothing handles upsert failures. -/
theorem failOk_skip (name : String) :
    FailOk name (fun (w : World σ) => ((none : Option Outcome), w)) := by
  intro w
  refine ⟨[], by simp, ?_, ?_⟩
  · intro pre post info e h; simp at h
  · intro a ha; simp at ha

/-- A statement that logs one driver call, neither `upsertWorkers` nor a
scaling, handles upsert failures. -/
theorem failOk_single (name : String) (f : Stage σ) (a : World σ → Action)
    (hf : ∀ w, (f w).2.acts = w.acts ++ [a w])
    (hu : ∀ w info res, a w ≠ .upsertWorkers info res)
    (hs : ∀ w info res, a w ≠ .scaleUp info res)
    (hd : ∀ w info res, a w ≠ .scaleDown info res) : FailOk name f := by
  intro w
  refine ⟨[a w], hf w, ?_, ?_⟩
  · intro pre post info e h
    rcases pre with _ | ⟨x, pre⟩
    · simp only [List.nil_append, List.cons.injEq] at h
      exact absurd h.1 (hu w info (some e))
    · simp at h
  · intro x hx
    simp only [List.mem_singleton] at hx
    subst hx
    exact ⟨hs w, hd w⟩

/-- The statement `upsertWorkers, or set FAILURE` handles upsert failures. -/
theorem failOk_upsert (env : Env σ) (l : PutLocals) :
    FailOk l.pipelineName (upsertOrFail env l) := by
  intro w
  rcases upsertOrFail_acts env l w with ⟨h1, h2⟩ | ⟨err, res, -, h1, h2⟩
  · refine ⟨[.upsertWorkers l.pipelineInfo none], h2, ?_, ?_⟩
    · intro pre post info e heq
      rcases pre with _ | ⟨x, pre⟩ <;> simp at heq
    · intro a ha
      simp only [List.mem_singleton] at ha
      subst ha
      simp
  · refine ⟨_, h2, ?_, ?_⟩
    · intro pre post info e heq
      rcases pre with _ | ⟨x, _ | ⟨y, pre⟩⟩ <;> simp at heq
      obtain ⟨⟨-, he⟩, hpost⟩ := heq
      subst he
      exact ⟨res, hpost.symm, h1⟩
    · intro a ha
      simp only [List.mem_cons, List.mem_singleton, List.not_mem_nil, or_false] at ha
      rcases ha with rfl | rfl <;> simp

/-- The three statements before the scaling handle upsert failures. -/
theorem failOk_beforeScale (env : Env σ) (l : PutLocals) :
    FailOk l.pipelineName
      (((stageStopped env l).andThen (stageRestarted env l)).andThen (stageUpserted env l)) := by
  have hdel : ∀ info, FailOk l.pipelineName (orReturn (mDeleteWorkers env info)) := fun info =>
    failOk_single _ _ (fun w => .deleteWorkers info (deleteWorkersForPipeline env info w).1)
      (fun w => by simp [mDeleteWorkers_acts]) (fun _ _ _ => by simp) (fun _ _ _ => by simp)
      (fun _ _ _ => by simp)
  have hgit : FailOk l.pipelineName (whenStage (hasGitInput l.pipelineInfo)
      (orReturn (mCheckOrDeployGithookService env))) :=
    failOk_cond _ (failOk_single _ _
      (fun w => .checkOrDeployGithookService (checkOrDeployGithookService env w).1)
      (fun w => by simp [mCheckOrDeployGithookService, checkOrDeployGithookService_acts])
      (fun _ _ _ => by simp) (fun _ _ _ => by simp) (fun _ _ _ => by simp))
  refine failOk_seq (failOk_seq ?_ ?_) ?_
  · exact failOk_cond _ (hdel _)
  · exact failOk_cond _ (failOk_seq hgit (failOk_upsert env l))
  · intro w
    unfold stageUpserted
    cases pipelineUpserted l with
    | none =>
      refine ⟨[], by simp, ?_, ?_⟩
      · intro pre post info e h; simp at h
      · intro a ha; simp at ha
    | some upserted =>
      simp only []
      refine failOk_cond _ (failOk_seq (failOk_seq ?_ hgit)
        (failOk_upsert env l)) w
      cases l.prev with
      | none => exact failOk_skip _
      | some p => exact hdel p.2

/-- The scaling statements log only scaling calls. -/
theorem stageScale_only_scales (env : Env σ) (l : PutLocals) (w : World σ) :
    ∃ new, (stageScale env l w).2.acts = w.acts ++ new ∧
      ∀ a ∈ new, (∃ info r, a = Action.scaleUp info r) ∨
        (∃ info r, a = Action.scaleDown info r) := by
  have hu : ∀ w, (mScaleUp env l.pipelineInfo w).2.acts = w.acts ++
      [.scaleUp l.pipelineInfo (scaleUpWorkersForPipeline env l.pipelineInfo w).1] := by
    intro w; simp [mScaleUp, scaleUpWorkersForPipeline_acts]
  have hd : ∀ w, (mScaleDown env l.pipelineInfo w).2.acts = w.acts ++
      [.scaleDown l.pipelineInfo (scaleDownWorkersForPipeline env l.pipelineInfo w).1] := by
    intro w; simp [mScaleDown, scaleDownWorkersForPipeline_acts]
  unfold stageScale Stage.andThen
  cases (l.pipelineInfo.State == PIPELINE_RUNNING) with
  | false =>
    simp only [whenStage_false]
    cases (l.pipelineInfo.State == PIPELINE_STANDBY) with
    | false => exact ⟨[], by simp, by simp⟩
    | true =>
      refine ⟨_, by simp only [whenStage_true, orReturn_snd]; exact hd w, ?_⟩
      intro a ha
      simp only [List.mem_singleton] at ha
      exact Or.inr ⟨_, _, ha⟩
  | true =>
    simp only [whenStage_true]
    have hu1 := hu w
    rcases h : orReturn (mScaleUp env l.pipelineInfo) w with ⟨o, w1⟩
    have hw1 : w1 = (mScaleUp env l.pipelineInfo w).2 := by
      have := orReturn_snd (mScaleUp env l.pipelineInfo) w
      rw [h] at this
      exact this
    cases o with
    | some o =>
      refine ⟨_, by simp only [hw1]; exact hu1, ?_⟩
      intro a ha
      simp only [List.mem_singleton] at ha
      exact Or.inl ⟨_, _, ha⟩
    | none =>
      simp only []
      cases (l.pipelineInfo.State == PIPELINE_STANDBY) with
      | false =>
        refine ⟨_, by simp only [whenStage_false, hw1]; exact hu1, ?_⟩
        intro a ha
        simp only [List.mem_singleton] at ha
        exact Or.inl ⟨_, _, ha⟩
      | true =>
        refine ⟨_, by simp only [whenStage_true, orReturn_snd, hd, hw1, hu1,
          List.append_assoc]; rfl, ?_⟩
        intro a ha
        simp only [List.singleton_append, List.mem_cons, List.mem_singleton,
          List.not_mem_nil, or_false] at ha
        rcases ha with ha | ha
        · exact Or.inl ⟨_, _, ha⟩
        · exact Or.inr ⟨_, _, ha⟩

end UpsertFailure

end PPS

namespace PPS

open PipelineState

/-- Sequential composition, unfolded once. -/
theorem andThen_apply {σ : Type} (a b : Stage σ) (w : World σ) :
    a.andThen b w =
      match a w with
      | (some o, w1) => (some o, w1)
      | (none, w1) => b w1 := rfl

/-- C10: whenever an `upsertWorkers` call of the master fails with an error
`e` while it handles a pipeline PUT event (in the restart branch or in the
created/updated branch), exactly one driver call follows, `setPipelineFailure`
for the pipeline with the reason `"failed to create workers: "` followed by the
text of `e`; no `scaleUp` or `scaleDown` is made for the event; the iteration
returns an error only if `setPipelineFailure` failed, and otherwise the loop
goes on with the next event. -/
theorem failed_upsert_marks_failure {σ : Type} (env : Env σ) (event : PipelineEvent)
    (w : World σ) (l : PutLocals)
    (hE : event.Err = none) (hT : event.Typ = .EventPut)
    (hl : (putLocals env event w).1 = .ok l) :
    ∃ new, (handlePipelineEvent env event w).2.acts = w.acts ++ new ∧
      ∀ pre post info e, new = pre ++ Action.upsertWorkers info (some e) :: post →
        (∃ res,
          post = [Action.setPipelineFailure l.pipelineName
            ("failed to create workers: " ++ e.text) res] ∧
          (handlePipelineEvent env event w).1 =
            (match res with
              | some e2 => .ret e2
              | none => .next) ∧
          (res = none → ∀ rest v, masterLoop env (.pipeline event :: rest) v w =
            masterLoop env rest v (handlePipelineEvent env event w).2)) ∧
        (∀ a ∈ new, (∀ pi r, a ≠ Action.scaleUp pi r) ∧
          (∀ pi r, a ≠ Action.scaleDown pi r)) := by
  have hacts := putLocals_acts env event w
  rcases hp : putLocals env event w with ⟨r, w1⟩
  rw [hp] at hacts hl
  simp only [] at hacts hl
  subst hl
  have hh : handlePipelineEvent env event w = finish (reconcile env l w1) := by
    simp [handlePipelineEvent, hE, hT, hp]
  obtain ⟨n1, hn1, hf1, hs1⟩ := failOk_beforeScale env l w1
  have hrec : reconcile env l w1 =
      ((((stageStopped env l).andThen (stageRestarted env l)).andThen
        (stageUpserted env l)).andThen (stageScale env l)) w1 := rfl
  rcases hb : (((stageStopped env l).andThen (stageRestarted env l)).andThen
      (stageUpserted env l)) w1 with ⟨o, w2⟩
  rw [hb] at hn1 hf1
  simp only [] at hn1 hf1
  cases o with
  | some o =>
    have hr : reconcile env l w1 = (some o, w2) := by
      rw [hrec, andThen_apply, hb]
    refine ⟨n1, by simp [hh, hr, finish, hn1, hacts], ?_⟩
    intro pre post info e heq
    obtain ⟨res, hpost, ho⟩ := hf1 pre post info e heq
    simp only [Option.some.injEq] at ho
    have hout : (handlePipelineEvent env event w).1 = o := by
      simp [hh, hr, finish]
    refine ⟨⟨res, hpost, hout.trans ho, ?_⟩, hs1⟩
    intro hres rest v
    subst hres
    simp only [] at ho
    subst ho
    rcases hev : handlePipelineEvent env event w with ⟨o2, w3⟩
    rw [hev] at hout
    simp only [] at hout
    subst hout
    simp [masterLoop, hev]
  | none =>
    obtain ⟨n2, hn2, hs2⟩ := stageScale_only_scales env l w2
    have hr : reconcile env l w1 = stageScale env l w2 := by
      rw [hrec, andThen_apply, hb]
    refine ⟨n1 ++ n2, by simp [hh, hr, finish, hn1, hn2, hacts], ?_⟩
    intro pre post info e heq
    exfalso
    rcases List.append_eq_append_iff.mp heq with ⟨t, hpre, hnb2⟩ | ⟨t, hna2, hcons⟩
    · have := hs2 (Action.upsertWorkers info (some e)) (by simp [hnb2])
      simp at this
    · cases t with
      | nil =>
        simp only [List.nil_append] at hcons
        have := hs2 (Action.upsertWorkers info (some e)) (by simp [← hcons])
        simp at this
      | cons x t =>
        simp only [List.cons_append, List.cons.injEq] at hcons
        obtain ⟨hx, -⟩ := hcons
        subst hx
        obtain ⟨res, -, ho⟩ := hf1 pre t info e hna2
        simp at ho

/-- Witness of C10: the PUT event that creates pipeline `A`, with an
orchestrator that refuses to create worker replica groups. -/
theorem failed_upsert_marks_failure_witness :
    createPutA.Err = none ∧ createPutA.Typ = .EventPut ∧
    (putLocals quotaEnv createPutA (World.init clusterA)).1 = .ok createLocalsA ∧
    ∃ new, (handlePipelineEvent quotaEnv createPutA (World.init clusterA)).2.acts
        = (World.init clusterA).acts ++ new ∧
      ∀ pre post info e, new = pre ++ Action.upsertWorkers info (some e) :: post →
        (∃ res,
          post = [Action.setPipelineFailure createLocalsA.pipelineName
            ("failed to create workers: " ++ e.text) res] ∧
          (handlePipelineEvent quotaEnv createPutA (World.init clusterA)).1 =
            (match res with
              | some e2 => .ret e2
              | none => .next) ∧
          (res = none → ∀ rest v,
            masterLoop quotaEnv (.pipeline createPutA :: rest) v (World.init clusterA) =
            masterLoop quotaEnv rest v
              (handlePipelineEvent quotaEnv createPutA (World.init clusterA)).2)) ∧
        (∀ a ∈ new, (∀ pi r, a ≠ Action.scaleUp pi r) ∧
          (∀ pi r, a ≠ Action.scaleDown pi r)) :=
  ⟨rfl, rfl, rfl,
    failed_upsert_marks_failure quotaEnv createPutA (World.init clusterA) createLocalsA
      rfl rfl rfl⟩

end PPS

/-! ## Idempotence: the abstract reconciliation -/

namespace PPS
open PipelineState

/-- Abstract states with the same fields are equal. -/
theorem AState.ext_fields (a b : AState) (h1 : ∀ k, a.rcs k = b.rcs k)
    (h2 : ∀ k, a.services k = b.services k) (h3 : ∀ k, a.monitors k = b.monitors k)
    (h4 : a.foreignGithook = b.foreignGithook) (h5 : a.nodes = b.nodes)
    (h6 : a.specs = b.specs) : a = b := by
  cases a; cases b
  simp only [AState.mk.injEq]
  exact ⟨funext h1, funext h2, funext h3, h4, h5, h6⟩

/-- The version label of a one-label map. -/
theorem mapGet_version (v : String) : mapGet [("version", v)] "version" = v := by
  simp [mapGet, List.find?]

@[simp] theorem deleteA_rcs (p : PipelineInfo) (a : AState) (k : String) :
    (deleteA p a).rcs k = if k = rcNameOf p.Name p.Version then none else a.rcs k := rfl

@[simp] theorem deleteA_services (p : PipelineInfo) (a : AState) (k : String) :
    (deleteA p a).services k =
      if k = rcNameOf p.Name p.Version then false
      else if p.Service.isSome ∧ k = rcNameOf p.Name p.Version ++ "-user" then false
      else a.services k := rfl

@[simp] theorem deleteA_monitors (p : PipelineInfo) (a : AState) (k : String) :
    (deleteA p a).monitors k = if k = p.Name then false else a.monitors k := rfl

@[simp] theorem deleteA_foreignGithook (p : PipelineInfo) (a : AState) :
    (deleteA p a).foreignGithook = a.foreignGithook := rfl

@[simp] theorem deleteA_nodes (p : PipelineInfo) (a : AState) :
    (deleteA p a).nodes = a.nodes := rfl

@[simp] theorem deleteA_specs (p : PipelineInfo) (a : AState) :
    (deleteA p a).specs = a.specs := rfl

@[simp] theorem upsertA_rcs (v : String) (p : PipelineInfo) (a : AState) (k : String) :
    (upsertA v p a).rcs k =
      if k = rcNameOf p.Name p.Version then some (upsertedRc v (a.rcs k)) else a.rcs k := by
  unfold upsertA upsertedRc
  by_cases h : versionLabel (a.rcs (rcNameOf p.Name p.Version)) = v
  · by_cases hk : k = rcNameOf p.Name p.Version
    · subst hk; simp [h]
    · simp [h, hk]
  · by_cases hk : k = rcNameOf p.Name p.Version
    · subst hk; simp [h]
    · simp [h, hk]

@[simp] theorem upsertA_services (v : String) (p : PipelineInfo) (a : AState) (k : String) :
    (upsertA v p a).services k =
      if k = rcNameOf p.Name p.Version then true
      else if p.Service.isSome ∧ k = rcNameOf p.Name p.Version ++ "-user" then true
      else a.services k := by
  unfold upsertA
  by_cases h : versionLabel (a.rcs (rcNameOf p.Name p.Version)) = v
  · simp [h]
  · simp only [h, if_false, deleteA_services]
    split_ifs <;> simp_all

@[simp] theorem upsertA_monitors (v : String) (p : PipelineInfo) (a : AState) (k : String) :
    (upsertA v p a).monitors k = if k = p.Name then true else a.monitors k := by
  unfold upsertA
  by_cases h : versionLabel (a.rcs (rcNameOf p.Name p.Version)) = v
  · simp [h]
  · simp only [h, if_false, deleteA_monitors]
    split_ifs <;> simp_all

@[simp] theorem upsertA_foreignGithook (v : String) (p : PipelineInfo) (a : AState) :
    (upsertA v p a).foreignGithook = a.foreignGithook := by
  unfold upsertA; split_ifs <;> rfl

@[simp] theorem upsertA_nodes (v : String) (p : PipelineInfo) (a : AState) :
    (upsertA v p a).nodes = a.nodes := by
  unfold upsertA; split_ifs <;> rfl

@[simp] theorem upsertA_specs (v : String) (p : PipelineInfo) (a : AState) :
    (upsertA v p a).specs = a.specs := by
  unfold upsertA; split_ifs <;> rfl

@[simp] theorem versionLabel_upsertedRc (v : String) (old : Option RCData) :
    versionLabel (some (upsertedRc v old)) = v := by
  unfold upsertedRc
  split_ifs with h
  · cases old with
    | none => simp [versionLabel, mapGet_version]
    | some d => simpa [versionLabel] using h
  · simp [versionLabel, mapGet_version]

@[simp] theorem upsertedRc_none (v : String) :
    upsertedRc v none = { Labels := [("version", v)], Replicas := 0 } := by
  unfold upsertedRc; split_ifs <;> rfl

/-- A replica group that already carries the version label is kept as it is. -/
theorem upsertedRc_of_label (v : String) (d : RCData) (h : versionLabel (some d) = v) :
    upsertedRc v (some d) = d := by
  simp [upsertedRc, h]

@[simp] theorem upsertedRc_upsertedRc (v : String) (old : Option RCData) :
    upsertedRc v (some (upsertedRc v old)) = upsertedRc v old :=
  upsertedRc_of_label v _ (versionLabel_upsertedRc v old)

@[simp] theorem upsertedRc_scaled (v : String) (old : Option RCData) (n : Int) :
    upsertedRc v (some { Labels := (upsertedRc v old).Labels, Replicas := n }) =
      { Labels := (upsertedRc v old).Labels, Replicas := n } := by
  apply upsertedRc_of_label
  have := versionLabel_upsertedRc v old
  simpa [versionLabel] using this

@[simp] theorem map_scale_comp (n m : Int) (x : Option RCData) :
    Option.map ((fun d => ({ Labels := d.Labels, Replicas := n } : RCData)) ∘
      fun d => ({ Labels := d.Labels, Replicas := m } : RCData)) x =
    Option.map (fun d => ({ Labels := d.Labels, Replicas := n } : RCData)) x := by
  cases x <;> rfl

/-- No replica group and no `-user` service is named `githook`. -/
theorem rcNameOf_ne_githook (name : String) (version : Nat) :
    "githook" ≠ rcNameOf name version ∧ "githook" ≠ rcNameOf name version ++ "-user" := by
  have h : ∀ t : String, "githook" ≠ "pipeline-" ++ t := by
    intro t h
    have := congrArg String.data h
    simp [String.data_append] at this
  constructor
  · unfold rcNameOf
    rw [String.append_assoc, String.append_assoc]
    exact h _
  · unfold rcNameOf
    rw [String.append_assoc, String.append_assoc, String.append_assoc]
    exact h _

@[simp] theorem githook_eq_rcNameOf (name : String) (version : Nat) :
    ("githook" = rcNameOf name version) = False :=
  eq_false (rcNameOf_ne_githook name version).1

@[simp] theorem githook_eq_rcNameOf_user (name : String) (version : Nat) :
    ("githook" = rcNameOf name version ++ "-user") = False :=
  eq_false (rcNameOf_ne_githook name version).2

@[simp] theorem rcNameOf_eq_githook (name : String) (version : Nat) :
    (rcNameOf name version = "githook") = False :=
  eq_false fun h => (rcNameOf_ne_githook name version).1 h.symm

@[simp] theorem rcNameOf_user_eq_githook (name : String) (version : Nat) :
    (rcNameOf name version ++ "-user" = "githook") = False :=
  eq_false fun h => (rcNameOf_ne_githook name version).2 h.symm

@[simp] theorem githookA_rcs (a : AState) (k : String) : (githookA a).rcs k = a.rcs k := by
  unfold githookA; split_ifs <;> rfl

@[simp] theorem githookA_monitors (a : AState) (k : String) :
    (githookA a).monitors k = a.monitors k := by
  unfold githookA; split_ifs <;> rfl

@[simp] theorem githookA_foreignGithook (a : AState) :
    (githookA a).foreignGithook = a.foreignGithook := by
  unfold githookA; split_ifs <;> rfl

@[simp] theorem githookA_nodes (a : AState) : (githookA a).nodes = a.nodes := by
  unfold githookA; split_ifs <;> rfl

@[simp] theorem githookA_specs (a : AState) : (githookA a).specs = a.specs := by
  unfold githookA; split_ifs <;> rfl

/-- The services after a successful githook check: the githook service is
there unless exactly one service carried the githook labels before. -/
theorem githookA_services (a : AState) (k : String) :
    (githookA a).services k =
      if k = "githook" ∧ ¬ ((if a.services "githook" then 1 else 0) + a.foreignGithook = 1)
      then true else a.services k := by
  unfold githookA
  split_ifs <;> simp_all

@[simp] theorem scaleA_rcs (p : PipelineInfo) (n : Int) (a : AState) (k : String) :
    (scaleA p n a).rcs k =
      if k = rcNameOf p.Name p.Version then
        (a.rcs k).map fun d => { Labels := d.Labels, Replicas := n }
      else a.rcs k := rfl

@[simp] theorem scaleA_services (p : PipelineInfo) (n : Int) (a : AState) (k : String) :
    (scaleA p n a).services k = a.services k := rfl

@[simp] theorem scaleA_monitors (p : PipelineInfo) (n : Int) (a : AState) (k : String) :
    (scaleA p n a).monitors k = a.monitors k := rfl

@[simp] theorem scaleA_foreignGithook (p : PipelineInfo) (n : Int) (a : AState) :
    (scaleA p n a).foreignGithook = a.foreignGithook := rfl

@[simp] theorem scaleA_nodes (p : PipelineInfo) (n : Int) (a : AState) :
    (scaleA p n a).nodes = a.nodes := rfl

@[simp] theorem scaleA_specs (p : PipelineInfo) (n : Int) (a : AState) :
    (scaleA p n a).specs = a.specs := rfl

/-- The githook check commutes with deleting workers. -/
theorem githookA_deleteA (p : PipelineInfo) (a : AState) :
    githookA (deleteA p a) = deleteA p (githookA a) := by
  apply AState.ext_fields <;> intros <;>
    simp only [deleteA_rcs, deleteA_services, deleteA_monitors, deleteA_foreignGithook,
      deleteA_nodes, deleteA_specs, githookA_rcs, githookA_monitors,
      githookA_foreignGithook, githookA_nodes, githookA_specs, githookA_services,
      githook_eq_rcNameOf, githook_eq_rcNameOf_user, and_false, if_false] <;>
    split_ifs <;> simp_all

/-- The githook check commutes with upserting workers. -/
theorem githookA_upsertA (v : String) (p : PipelineInfo) (a : AState) :
    githookA (upsertA v p a) = upsertA v p (githookA a) := by
  apply AState.ext_fields <;> intros <;>
    simp only [upsertA_rcs, upsertA_services, upsertA_monitors, upsertA_foreignGithook,
      upsertA_nodes, upsertA_specs, githookA_rcs, githookA_monitors,
      githookA_foreignGithook, githookA_nodes, githookA_specs, githookA_services,
      githook_eq_rcNameOf, githook_eq_rcNameOf_user, and_false, if_false] <;>
    split_ifs <;> simp_all

/-- The githook check commutes with scaling. -/
theorem githookA_scaleA (p : PipelineInfo) (n : Int) (a : AState) :
    githookA (scaleA p n a) = scaleA p n (githookA a) := by
  apply AState.ext_fields <;> intros <;>
    simp only [scaleA_rcs, scaleA_services, scaleA_monitors, scaleA_foreignGithook,
      scaleA_nodes, scaleA_specs, githookA_rcs, githookA_monitors,
      githookA_foreignGithook, githookA_nodes, githookA_specs, githookA_services]

/-- An idempotence law of the abstract driver operations. -/
theorem scale_idem (c : PipelineInfo) (n : Int) (a : AState) :
    scaleA c n (scaleA c n a) = scaleA c n a := by
  apply AState.ext_fields <;> intros <;>
    simp only [deleteA_rcs, deleteA_services, deleteA_monitors, deleteA_foreignGithook,
      deleteA_nodes, deleteA_specs, upsertA_rcs, upsertA_services, upsertA_monitors,
      upsertA_foreignGithook, upsertA_nodes, upsertA_specs,
      scaleA_rcs, scaleA_services, scaleA_monitors, scaleA_foreignGithook, scaleA_nodes,
      scaleA_specs] <;>
    split_ifs <;> simp_all

/-- An idempotence law of the abstract driver operations. -/
theorem deleteA_idem (c : PipelineInfo) (a : AState) :
    deleteA c (deleteA c a) = deleteA c a := by
  apply AState.ext_fields <;> intros <;>
    simp only [deleteA_rcs, deleteA_services, deleteA_monitors, deleteA_foreignGithook,
      deleteA_nodes, deleteA_specs, upsertA_rcs, upsertA_services, upsertA_monitors,
      upsertA_foreignGithook, upsertA_nodes, upsertA_specs,
      scaleA_rcs, scaleA_services, scaleA_monitors, scaleA_foreignGithook, scaleA_nodes,
      scaleA_specs] <;>
    split_ifs <;> simp_all

/-- An idempotence law of the abstract driver operations. -/
theorem scale_delete_idem (c : PipelineInfo) (n : Int) (a : AState) :
    scaleA c n (deleteA c (scaleA c n (deleteA c a))) = scaleA c n (deleteA c a) := by
  apply AState.ext_fields <;> intros <;>
    simp only [deleteA_rcs, deleteA_services, deleteA_monitors, deleteA_foreignGithook,
      deleteA_nodes, deleteA_specs, upsertA_rcs, upsertA_services, upsertA_monitors,
      upsertA_foreignGithook, upsertA_nodes, upsertA_specs,
      scaleA_rcs, scaleA_services, scaleA_monitors, scaleA_foreignGithook, scaleA_nodes,
      scaleA_specs] <;>
    split_ifs <;> simp_all

/-- An idempotence law of the abstract driver operations. -/
theorem scale_upsert_idem (v : String) (c : PipelineInfo) (n : Int) (a : AState) :
    scaleA c n (upsertA v c (scaleA c n (upsertA v c a))) = scaleA c n (upsertA v c a) := by
  apply AState.ext_fields <;> intros <;>
    simp only [deleteA_rcs, deleteA_services, deleteA_monitors, deleteA_foreignGithook,
      deleteA_nodes, deleteA_specs, upsertA_rcs, upsertA_services, upsertA_monitors,
      upsertA_foreignGithook, upsertA_nodes, upsertA_specs,
      scaleA_rcs, scaleA_services, scaleA_monitors, scaleA_foreignGithook, scaleA_nodes,
      scaleA_specs] <;>
    split_ifs <;> simp_all

/-- An idempotence law of the abstract driver operations. -/
theorem upsert_delete_idem (v : String) (c p : PipelineInfo) (a : AState) :
    upsertA v c (deleteA p (upsertA v c (deleteA p a))) = upsertA v c (deleteA p a) := by
  apply AState.ext_fields <;> intros <;>
    simp only [deleteA_rcs, deleteA_services, deleteA_monitors, deleteA_foreignGithook,
      deleteA_nodes, deleteA_specs, upsertA_rcs, upsertA_services, upsertA_monitors,
      upsertA_foreignGithook, upsertA_nodes, upsertA_specs,
      scaleA_rcs, scaleA_services, scaleA_monitors, scaleA_foreignGithook, scaleA_nodes,
      scaleA_specs] <;>
    split_ifs <;> simp_all

/-- An idempotence law of the abstract driver operations. -/
theorem scale_upsert_delete_idem (v : String) (c p : PipelineInfo) (n : Int) (a : AState) :
    scaleA c n (upsertA v c (deleteA p (scaleA c n (upsertA v c (deleteA p a))))) = scaleA c n (upsertA v c (deleteA p a)) := by
  apply AState.ext_fields <;> intros <;>
    simp only [deleteA_rcs, deleteA_services, deleteA_monitors, deleteA_foreignGithook,
      deleteA_nodes, deleteA_specs, upsertA_rcs, upsertA_services, upsertA_monitors,
      upsertA_foreignGithook, upsertA_nodes, upsertA_specs,
      scaleA_rcs, scaleA_services, scaleA_monitors, scaleA_foreignGithook, scaleA_nodes,
      scaleA_specs] <;>
    split_ifs <;> simp_all

/-- An idempotence law of the abstract driver operations. -/
theorem upsert_delete_upsert_idem (v : String) (c p : PipelineInfo) (a : AState) :
    upsertA v c (deleteA p (upsertA v c (upsertA v c (deleteA p (upsertA v c a))))) = upsertA v c (deleteA p (upsertA v c a)) := by
  apply AState.ext_fields <;> intros <;>
    simp only [deleteA_rcs, deleteA_services, deleteA_monitors, deleteA_foreignGithook,
      deleteA_nodes, deleteA_specs, upsertA_rcs, upsertA_services, upsertA_monitors,
      upsertA_foreignGithook, upsertA_nodes, upsertA_specs,
      scaleA_rcs, scaleA_services, scaleA_monitors, scaleA_foreignGithook, scaleA_nodes,
      scaleA_specs] <;>
    split_ifs <;> simp_all

/-- An idempotence law of the abstract driver operations. -/
theorem scale_upsert_delete_upsert_idem (v : String) (c p : PipelineInfo) (n : Int) (a : AState) :
    scaleA c n (upsertA v c (deleteA p (upsertA v c (scaleA c n (upsertA v c (deleteA p (upsertA v c a))))))) = scaleA c n (upsertA v c (deleteA p (upsertA v c a))) := by
  apply AState.ext_fields <;> intros <;>
    simp only [deleteA_rcs, deleteA_services, deleteA_monitors, deleteA_foreignGithook,
      deleteA_nodes, deleteA_specs, upsertA_rcs, upsertA_services, upsertA_monitors,
      upsertA_foreignGithook, upsertA_nodes, upsertA_specs,
      scaleA_rcs, scaleA_services, scaleA_monitors, scaleA_foreignGithook, scaleA_nodes,
      scaleA_specs] <;>
    split_ifs <;> simp_all

/-- An idempotence law of the abstract driver operations. -/
theorem upsertA_idem (v : String) (c : PipelineInfo) (a : AState) :
    upsertA v c (upsertA v c a) = upsertA v c a := by
  apply AState.ext_fields <;> intros <;>
    simp only [upsertA_rcs, upsertA_services, upsertA_monitors,
      upsertA_foreignGithook, upsertA_nodes, upsertA_specs] <;>
    split_ifs <;> simp_all

/-- An idempotence law of the abstract driver operations. -/
theorem upsert_upsert_idem (v : String) (c : PipelineInfo) (a : AState) :
    upsertA v c (upsertA v c (upsertA v c (upsertA v c a))) = upsertA v c (upsertA v c a) := by
  apply AState.ext_fields <;> intros <;>
    simp only [deleteA_rcs, deleteA_services, deleteA_monitors, deleteA_foreignGithook,
      deleteA_nodes, deleteA_specs, upsertA_rcs, upsertA_services, upsertA_monitors,
      upsertA_foreignGithook, upsertA_nodes, upsertA_specs,
      scaleA_rcs, scaleA_services, scaleA_monitors, scaleA_foreignGithook, scaleA_nodes,
      scaleA_specs] <;>
    split_ifs <;> simp_all

/-- An idempotence law of the abstract driver operations. -/
theorem scale_upsert_upsert_idem (v : String) (c : PipelineInfo) (n : Int) (a : AState) :
    scaleA c n (upsertA v c (upsertA v c (scaleA c n (upsertA v c (upsertA v c a))))) = scaleA c n (upsertA v c (upsertA v c a)) := by
  apply AState.ext_fields <;> intros <;>
    simp only [deleteA_rcs, deleteA_services, deleteA_monitors, deleteA_foreignGithook,
      deleteA_nodes, deleteA_specs, upsertA_rcs, upsertA_services, upsertA_monitors,
      upsertA_foreignGithook, upsertA_nodes, upsertA_specs,
      scaleA_rcs, scaleA_services, scaleA_monitors, scaleA_foreignGithook, scaleA_nodes,
      scaleA_specs] <;>
    split_ifs <;> simp_all

/-- The githook check is idempotent. -/
theorem githookA_idem (a : AState) : githookA (githookA a) = githookA a := by
  apply AState.ext_fields <;> intros <;>
    simp only [githookA_rcs, githookA_monitors,
      githookA_foreignGithook, githookA_nodes, githookA_specs, githookA_services] <;>
    split_ifs <;> simp_all

/-- The abstract reconciliation is idempotent. -/
theorem reconcileA_idem (v : String) (l : PutLocals) (a : AState) :
    reconcileA v l (reconcileA v l a) = reconcileA v l a := by
  unfold reconcileA scaleStageA upsertedA restartedA stoppedA gitA deletePrevA
  cases hs : pipelineStateToStopped l.pipelinePtr.State
  · simp only [Bool.not_false, Bool.true_and, Bool.and_true]
    cases hr : (l.prev.isSome && pipelineStateToStopped l.prevPipelinePtr.State) <;>
    cases hu : (pipelineUpserted l).getD false <;>
    cases hg : hasGitInput l.pipelineInfo <;>
    cases hp : l.prev <;>
    cases hst : l.pipelineInfo.State <;>
    simp only [reduceCtorEq, if_true, if_false, Bool.false_eq_true,
      deleteA_nodes, upsertA_nodes, githookA_nodes, scaleA_nodes,
      githookA_upsertA, githookA_deleteA, githookA_scaleA, githookA_idem,
      scale_idem, scale_upsert_idem, upsert_delete_idem, scale_upsert_delete_idem,
      upsert_delete_upsert_idem, scale_upsert_delete_upsert_idem, upsert_upsert_idem,
      scale_upsert_upsert_idem, upsertA_idem]
  · simp only [Bool.not_true, Bool.false_and, Bool.and_false, Bool.false_eq_true, if_false,
      if_true]
    cases hst : l.pipelineInfo.State <;>
    simp only [reduceCtorEq, if_true, if_false, deleteA_nodes, scaleA_nodes,
      deleteA_idem, scale_delete_idem]


end PPS

/-! ## Idempotence: deleteWorkers in the cluster model -/

namespace PPS
open PipelineState

section ClusterOps

variable (v : String)

@[simp] theorem cluster_isNotFoundErr :
    (clusterEnv v).isNotFoundErr errNotFound = true := by
  simp [clusterEnv]

@[simp] theorem cluster_PipelineRcName (name : String) (version : Nat) :
    (clusterEnv v).PipelineRcName name version = rcNameOf name version := rfl

@[simp] theorem cluster_PrettyVersion : (clusterEnv v).PrettyVersion = v := rfl

/-- Deleting a service in the cluster model: the result passes the not-found
guard, and the service is gone. -/
theorem cluster_svcDelete (name : String) (c : Cluster) :
    notFoundGuard (clusterEnv v) ((clusterEnv v).svcDelete name c).1 = none ∧
    ((clusterEnv v).svcDelete name c).2.rcs = c.rcs ∧
    (∀ k, ((clusterEnv v).svcDelete name c).2.services k =
      if k = name then false else c.services k) ∧
    ((clusterEnv v).svcDelete name c).2.foreignGithook = c.foreignGithook ∧
    ((clusterEnv v).svcDelete name c).2.nodes = c.nodes ∧
    ((clusterEnv v).svcDelete name c).2.specs = c.specs := by
  cases h : c.services name with
  | true => simp [clusterEnv, h, notFoundGuard]
  | false =>
    simp only [clusterEnv, h, notFoundGuard, errNotFound, Bool.false_eq_true, if_false,
      beq_self_eq_true, Bool.not_true, true_and, and_true]
    intro k
    split_ifs with hk
    · subst hk; exact h
    · rfl

/-- Deleting a replica group in the cluster model: the result passes the
not-found guard, and the replica group is gone. -/
theorem cluster_rcDelete (name : String) (c : Cluster) :
    notFoundGuard (clusterEnv v) ((clusterEnv v).rcDelete name c).1 = none ∧
    (∀ k, ((clusterEnv v).rcDelete name c).2.rcs k = if k = name then none else c.rcs k) ∧
    ((clusterEnv v).rcDelete name c).2.services = c.services ∧
    ((clusterEnv v).rcDelete name c).2.foreignGithook = c.foreignGithook ∧
    ((clusterEnv v).rcDelete name c).2.nodes = c.nodes ∧
    ((clusterEnv v).rcDelete name c).2.specs = c.specs := by
  cases h : c.rcs name with
  | some d => simp [clusterEnv, h, notFoundGuard]
  | none =>
    simp only [clusterEnv, h, notFoundGuard, errNotFound, Bool.false_eq_true, if_false,
      beq_self_eq_true, Bool.not_true, true_and, and_true]
    intro k
    split_ifs with hk
    · subst hk; exact h
    · rfl

@[simp] theorem svcDelete_guard (name : String) (c : Cluster) :
    notFoundGuard (clusterEnv v) ((clusterEnv v).svcDelete name c).1 = none :=
  (cluster_svcDelete v name c).1

@[simp] theorem svcDelete_rcs (name : String) (c : Cluster) :
    ((clusterEnv v).svcDelete name c).2.rcs = c.rcs := (cluster_svcDelete v name c).2.1

@[simp] theorem svcDelete_services (name : String) (c : Cluster) (k : String) :
    ((clusterEnv v).svcDelete name c).2.services k =
      if k = name then false else c.services k := (cluster_svcDelete v name c).2.2.1 k

@[simp] theorem svcDelete_foreignGithook (name : String) (c : Cluster) :
    ((clusterEnv v).svcDelete name c).2.foreignGithook = c.foreignGithook :=
  (cluster_svcDelete v name c).2.2.2.1

@[simp] theorem svcDelete_nodes (name : String) (c : Cluster) :
    ((clusterEnv v).svcDelete name c).2.nodes = c.nodes := (cluster_svcDelete v name c).2.2.2.2.1

@[simp] theorem svcDelete_specs (name : String) (c : Cluster) :
    ((clusterEnv v).svcDelete name c).2.specs = c.specs := (cluster_svcDelete v name c).2.2.2.2.2

@[simp] theorem rcDelete_guard (name : String) (c : Cluster) :
    notFoundGuard (clusterEnv v) ((clusterEnv v).rcDelete name c).1 = none :=
  (cluster_rcDelete v name c).1

@[simp] theorem rcDelete_rcs (name : String) (c : Cluster) (k : String) :
    ((clusterEnv v).rcDelete name c).2.rcs k = if k = name then none else c.rcs k :=
  (cluster_rcDelete v name c).2.1 k

@[simp] theorem rcDelete_services (name : String) (c : Cluster) :
    ((clusterEnv v).rcDelete name c).2.services = c.services := (cluster_rcDelete v name c).2.2.1

@[simp] theorem rcDelete_foreignGithook (name : String) (c : Cluster) :
    ((clusterEnv v).rcDelete name c).2.foreignGithook = c.foreignGithook :=
  (cluster_rcDelete v name c).2.2.2.1

@[simp] theorem rcDelete_nodes (name : String) (c : Cluster) :
    ((clusterEnv v).rcDelete name c).2.nodes = c.nodes := (cluster_rcDelete v name c).2.2.2.2.1

@[simp] theorem rcDelete_specs (name : String) (c : Cluster) :
    ((clusterEnv v).rcDelete name c).2.specs = c.specs := (cluster_rcDelete v name c).2.2.2.2.2

end ClusterOps

/-- Cancelling a monitor does not touch the cluster. -/
@[simp] theorem cancelMonitor_kube {σ : Type} (name : String) (w : World σ) :
    (cancelMonitor name w).kube = w.kube := by
  unfold cancelMonitor
  split <;> rfl

/-- After cancelling the monitor of a name, no monitor is registered for it;
the other entries are unchanged. -/
theorem cancelMonitor_isSome {σ : Type} (name : String) (w : World σ) (k : String) :
    ((cancelMonitor name w).monitorCancels k).isSome =
      if k = name then false else (w.monitorCancels k).isSome := by
  unfold cancelMonitor
  split
  · simp only []; split_ifs <;> simp
  · next h =>
    split_ifs with hk
    · subst hk; simp [h]
    · rfl

/-- In the cluster model, deleting workers succeeds and acts on the abstract
state as `deleteA`. -/
theorem deleteWorkers_cluster (v : String) (p : PipelineInfo) (w : World Cluster) :
    (deleteWorkersForPipeline (clusterEnv v) p w).1 = none ∧
    absWorld (deleteWorkersForPipeline (clusterEnv v) p w).2 = deleteA p (absWorld w) := by
  unfold deleteWorkersForPipeline
  cases hS : p.Service with
  | none =>
    simp only [run_fst, run_kube, cluster_PipelineRcName, cancelMonitor_kube, svcDelete_guard,
      rcDelete_guard, notFoundGuard_none, true_and]
    apply AState.ext_fields <;> intros <;>
      simp only [absWorld, run_kube, run_monitorCancels, deleteA, cancelMonitor_kube,
        cancelMonitor_isSome, hS, Option.isSome_none, Bool.false_eq_true, false_and, if_false,
        svcDelete_rcs, svcDelete_services, svcDelete_foreignGithook, svcDelete_nodes,
        svcDelete_specs, rcDelete_rcs, rcDelete_services, rcDelete_foreignGithook,
        rcDelete_nodes, rcDelete_specs]
  | some svc =>
    simp only [run_fst, run_kube, cluster_PipelineRcName, cancelMonitor_kube, svcDelete_guard,
      rcDelete_guard, notFoundGuard_none, true_and]
    apply AState.ext_fields <;> intros <;>
      simp only [absWorld, run_kube, run_monitorCancels, deleteA, cancelMonitor_kube,
        cancelMonitor_isSome, hS, Option.isSome_some, true_and,
        svcDelete_rcs, svcDelete_services, svcDelete_foreignGithook, svcDelete_nodes,
        svcDelete_specs, rcDelete_rcs, rcDelete_services, rcDelete_foreignGithook,
        rcDelete_nodes, rcDelete_specs]
    split_ifs <;> rfl

end PPS

/-! ## Idempotence: upsertWorkers in the cluster model -/

namespace PPS
open PipelineState

section ClusterOps2

variable (v : String)

@[simp] theorem rcGet_kube (name : String) (c : Cluster) :
    ((clusterEnv v).rcGet name c).2 = c := by
  simp only [clusterEnv]
  split <;> rfl

@[simp] theorem rcGet_label (name : String) (c : Cluster) :
    mapGet ((clusterEnv v).rcGet name c).1.1.Labels "version" = versionLabel (c.rcs name) := by
  simp only [clusterEnv, versionLabel]
  split
  · next d h => simp [h]
  · next h => simp [h, mapGet]

@[simp] theorem createWorkerRc_fst (options : workerOptions) (c : Cluster) :
    ((clusterEnv v).createWorkerRc options c).1 = none := rfl

@[simp] theorem createWorkerRc_rcs (options : workerOptions) (c : Cluster) (k : String) :
    ((clusterEnv v).createWorkerRc options c).2.rcs k =
      if k = options.rcName then
        some ((c.rcs k).getD { Labels := [("version", v)], Replicas := options.parallelism })
      else c.rcs k := rfl

@[simp] theorem createWorkerRc_services (options : workerOptions) (c : Cluster) (k : String) :
    ((clusterEnv v).createWorkerRc options c).2.services k =
      if k = options.rcName then true
      else if options.service.isSome && k = options.rcName ++ "-user" then true
      else c.services k := rfl

@[simp] theorem createWorkerRc_foreignGithook (options : workerOptions) (c : Cluster) :
    ((clusterEnv v).createWorkerRc options c).2.foreignGithook = c.foreignGithook := rfl

@[simp] theorem createWorkerRc_nodes (options : workerOptions) (c : Cluster) :
    ((clusterEnv v).createWorkerRc options c).2.nodes = c.nodes := rfl

@[simp] theorem createWorkerRc_specs (options : workerOptions) (c : Cluster) :
    ((clusterEnv v).createWorkerRc options c).2.specs = c.specs := rfl

end ClusterOps2

@[simp] theorem cluster_requests (v : String) (p : PipelineInfo) :
    (clusterEnv v).GetRequestsResourceListFromPipeline p = .ok (p.ResourceRequests.getD []) := rfl

@[simp] theorem cluster_limits (v : String) (p : PipelineInfo) :
    (clusterEnv v).GetLimitsResourceListFromPipeline p = .ok (p.ResourceLimits.getD []) := rfl

@[simp] theorem cluster_getWorkerOptions_rcName (v : String) (name : String) (version : Nat)
    (n : Int) (rq rl : Option ResourceList) (t : Transform) (cs : String) (svc : Option String)
    (sc : String) :
    ((clusterEnv v).getWorkerOptions name version n rq rl t cs svc sc).rcName
      = rcNameOf name version := rfl

@[simp] theorem cluster_getWorkerOptions_parallelism (v : String) (name : String)
    (version : Nat) (n : Int) (rq rl : Option ResourceList) (t : Transform) (cs : String)
    (svc : Option String) (sc : String) :
    ((clusterEnv v).getWorkerOptions name version n rq rl t cs svc sc).parallelism = n := rfl

@[simp] theorem cluster_getWorkerOptions_service (v : String) (name : String) (version : Nat)
    (n : Int) (rq rl : Option ResourceList) (t : Transform) (cs : String) (svc : Option String)
    (sc : String) :
    ((clusterEnv v).getWorkerOptions name version n rq rl t cs svc sc).service = svc := rfl

/-- The fields of the world after deleting workers in the cluster model. -/
theorem deleteWorkers_cluster_fields (v : String) (p : PipelineInfo) (w : World Cluster) :
    (∀ k, (deleteWorkersForPipeline (clusterEnv v) p w).2.kube.rcs k =
      (deleteA p (absWorld w)).rcs k) ∧
    (∀ k, (deleteWorkersForPipeline (clusterEnv v) p w).2.kube.services k =
      (deleteA p (absWorld w)).services k) ∧
    (∀ k, ((deleteWorkersForPipeline (clusterEnv v) p w).2.monitorCancels k).isSome =
      (deleteA p (absWorld w)).monitors k) ∧
    (deleteWorkersForPipeline (clusterEnv v) p w).2.kube.foreignGithook = w.kube.foreignGithook ∧
    (deleteWorkersForPipeline (clusterEnv v) p w).2.kube.nodes = w.kube.nodes ∧
    (deleteWorkersForPipeline (clusterEnv v) p w).2.kube.specs = w.kube.specs := by
  have h := (deleteWorkers_cluster v p w).2
  refine ⟨fun k => congrFun (congrArg AState.rcs h) k,
    fun k => congrFun (congrArg AState.services h) k,
    fun k => congrFun (congrArg AState.monitors h) k,
    congrArg AState.foreignGithook h, congrArg AState.nodes h, congrArg AState.specs h⟩

/-- In the cluster model, one run of the create body succeeds, and it leaves
the replica groups and services of a successful upsert; the monitor of the
pipeline is cancelled when the `version` label is not that of the control
plane. -/
theorem upsertBody_cluster (v : String) (p : PipelineInfo) (w : World Cluster) :
    ∃ W, upsertBody (clusterEnv v) p w = (none, W) ∧
      (∀ k, W.kube.rcs k = (upsertA v p (absWorld w)).rcs k) ∧
      (∀ k, W.kube.services k = (upsertA v p (absWorld w)).services k) ∧
      (∀ k, (W.monitorCancels k).isSome =
        if versionLabel (w.kube.rcs (rcNameOf p.Name p.Version)) = v then
          (w.monitorCancels k).isSome
        else if k = p.Name then false else (w.monitorCancels k).isSome) ∧
      W.kube.foreignGithook = w.kube.foreignGithook ∧
      W.kube.nodes = w.kube.nodes ∧ W.kube.specs = w.kube.specs := by
  unfold upsertBody
  by_cases hlab : versionLabel (w.kube.rcs (rcNameOf p.Name p.Version)) = v
  · cases hrq : p.ResourceRequests <;> cases hrl : p.ResourceLimits <;>
      simp only [cluster_requests, cluster_limits, Except.map, cluster_PipelineRcName,
        cluster_PrettyVersion, rcGet_kube, rcGet_label, log_calls, bne_iff_ne, ne_eq, ite_not,
        hlab, if_true, World.log] <;>
      refine ⟨_, rfl, ?_, ?_, ?_, ?_, ?_, ?_⟩ <;> intros <;>
      simp only [run_kube, run_monitorCancels, createWorkerRc_rcs, createWorkerRc_services,
        createWorkerRc_foreignGithook, createWorkerRc_nodes, createWorkerRc_specs,
        cluster_getWorkerOptions_rcName, cluster_getWorkerOptions_parallelism,
        cluster_getWorkerOptions_service, upsertA_rcs, upsertA_services, absWorld,
        upsertedRc, hlab, if_true] <;>
      split_ifs <;> simp_all
  · have hd := deleteWorkers_cluster v p
    have hf := deleteWorkers_cluster_fields v p
    cases hrq : p.ResourceRequests <;> cases hrl : p.ResourceLimits <;>
      simp only [cluster_requests, cluster_limits, Except.map, cluster_PipelineRcName,
        cluster_PrettyVersion, rcGet_kube, rcGet_label, log_calls, bne_iff_ne, ne_eq, ite_not,
        hlab, if_false, World.log, (hd _).1] <;>
      refine ⟨_, rfl, ?_, ?_, ?_, ?_, ?_, ?_⟩ <;> intros <;>
      simp only [run_kube, run_monitorCancels, createWorkerRc_rcs, createWorkerRc_services,
        createWorkerRc_foreignGithook, createWorkerRc_nodes, createWorkerRc_specs,
        cluster_getWorkerOptions_rcName, cluster_getWorkerOptions_parallelism,
        cluster_getWorkerOptions_service, upsertA_rcs, upsertA_services, absWorld,
        upsertedRc, hlab, if_false, (hf _).1, (hf _).2.1, (hf _).2.2.1, (hf _).2.2.2.1,
        (hf _).2.2.2.2.1, (hf _).2.2.2.2.2, deleteA_rcs, deleteA_services, deleteA_monitors] <;>
      split_ifs <;> simp_all

/-- In the cluster model, upserting workers succeeds at the first attempt and
acts on the abstract state as `upsertA`. -/
theorem upsertWorkers_cluster (v : String) (p : PipelineInfo) (w : World Cluster) :
    (upsertWorkersForPipeline (clusterEnv v) p w).1 = none ∧
    absWorld (upsertWorkersForPipeline (clusterEnv v) p w).2 = upsertA v p (absWorld w) := by
  obtain ⟨W, hW, hr, hs, hm, hf, hn, hp⟩ := upsertBody_cluster v p w
  unfold upsertWorkersForPipeline
  rw [upsertRetry, hW]
  simp only []
  cases hmc : W.monitorCancels p.Name with
  | some h =>
    refine ⟨rfl, ?_⟩
    apply AState.ext_fields <;> intros <;>
      simp only [absWorld, hr, hs, hf, hn, hp, upsertA_foreignGithook, upsertA_nodes,
        upsertA_specs, upsertA_monitors, hm]
    have := hm p.Name
    rw [hmc] at this
    split_ifs at this ⊢ <;> simp_all
  | none =>
    refine ⟨rfl, ?_⟩
    apply AState.ext_fields <;> intros <;>
      simp only [absWorld, hr, hs, hf, hn, hp, upsertA_foreignGithook, upsertA_nodes,
        upsertA_specs, upsertA_monitors, hm]
    have := hm p.Name
    rw [hmc] at this
    split_ifs at this ⊢ <;> simp_all

end PPS

/-! ## Idempotence: the githook service and scaling in the cluster model -/

namespace PPS
open PipelineState

/-- In the cluster model, a successful githook check acts on the abstract state
as `githookA`. -/
theorem checkOrDeploy_cluster (v : String) (w : World Cluster)
    (h : (checkOrDeployGithookService (clusterEnv v) w).1 = none) :
    absWorld (checkOrDeployGithookService (clusterEnv v) w).2 = githookA (absWorld w) := by
  unfold checkOrDeployGithookService getGithookService at h ⊢
  simp only [clusterEnv] at h ⊢
  by_cases hc : (if w.kube.services "githook" = true then 1 else 0) + w.kube.foreignGithook = 1
  · simp only [hc, bne_self_eq_false, Bool.false_eq_true, if_false, githookA, absWorld, if_true]
  · have hne : ((if w.kube.services "githook" = true then 1 else 0) + w.kube.foreignGithook != 1)
        = true := by simpa using hc
    simp only [hne, if_true, World.run] at h ⊢
    cases hg : w.kube.services "githook" with
    | true => simp [hg] at h
    | false =>
      simp only [hg, Bool.false_eq_true, if_false] at hc ⊢
      simp only [githookA, absWorld, hg, Bool.false_eq_true, if_false, hc]

/-- In the cluster model, a successful scale-down acts on the abstract state as
`scaleA` with 0 replicas. -/
theorem scaleDown_cluster (v : String) (p : PipelineInfo) (w : World Cluster)
    (h : (scaleDownWorkersForPipeline (clusterEnv v) p w).1 = none) :
    absWorld (scaleDownWorkersForPipeline (clusterEnv v) p w).2 = scaleA p 0 (absWorld w) := by
  unfold scaleDownWorkersForPipeline at h ⊢
  simp only [cluster_PipelineRcName, rcGet_kube] at h ⊢
  cases hr : w.kube.rcs (rcNameOf p.Name p.Version) with
  | none => simp [clusterEnv, hr] at h
  | some d =>
    simp only [clusterEnv, hr, World.run]
    apply AState.ext_fields <;> intros <;> simp only [absWorld, scaleA] <;>
      split_ifs <;> simp_all

/-- In the cluster model, a successful scale-up acts on the abstract state as
`scaleA` with the expected number of workers. -/
theorem scaleUp_cluster (v : String) (p : PipelineInfo) (w : World Cluster)
    (h : (scaleUpWorkersForPipeline (clusterEnv v) p w).1 = none) :
    absWorld (scaleUpWorkersForPipeline (clusterEnv v) p w).2 =
      scaleA p (int32 (expectedWorkers p.ParallelismSpec w.kube.nodes)) (absWorld w) := by
  unfold scaleUpWorkersForPipeline at h ⊢
  simp only [cluster_PipelineRcName, rcGet_kube] at h ⊢
  cases hr : w.kube.rcs (rcNameOf p.Name p.Version) with
  | none => simp [clusterEnv, hr] at h
  | some d =>
    simp only [clusterEnv, hr, World.run, World.runE, expectedWorkers]
    apply AState.ext_fields <;> intros <;> simp only [absWorld, scaleA] <;>
      split_ifs <;> simp_all

end PPS

/-! ## Idempotence: the loop body refines the abstract reconciliation -/

namespace PPS
open PipelineState

@[simp] theorem absWorld_act (w : World Cluster) (a : Action) : absWorld (w.act a) = absWorld w :=
  rfl

/-- Sequencing refines the composition. -/
theorem refines_andThen {a b : Stage Cluster} {aA bA : AState → AState}
    (ha : Refines a aA) (hb : Refines b bA) : Refines (a.andThen b) (fun s => bA (aA s)) := by
  intro w
  obtain ⟨ha1, ha2⟩ := ha w
  unfold Stage.andThen
  rcases h : a w with ⟨o, w1⟩
  rw [h] at ha1 ha2
  cases o with
  | some o => exact ⟨ha1, fun hn => by simp at hn⟩
  | none =>
    obtain ⟨hb1, hb2⟩ := hb w1
    have := ha2 rfl
    simp only [] at this ⊢
    exact ⟨hb1, fun hn => by rw [hb2 hn, this]⟩

/-- An `if` statement refines the conditional. -/
theorem refines_whenStage {body : Stage Cluster} {bA : AState → AState} (c : Bool)
    (hb : Refines body bA) : Refines (whenStage c body) (fun s => if c then bA s else s) := by
  intro w
  cases c with
  | true => simpa using hb w
  | false => simp

/-- A statement `if err := f(); err != nil { return err }` refines what `f`
does when it succeeds. -/
theorem refines_orReturn (f : World Cluster → Option Error × World Cluster)
    (fA : AState → AState)
    (hf : ∀ w, (f w).1 = none → absWorld (f w).2 = fA (absWorld w)) :
    Refines (orReturn f) fA := by
  intro w
  refine ⟨?_, ?_⟩
  · rw [orReturn_fst]
    cases (f w).1 <;> simp
  · intro hn
    rw [orReturn_fst] at hn
    rw [orReturn_snd]
    apply hf
    cases h : (f w).1 with
    | none => rfl
    | some e => simp [h] at hn

/-- Deleting workers refines `deleteA`. -/
theorem refines_delete (v : String) (p : PipelineInfo) :
    Refines (orReturn (mDeleteWorkers (clusterEnv v) p)) (deleteA p) :=
  refines_orReturn _ _ fun w _ => by
    simp only [mDeleteWorkers, absWorld_act]
    exact (deleteWorkers_cluster v p w).2

/-- The githook statement refines `gitA`. -/
theorem refines_git (v : String) (l : PutLocals) :
    Refines (whenStage (hasGitInput l.pipelineInfo)
      (orReturn (mCheckOrDeployGithookService (clusterEnv v)))) (gitA l) := by
  have := refines_whenStage (hasGitInput l.pipelineInfo)
    (refines_orReturn (mCheckOrDeployGithookService (clusterEnv v)) githookA fun w h => by
      simp only [mCheckOrDeployGithookService, absWorld_act] at h ⊢
      exact checkOrDeploy_cluster v w h)
  exact this

/-- The statement `upsertWorkers, or set FAILURE` refines `upsertA`. -/
theorem refines_upsertOrFail (v : String) (l : PutLocals) :
    Refines (upsertOrFail (clusterEnv v) l) (upsertA v l.pipelineInfo) := by
  intro w
  obtain ⟨h1, h2⟩ := upsertWorkers_cluster v l.pipelineInfo w
  unfold upsertOrFail mUpsertWorkers
  simp only [h1]
  exact ⟨by simp, fun _ => by simpa using h2⟩

/-- The statement of master.go 122-128 refines `stoppedA`. -/
theorem refines_stopped (v : String) (l : PutLocals) :
    Refines (stageStopped (clusterEnv v) l) (stoppedA l) :=
  refines_whenStage _ (refines_delete v l.pipelineInfo)

/-- The statement of master.go 137-151 refines `restartedA`. -/
theorem refines_restarted (v : String) (l : PutLocals) :
    Refines (stageRestarted (clusterEnv v) l) (restartedA v l) :=
  refines_whenStage _ (refines_andThen (refines_git v l) (refines_upsertOrFail v l))

/-- A statement that does nothing refines the identity. -/
theorem refines_skip : Refines (fun w => ((none : Option Outcome), w)) (fun s => s) := by
  intro w
  simp

/-- The statement of master.go 153-174 refines `upsertedA`. -/
theorem refines_upserted (v : String) (l : PutLocals) :
    Refines (stageUpserted (clusterEnv v) l) (upsertedA v l) := by
  intro w
  unfold stageUpserted upsertedA
  cases hu : pipelineUpserted l with
  | none => simp
  | some upserted =>
    have hdel : Refines (match l.prev with
        | some p => orReturn (mDeleteWorkers (clusterEnv v) p.2)
        | none => fun w1 => (none, w1)) (deletePrevA l) := by
      unfold deletePrevA
      cases l.prev with
      | none => exact refines_skip
      | some p => exact refines_delete v p.2
    have := refines_whenStage (upserted && !pipelineStateToStopped l.pipelinePtr.State)
      (refines_andThen (refines_andThen hdel (refines_git v l)) (refines_upsertOrFail v l)) w
    simpa using this

/-- The statements of master.go 175-184 refine `scaleStageA`. -/
theorem refines_scale (v : String) (l : PutLocals) :
    Refines (stageScale (clusterEnv v) l) (scaleStageA l) := by
  have hup : Refines (orReturn (mScaleUp (clusterEnv v) l.pipelineInfo))
      (fun a => scaleA l.pipelineInfo
        (int32 (expectedWorkers l.pipelineInfo.ParallelismSpec a.nodes)) a) :=
    refines_orReturn _ _ fun w h => by
      simp only [mScaleUp, absWorld_act] at h ⊢
      exact scaleUp_cluster v l.pipelineInfo w h
  have hdown : Refines (orReturn (mScaleDown (clusterEnv v) l.pipelineInfo))
      (scaleA l.pipelineInfo 0) :=
    refines_orReturn _ _ fun w h => by
      simp only [mScaleDown, absWorld_act] at h ⊢
      exact scaleDown_cluster v l.pipelineInfo w h
  have := refines_andThen (refines_whenStage (l.pipelineInfo.State == PIPELINE_RUNNING) hup)
    (refines_whenStage (l.pipelineInfo.State == PIPELINE_STANDBY) hdown)
  intro w
  have hw := this w
  unfold stageScale scaleStageA
  simpa using hw

/-- The reconciliation of a decoded PUT event refines `reconcileA`. -/
theorem refines_reconcile (v : String) (l : PutLocals) :
    Refines (reconcile (clusterEnv v) l) (reconcileA v l) := by
  have h := refines_andThen (refines_andThen (refines_andThen (refines_stopped v l)
    (refines_restarted v l)) (refines_upserted v l)) (refines_scale v l)
  exact h

/-- In the cluster model, retrieving a PipelineInfo changes nothing of the
abstract state, and its result depends on the spec repo only. -/
theorem GetPipelineInfo_cluster (v : String) (ptr : EtcdPipelineInfo) (w : World Cluster) :
    absWorld (GetPipelineInfo (clusterEnv v) ptr w).2 = absWorld w ∧
    ∀ w2 : World Cluster, w2.kube.specs = w.kube.specs →
      (GetPipelineInfo (clusterEnv v) ptr w2).1 = (GetPipelineInfo (clusterEnv v) ptr w).1 := by
  unfold GetPipelineInfo
  cases ptr.SpecCommit with
  | none => simp
  | some c =>
    simp only [runE_fst]
    constructor
    · have hk : ∀ w : World Cluster, ((clusterEnv v).readSpec c.ID w.kube).2 = w.kube := by
        intro w
        simp only [clusterEnv]
        split <;> rfl
      split <;> simp [absWorld, World.runE, hk]
    · intro w2 h2
      have hr : ∀ w : World Cluster, ((clusterEnv v).readSpec c.ID w.kube).1 =
          match w.kube.specs c.ID with
          | some info => .ok info
          | none => .error errNotFound := by
        intro w
        simp only [clusterEnv]
        cases w.kube.specs c.ID <;> rfl
      rw [hr w2, hr w, h2]
      cases w.kube.specs c.ID <;> rfl

/-- In the cluster model, decoding a PUT event changes nothing of the abstract
state, and its result depends on the spec repo only. -/
theorem putLocals_cluster (v : String) (event : PipelineEvent) (w : World Cluster) :
    absWorld (putLocals (clusterEnv v) event w).2 = absWorld w ∧
    ∀ w2 : World Cluster, w2.kube.specs = w.kube.specs →
      (putLocals (clusterEnv v) event w2).1 = (putLocals (clusterEnv v) event w).1 := by
  have hs : ∀ w : World Cluster, (w.run (clusterEnv v).sudoToken Call.sudoToken).1 = none ∧
      absWorld (w.run (clusterEnv v).sudoToken Call.sudoToken).2 = absWorld w := by
    intro w; exact ⟨rfl, rfl⟩
  have hspecs : ∀ a b : World Cluster, absWorld a = absWorld b → a.kube.specs = b.kube.specs :=
    fun a b h => congrArg AState.specs h
  unfold putLocals
  cases event.Unmarshal with
  | error err => simp
  | ok x =>
    obtain ⟨pipelineName, pipelinePtr⟩ := x
    simp only [(hs _).1]
    have g1 := GetPipelineInfo_cluster v pipelinePtr
      (w.run (clusterEnv v).sudoToken Call.sudoToken).2
    constructor
    · cases h1 : (GetPipelineInfo (clusterEnv v) pipelinePtr
          (w.run (clusterEnv v).sudoToken Call.sudoToken).2).1 with
      | error o => simp only []; rw [g1.1]; rfl
      | ok info =>
        simp only []
        cases event.Prev with
        | none => simp only []; rw [g1.1]; rfl
        | some pr =>
          cases pr with
          | error e => simp only []; rw [g1.1]; rfl
          | ok y =>
            obtain ⟨prevName, prevPtr⟩ := y
            simp only []
            have g2 := GetPipelineInfo_cluster v prevPtr
              (GetPipelineInfo (clusterEnv v) pipelinePtr
                (w.run (clusterEnv v).sudoToken Call.sudoToken).2).2
            split <;> simp only [] <;> rw [g2.1, g1.1] <;> rfl
    · intro w2 h2
      have e1 := g1.2 (w2.run (clusterEnv v).sudoToken Call.sudoToken).2 h2
      rw [e1]
      cases h1 : (GetPipelineInfo (clusterEnv v) pipelinePtr
          (w.run (clusterEnv v).sudoToken Call.sudoToken).2).1 with
      | error o => rfl
      | ok info =>
        simp only []
        cases event.Prev with
        | none => rfl
        | some pr =>
          cases pr with
          | error e => rfl
          | ok y =>
            obtain ⟨prevName, prevPtr⟩ := y
            simp only []
            have g2 := GetPipelineInfo_cluster v prevPtr
              (GetPipelineInfo (clusterEnv v) pipelinePtr
                (w.run (clusterEnv v).sudoToken Call.sudoToken).2).2
            have g1' := GetPipelineInfo_cluster v pipelinePtr
              (w2.run (clusterEnv v).sudoToken Call.sudoToken).2
            have e2 := g2.2 (GetPipelineInfo (clusterEnv v) pipelinePtr
                (w2.run (clusterEnv v).sudoToken Call.sudoToken).2).2
              ((hspecs _ _ g1'.1).trans (h2.trans (hspecs _ _ g1.1).symm))
            rw [e2]
            cases (GetPipelineInfo (clusterEnv v) prevPtr
              (GetPipelineInfo (clusterEnv v) pipelinePtr
                (w.run (clusterEnv v).sudoToken Call.sudoToken).2).2).1 <;> rfl

/-- Retrieving a PipelineInfo never ends the iteration with `continue`. -/
theorem GetPipelineInfo_not_next {σ : Type} (env : Env σ) (ptr : EtcdPipelineInfo)
    (w : World σ) : (GetPipelineInfo env ptr w).1 ≠ .error .next := by
  unfold GetPipelineInfo
  repeat' first | split | simp only []
  all_goals simp

/-- Decoding a PUT event never ends the iteration with `continue`. -/
theorem putLocals_not_next {σ : Type} (env : Env σ) (event : PipelineEvent) (w : World σ) :
    (putLocals env event w).1 ≠ .error .next := by
  have hn : ∀ o, o ≠ Outcome.next → noPipelineInfo o ≠ Outcome.next := by
    intro o ho
    cases o <;> simp [noPipelineInfo] at ho ⊢
  have hg := GetPipelineInfo_not_next env
  unfold putLocals
  split
  · simp
  · simp only []
    split
    · simp [noPipelineInfo]
    · split
      · next o h =>
        simp only [ne_eq, Except.error.injEq]
        exact hn o fun ho => hg _ _ (by rw [h, ho])
      · split
        · simp
        · simp [noPipelineInfo]
        · split
          · next o h =>
            simp only [ne_eq, Except.error.injEq]
            exact hn o fun ho => hg _ _ (by rw [h, ho])
          · simp

/-- The abstract reconciliation does not change the spec repo. -/
theorem reconcileA_specs (v : String) (l : PutLocals) (a : AState) :
    (reconcileA v l a).specs = a.specs := by
  have h1 : ∀ a, (gitA l a).specs = a.specs := by
    intro a; unfold gitA; split_ifs <;> simp
  have h2 : ∀ a, (stoppedA l a).specs = a.specs := by
    intro a; unfold stoppedA; split_ifs <;> simp
  have h3 : ∀ a, (restartedA v l a).specs = a.specs := by
    intro a; unfold restartedA; split_ifs <;> simp [h1]
  have h4 : ∀ a, (deletePrevA l a).specs = a.specs := by
    intro a; unfold deletePrevA; split <;> simp
  have h5 : ∀ a, (upsertedA v l a).specs = a.specs := by
    intro a; unfold upsertedA; split_ifs <;> simp [h1, h4]
  have h6 : ∀ a, (scaleStageA l a).specs = a.specs := by
    intro a; unfold scaleStageA; simp only []; split_ifs <;> simp
  unfold reconcileA
  rw [h6, h5, h3, h2]

/-- In the cluster model, an iteration on a pipeline event that goes on to the
next event either handled another kind of event and changed nothing of the
abstract state, or decoded locals and acted as `reconcileA` on it. -/
theorem handle_next_cluster (v : String) (event : PipelineEvent) (w : World Cluster)
    (h : (handlePipelineEvent (clusterEnv v) event w).1 = .next) :
    (event.Typ ≠ .EventPut ∧
      absWorld (handlePipelineEvent (clusterEnv v) event w).2 = absWorld w) ∨
    (event.Typ = .EventPut ∧ ∃ l, (putLocals (clusterEnv v) event w).1 = .ok l ∧
      absWorld (handlePipelineEvent (clusterEnv v) event w).2 = reconcileA v l (absWorld w)) := by
  unfold handlePipelineEvent at h ⊢
  cases hE : event.Err with
  | some err => simp [hE] at h
  | none =>
    simp only [hE] at h ⊢
    by_cases hT : event.Typ = .EventPut
    · right
      refine ⟨hT, ?_⟩
      simp only [hT] at h ⊢
      have hp := putLocals_cluster v event w
      have hnn := putLocals_not_next (clusterEnv v) event w
      rcases hpl : putLocals (clusterEnv v) event w with ⟨r, w1⟩
      rw [hpl] at hp hnn h
      simp only [] at hp hnn h ⊢
      cases r with
      | error o =>
        simp only [] at h
        subst h
        exact absurd rfl hnn
      | ok l =>
        simp only [finish] at h ⊢
        obtain ⟨hr1, hr2⟩ := refines_reconcile v l w1
        refine ⟨l, rfl, ?_⟩
        cases ho : (reconcile (clusterEnv v) l w1).1 with
        | none => rw [hr2 ho, hp.1]
        | some o =>
          rw [ho] at h hr1
          simp only [Option.getD_some] at h
          subst h
          exact absurd rfl hr1
    · left
      refine ⟨hT, ?_⟩
      cases hTy : event.Typ <;> simp_all

end PPS

/-! ## Idempotence of PUT events -/

namespace PPS
open PipelineState

/-- Worlds of the cluster model with the same abstraction have the same cluster state. -/
theorem clusterView_of_absWorld (w1 w2 : World Cluster) (h : absWorld w1 = absWorld w2) :
    clusterView w1 = clusterView w2 := by
  have h1 := congrArg AState.rcs h
  have h2 := congrArg AState.services h
  have h3 := congrArg AState.monitors h
  simp only [absWorld] at h1 h2 h3
  simp only [clusterView, h1, h2, h3]

/-- In the cluster model, the reconciliation of a PUT event that creates a
pipeline without git input, in a state that is neither stopped, RUNNING nor
STANDBY, falls through to the end of the loop body. -/
theorem reconcile_create_cluster (v : String) (l : PutLocals) (w : World Cluster)
    (hst : pipelineStateToStopped l.pipelinePtr.State = false) (hprev : l.prev = none)
    (hg : hasGitInput l.pipelineInfo = false)
    (hr : (l.pipelineInfo.State == PIPELINE_RUNNING) = false)
    (hs : (l.pipelineInfo.State == PIPELINE_STANDBY) = false) :
    (reconcile (clusterEnv v) l w).1 = none := by
  have hu := (upsertWorkers_cluster v l.pipelineInfo w).1
  simp [reconcile, stageStopped, stageRestarted, stageUpserted, stageScale, whenStage,
    Stage.andThen, pipelineUpserted, PutLocals.prevPipelinePtr, hst, hprev, hg, hr, hs,
    upsertOrFail, mUpsertWorkers]
  rcases hup : upsertWorkersForPipeline (clusterEnv v) l.pipelineInfo w with ⟨r, w1⟩
  rw [hup] at hu
  simp only [] at hu
  subst hu
  rfl

/-- In the cluster model, both handlings of the event that creates pipeline A,
from the cluster that has no replica group yet, go on to the next event. -/
theorem createPutA_twice_next (v : String) :
    (handlePipelineEvent (clusterEnv v) createPutA (World.init clusterA)).1 = .next ∧
    (handlePipelineEvent (clusterEnv v) createPutA
      (handlePipelineEvent (clusterEnv v) createPutA (World.init clusterA)).2).1 = .next := by
  have hl : (putLocals (clusterEnv v) createPutA (World.init clusterA)).1 = .ok createLocalsA :=
    rfl
  have key : ∀ w : World Cluster, (putLocals (clusterEnv v) createPutA w).1 = .ok createLocalsA →
      (handlePipelineEvent (clusterEnv v) createPutA w).1 = .next := by
    intro w hw
    have hE : createPutA.Err = none := rfl
    have hT : createPutA.Typ = .EventPut := rfl
    unfold handlePipelineEvent
    simp only [hE, hT]
    rcases hp : putLocals (clusterEnv v) createPutA w with ⟨r, w1⟩
    rw [hp] at hw
    simp only [] at hw
    subst hw
    simp only [finish]
    rw [reconcile_create_cluster v createLocalsA w1 rfl rfl rfl rfl rfl]
    rfl
  have h1 := key _ hl
  refine ⟨h1, key _ ?_⟩
  rcases handle_next_cluster v createPutA (World.init clusterA) h1 with ⟨hT, _⟩ | ⟨_, l, _, ha⟩
  · exact absurd rfl hT
  · have hs := congrArg AState.specs ha
    rw [reconcileA_specs] at hs
    rw [(putLocals_cluster v createPutA (World.init clusterA)).2 _ hs]
    exact hl

/-- In the cluster model, handling the event that creates pipeline A creates
its replica group at replica count 0 with the version label of the control
plane, and registers a monitor; the group did not exist before. -/
theorem createPutA_creates_group :
    (clusterView (handlePipelineEvent (clusterEnv "1.7.0") createPutA
        (World.init clusterA)).2).rcs (rcNameOf "A" pipelineA.Version)
      = some { Labels := [("version", "1.7.0")], Replicas := 0 } ∧
    (clusterView (handlePipelineEvent (clusterEnv "1.7.0") createPutA
        (World.init clusterA)).2).monitors "A" = true ∧
    (clusterView (World.init clusterA)).rcs (rcNameOf "A" pipelineA.Version) = none := by
  have h1 := (createPutA_twice_next "1.7.0").1
  rcases handle_next_cluster "1.7.0" createPutA (World.init clusterA) h1 with
    ⟨hT, _⟩ | ⟨_, l, hl, ha⟩
  · exact absurd rfl hT
  · have hl2 : (putLocals (clusterEnv "1.7.0") createPutA (World.init clusterA)).1
        = .ok createLocalsA := rfl
    rw [hl2] at hl
    have hll : l = createLocalsA := by simpa using hl.symm
    subst hll
    have hr := congrFun (congrArg AState.rcs ha) (rcNameOf "A" pipelineA.Version)
    have hm := congrFun (congrArg AState.monitors ha) "A"
    refine ⟨hr.trans ?_, hm.trans ?_, ?_⟩
    · decide
    · decide
    · decide

/-- C5: in the cluster model, for every pipeline event (so for every PUT event),
every orchestrator version string and every world (so every cluster state:
replica groups with their replica counts, services, registered monitors), when
the master handles the event twice in succession and both iterations run to
their end without a call making the master return (outcome `next`), the cluster
state after the second handling is the cluster state after the first. -/
theorem put_event_idempotent (v : String) (event : PipelineEvent) (w : World Cluster)
    (h1 : (handlePipelineEvent (clusterEnv v) event w).1 = .next)
    (h2 : (handlePipelineEvent (clusterEnv v) event
            (handlePipelineEvent (clusterEnv v) event w).2).1 = .next) :
    clusterView (handlePipelineEvent (clusterEnv v) event
        (handlePipelineEvent (clusterEnv v) event w).2).2
      = clusterView (handlePipelineEvent (clusterEnv v) event w).2 := by
  apply clusterView_of_absWorld
  rcases handle_next_cluster v event w h1 with ⟨hT, ha⟩ | ⟨hT, l, hl, ha⟩
  · rcases handle_next_cluster v event _ h2 with ⟨_, hb⟩ | ⟨hT2, _⟩
    · exact hb
    · exact absurd hT2 hT
  · rcases handle_next_cluster v event _ h2 with ⟨hT2, _⟩ | ⟨_, l2, hl2, hb⟩
    · exact absurd hT hT2
    · have hs : (handlePipelineEvent (clusterEnv v) event w).2.kube.specs = w.kube.specs := by
        have := congrArg AState.specs ha
        rw [reconcileA_specs] at this
        exact this
      have hsame := (putLocals_cluster v event w).2 _ hs
      rw [hl2, hl] at hsame
      have hll : l2 = l := by simpa using hsame
      rw [hb, hll, ha, reconcileA_idem]

/-- Witness of C5: the PUT event that creates pipeline A (state STARTING) on the
cluster that has no replica group yet: both handlings end with `next`, the
first one creates the replica group of A, and the second one leaves the cluster
state as the first one left it. -/
theorem put_event_idempotent_witness :
    (handlePipelineEvent (clusterEnv "1.7.0") createPutA (World.init clusterA)).1 = .next ∧
    (handlePipelineEvent (clusterEnv "1.7.0") createPutA
      (handlePipelineEvent (clusterEnv "1.7.0") createPutA (World.init clusterA)).2).1 = .next ∧
    (clusterView (World.init clusterA)).rcs (rcNameOf "A" pipelineA.Version) = none ∧
    (clusterView (handlePipelineEvent (clusterEnv "1.7.0") createPutA
        (World.init clusterA)).2).rcs (rcNameOf "A" pipelineA.Version)
      = some { Labels := [("version", "1.7.0")], Replicas := 0 } ∧
    clusterView (handlePipelineEvent (clusterEnv "1.7.0") createPutA
        (handlePipelineEvent (clusterEnv "1.7.0") createPutA (World.init clusterA)).2).2
      = clusterView (handlePipelineEvent (clusterEnv "1.7.0") createPutA (World.init clusterA)).2 :=
  ⟨(createPutA_twice_next "1.7.0").1, (createPutA_twice_next "1.7.0").2,
    createPutA_creates_group.2.2, createPutA_creates_group.1,
    put_event_idempotent "1.7.0" createPutA (World.init clusterA)
      (createPutA_twice_next "1.7.0").1 (createPutA_twice_next "1.7.0").2⟩

end PPS

/-! ## Spec-commit changes in the cluster model -/

namespace PPS
open PipelineState

/-- Sequential composition keeps what both statements keep. -/
theorem keepsGroup_andThen {k : String} {a b : Stage Cluster} (ha : KeepsGroup k a)
    (hb : KeepsGroup k b) : KeepsGroup k (a.andThen b) := by
  intro w
  have h1 := ha w
  rw [andThen_apply]
  rcases h : a w with ⟨o, w1⟩
  rw [h] at h1
  cases o with
  | some o => exact h1
  | none => exact (hb w1).trans h1

/-- A conditional statement keeps what its body keeps. -/
theorem keepsGroup_whenStage {k : String} {body : Stage Cluster} (c : Bool)
    (hb : KeepsGroup k body) : KeepsGroup k (whenStage c body) := by
  intro w
  cases c with
  | false => rfl
  | true => exact hb w

/-- In the cluster model, the githook check touches no replica group. -/
theorem keepsGroup_githook (v k : String) :
    KeepsGroup k (orReturn (mCheckOrDeployGithookService (clusterEnv v))) := by
  intro w
  rw [orReturn_snd]
  simp only [mCheckOrDeployGithookService, World.act, checkOrDeployGithookService,
    getGithookService, clusterEnv, World.run]
  repeat' first | split | simp only []

/-- In the cluster model, upserting the workers of a pipeline touches no replica
group but the one of the pipeline. -/
theorem keepsGroup_upsertOrFail (v k : String) (l : PutLocals)
    (hk : k ≠ rcNameOf l.pipelineInfo.Name l.pipelineInfo.Version) :
    KeepsGroup k (upsertOrFail (clusterEnv v) l) := by
  intro w
  obtain ⟨h1, h2⟩ := upsertWorkers_cluster v l.pipelineInfo w
  have h3 := congrFun (congrArg AState.rcs h2) k
  rw [upsertA_rcs, if_neg hk] at h3
  unfold upsertOrFail mUpsertWorkers
  simp only [h1]
  exact h3

/-- In the cluster model, scaling the workers of a pipeline touches no replica
group but the one of the pipeline. -/
theorem keepsGroup_scale (v k : String) (l : PutLocals)
    (hk : k ≠ rcNameOf l.pipelineInfo.Name l.pipelineInfo.Version) :
    KeepsGroup k (stageScale (clusterEnv v) l) := by
  have hk2 : ¬ rcNameOf l.pipelineInfo.Name l.pipelineInfo.Version = k := fun h => hk h.symm
  unfold stageScale
  apply keepsGroup_andThen <;> apply keepsGroup_whenStage <;> intro w <;> rw [orReturn_snd]
  · simp only [mScaleUp, World.act, scaleUpWorkersForPipeline, cluster_PipelineRcName]
    cases hr : w.kube.rcs (rcNameOf l.pipelineInfo.Name l.pipelineInfo.Version) with
    | none => simp [clusterEnv, hr]
    | some d =>
      simp only [clusterEnv, hr, World.run, World.runE]
      repeat' first | split | simp only []
      all_goals simp_all
  · simp only [mScaleDown, World.act, scaleDownWorkersForPipeline, cluster_PipelineRcName]
    cases hr : w.kube.rcs (rcNameOf l.pipelineInfo.Name l.pipelineInfo.Version) with
    | none => simp [clusterEnv, hr]
    | some d =>
      simp only [clusterEnv, hr, World.run]
      repeat' first | split | simp only []
      all_goals simp_all

/-- In the cluster model, a spec-commit change between two non-stopped states:
the deletion of the previous workers succeeds and leaves no replica group of
the previous PipelineInfo, and what the master does after it touches no replica
group but the one of the current PipelineInfo. -/
theorem specChange_cluster (v : String) (event : PipelineEvent) (w : World Cluster)
    (l : PutLocals) (p : EtcdPipelineInfo × PipelineInfo) (commit prevCommit : Commit)
    (hE : event.Err = none) (hT : event.Typ = .EventPut)
    (hl : (putLocals (clusterEnv v) event w).1 = .ok l)
    (hprev : l.prev = some p)
    (hps : pipelineStateToStopped p.1.State = false)
    (hcs : pipelineStateToStopped l.pipelinePtr.State = false)
    (hpc : p.1.SpecCommit = some prevCommit) (hc : l.pipelinePtr.SpecCommit = some commit)
    (hne : commit.ID ≠ prevCommit.ID) :
    (deleteWorkersForPipeline (clusterEnv v) p.2 (putLocals (clusterEnv v) event w).2).1 = none ∧
    (clusterView (deleteWorkersForPipeline (clusterEnv v) p.2
      (putLocals (clusterEnv v) event w).2).2).rcs (rcNameOf p.2.Name p.2.Version) = none ∧
    ∀ k, k ≠ rcNameOf l.pipelineInfo.Name l.pipelineInfo.Version →
      (clusterView (handlePipelineEvent (clusterEnv v) event w).2).rcs k =
      (clusterView (deleteWorkersForPipeline (clusterEnv v) p.2
        (putLocals (clusterEnv v) event w).2).2).rcs k := by
  rcases hp : putLocals (clusterEnv v) event w with ⟨r, w1⟩
  rw [hp] at hl
  simp only [] at hl ⊢
  subst hl
  obtain ⟨hd1, hd2⟩ := deleteWorkers_cluster v p.2 w1
  have hd3 := congrFun (congrArg AState.rcs hd2) (rcNameOf p.2.Name p.2.Version)
  rw [deleteA_rcs, if_pos rfl] at hd3
  refine ⟨hd1, hd3, ?_⟩
  intro k hk
  have hrec := reconcile_specChange (clusterEnv v) l w1 p commit prevCommit hprev hps hcs hpc hc hne
  have hh : handlePipelineEvent (clusterEnv v) event w = finish (reconcile (clusterEnv v) l w1) := by
    simp [handlePipelineEvent, hE, hT, hp]
  rw [hh, hrec]
  have hrest : KeepsGroup k
      (((whenStage (hasGitInput l.pipelineInfo)
          (orReturn (mCheckOrDeployGithookService (clusterEnv v)))).andThen
        (upsertOrFail (clusterEnv v) l)).andThen (stageScale (clusterEnv v) l)) :=
    keepsGroup_andThen
      (keepsGroup_andThen (keepsGroup_whenStage _ (keepsGroup_githook v k))
        (keepsGroup_upsertOrFail v k l hk))
      (keepsGroup_scale v k l hk)
  have hr := hrest ((deleteWorkersForPipeline (clusterEnv v) p.2 w1).2.act
    (.deleteWorkers p.2 none))
  have hm : orReturn (mDeleteWorkers (clusterEnv v) p.2) w1 =
      (none, (deleteWorkersForPipeline (clusterEnv v) p.2 w1).2.act
        (.deleteWorkers p.2 none)) := by
    simp [orReturn, mDeleteWorkers, hd1]
  simp only [clusterView, finish, andThen_apply, hm]
  exact hr

/-- C4: for every pipeline PUT event that has a previous value, where the
previous and the current state are both non-stopped and the spec-commit IDs
differ, the first driver call the master makes is `deleteWorkers` on the
previous PipelineInfo.  If it fails, it is the only driver call and its error
is returned from the loop, so `upsertWorkers` is not called.  If it succeeds,
either the githook check fails (and nothing follows), or `upsertWorkers` on the
current PipelineInfo follows, after the deletion and the successful githook
check of a pipeline with a git input.  And in the cluster model the old and the
new replica group are never both present from the deletion on: the deletion
succeeds and leaves no replica group of the previous PipelineInfo, and every
replica group but the one of the current PipelineInfo is at the end of the
iteration what it was right after the deletion. -/
theorem spec_change_deletes_before_upsert {σ : Type} (env : Env σ) (event : PipelineEvent)
    (w : World σ) (l : PutLocals) (p : EtcdPipelineInfo × PipelineInfo)
    (commit prevCommit : Commit)
    (hE : event.Err = none) (hT : event.Typ = .EventPut)
    (hl : (putLocals env event w).1 = .ok l)
    (hprev : l.prev = some p)
    (hps : pipelineStateToStopped p.1.State = false)
    (hcs : pipelineStateToStopped l.pipelinePtr.State = false)
    (hpc : p.1.SpecCommit = some prevCommit) (hc : l.pipelinePtr.SpecCommit = some commit)
    (hne : commit.ID ≠ prevCommit.ID) :
    (∃ rest,
      (handlePipelineEvent env event w).2.acts = w.acts ++
        Action.deleteWorkers p.2
          (deleteWorkersForPipeline env p.2 (putLocals env event w).2).1 :: rest ∧
      (∀ err, (deleteWorkersForPipeline env p.2 (putLocals env event w).2).1 = some err →
        rest = [] ∧ (handlePipelineEvent env event w).1 = .ret err) ∧
      ((deleteWorkersForPipeline env p.2 (putLocals env event w).2).1 = none →
        (∃ err, rest = [Action.checkOrDeployGithookService (some err)] ∧
          (handlePipelineEvent env event w).1 = .ret err) ∨
        (∃ res after, rest =
          (if hasGitInput l.pipelineInfo then [Action.checkOrDeployGithookService none]
            else []) ++ Action.upsertWorkers l.pipelineInfo res :: after))) ∧
    (∀ (v : String) (wc : World Cluster),
      (putLocals (clusterEnv v) event wc).1 = .ok l →
      (deleteWorkersForPipeline (clusterEnv v) p.2
        (putLocals (clusterEnv v) event wc).2).1 = none ∧
      (clusterView (deleteWorkersForPipeline (clusterEnv v) p.2
        (putLocals (clusterEnv v) event wc).2).2).rcs (rcNameOf p.2.Name p.2.Version) = none ∧
      ∀ k, k ≠ rcNameOf l.pipelineInfo.Name l.pipelineInfo.Version →
        (clusterView (handlePipelineEvent (clusterEnv v) event wc).2).rcs k =
        (clusterView (deleteWorkersForPipeline (clusterEnv v) p.2
          (putLocals (clusterEnv v) event wc).2).2).rcs k) :=
  ⟨specChange_acts env event w l p commit prevCommit hE hT hl hprev hps hcs hpc hc hne,
    fun v wc hlc =>
      specChange_cluster v event wc l p commit prevCommit hE hT hlc hprev hps hcs hpc hc hne⟩

/-- Witness of C4: the spec update of pipeline `A` from `c1` (version 1) to `c2`
(version 2) in the cluster model, on a cluster that runs the replica group of
version 1. -/
theorem spec_change_deletes_before_upsert_witness :
    updatePutA.Err = none ∧ updatePutA.Typ = .EventPut ∧
    (putLocals (clusterEnv "1.7.0") updatePutA (World.init clusterA2)).1 = .ok updateLocalsA ∧
    updateLocalsA.prev = some (runningRecord1, { pipelineA with State := PIPELINE_RUNNING }) ∧
    pipelineStateToStopped runningRecord1.State = false ∧
    pipelineStateToStopped updateLocalsA.pipelinePtr.State = false ∧
    runningRecord1.SpecCommit = some { ID := "c1" } ∧
    updateLocalsA.pipelinePtr.SpecCommit = some { ID := "c2" } ∧
    (({ ID := "c2" } : Commit).ID ≠ ({ ID := "c1" } : Commit).ID) ∧
    (∃ rest,
      (handlePipelineEvent (clusterEnv "1.7.0") updatePutA (World.init clusterA2)).2.acts
        = (World.init clusterA2).acts ++
        Action.deleteWorkers { pipelineA with State := PIPELINE_RUNNING }
          (deleteWorkersForPipeline (clusterEnv "1.7.0")
            { pipelineA with State := PIPELINE_RUNNING }
            (putLocals (clusterEnv "1.7.0") updatePutA (World.init clusterA2)).2).1 :: rest ∧
      (∀ err, (deleteWorkersForPipeline (clusterEnv "1.7.0")
            { pipelineA with State := PIPELINE_RUNNING }
            (putLocals (clusterEnv "1.7.0") updatePutA (World.init clusterA2)).2).1
          = some err →
        rest = [] ∧
        (handlePipelineEvent (clusterEnv "1.7.0") updatePutA (World.init clusterA2)).1
          = .ret err) ∧
      ((deleteWorkersForPipeline (clusterEnv "1.7.0")
            { pipelineA with State := PIPELINE_RUNNING }
            (putLocals (clusterEnv "1.7.0") updatePutA (World.init clusterA2)).2).1 = none →
        (∃ err, rest = [Action.checkOrDeployGithookService (some err)] ∧
          (handlePipelineEvent (clusterEnv "1.7.0") updatePutA (World.init clusterA2)).1
            = .ret err) ∨
        (∃ res after, rest =
          (if hasGitInput updateLocalsA.pipelineInfo
            then [Action.checkOrDeployGithookService none]
            else []) ++ Action.upsertWorkers updateLocalsA.pipelineInfo res :: after))) ∧
    (clusterView (World.init clusterRunningA)).rcs (rcNameOf "A" 1)
      = some { Labels := [("version", "1.7.0")], Replicas := 2 } ∧
    (clusterView (deleteWorkersForPipeline (clusterEnv "1.7.0")
        { pipelineA with State := PIPELINE_RUNNING }
        (putLocals (clusterEnv "1.7.0") updatePutA (World.init clusterRunningA)).2).2).rcs
      (rcNameOf "A" 1) = none ∧
    (clusterView (handlePipelineEvent (clusterEnv "1.7.0") updatePutA
      (World.init clusterRunningA)).2).rcs (rcNameOf "A" 1) = none :=
  ⟨rfl, rfl, rfl, rfl, rfl, rfl, rfl, rfl, by decide,
    (spec_change_deletes_before_upsert (clusterEnv "1.7.0") updatePutA (World.init clusterA2)
      updateLocalsA (runningRecord1, { pipelineA with State := PIPELINE_RUNNING })
      { ID := "c2" } { ID := "c1" } rfl rfl rfl rfl rfl rfl rfl rfl (by decide)).1,
    by decide,
    ((spec_change_deletes_before_upsert (clusterEnv "1.7.0") updatePutA (World.init clusterA2)
      updateLocalsA (runningRecord1, { pipelineA with State := PIPELINE_RUNNING })
      { ID := "c2" } { ID := "c1" } rfl rfl rfl rfl rfl rfl rfl rfl (by decide)).2
        "1.7.0" (World.init clusterRunningA) rfl).2.1,
    (((spec_change_deletes_before_upsert (clusterEnv "1.7.0") updatePutA (World.init clusterA2)
      updateLocalsA (runningRecord1, { pipelineA with State := PIPELINE_RUNNING })
      { ID := "c2" } { ID := "c1" } rfl rfl rfl rfl rfl rfl rfl rfl (by decide)).2
        "1.7.0" (World.init clusterRunningA) rfl).2.2 (rcNameOf "A" 1) (by decide)).trans
      ((spec_change_deletes_before_upsert (clusterEnv "1.7.0") updatePutA (World.init clusterA2)
        updateLocalsA (runningRecord1, { pipelineA with State := PIPELINE_RUNNING })
        { ID := "c2" } { ID := "c1" } rfl rfl rfl rfl rfl rfl rfl rfl (by decide)).2
          "1.7.0" (World.init clusterRunningA) rfl).2.1⟩

end PPS

/-! ## Pod events of type ERROR -/

namespace PPS
open PipelineState

/-- The loop over the container statuses only appends to the call log. -/
theorem failContainers_calls {σ : Type} (env : Env σ) (pod : Pod)
    (statuses : List ContainerStatus) (w : World σ) :
    ∃ rest, (failContainers env pod statuses w).2.calls = w.calls ++ rest := by
  induction statuses generalizing w with
  | nil => exact ⟨[], by simp [failContainers]⟩
  | cons status tail ih =>
    unfold failContainers
    cases status.Waiting with
    | none => exact ih w
    | some waiting =>
      simp only []
      split
      · rcases hm : mSetPipelineFailure env (mapGet pod.Annotations "pipelineName")
          waiting.Message w with ⟨r, w1⟩
        have hc : ∃ one, w1.calls = w.calls ++ one := by
          have : w1 = (mSetPipelineFailure env (mapGet pod.Annotations "pipelineName")
            waiting.Message w).2 := by rw [hm]
          rw [this]
          simp only [mSetPipelineFailure, setPipelineFailure, stmUpsert, World.act, World.run]
          repeat' first | split | simp only []
          all_goals exact ⟨_, rfl⟩
        obtain ⟨one, hone⟩ := hc
        cases r with
        | some err => exact ⟨one, hone⟩
        | none =>
          obtain ⟨rest, hrest⟩ := ih w1
          exact ⟨one ++ rest, by simp [hrest, hone]⟩
      · exact ih w

/-- Counterexample to C11: a pod-watch event of type `ERROR` that carries the
pod of the image-pull scenario; the master rebuilds the pod watch and then
inspects the pod all the same: it sets pipeline `A` to FAILURE. -/
theorem error_event_with_pod_sets_failure :
    errorPodEventA.Typ = "ERROR" ∧
    (handlePodEvent (clusterEnv "1.7.0") errorPodEventA
        { kubePipelineWatch := true, watchChan := true } (World.init clusterA)).2.2.calls
      = [Call.podWatchStop, Call.podWatch none, Call.stm "A" none] ∧
    (handlePodEvent (clusterEnv "1.7.0") errorPodEventA
        { kubePipelineWatch := true, watchChan := true } (World.init clusterA)).2.2.acts
      = [Action.setPipelineFailure "A" "manifest unknown" none] ∧
    ((handlePodEvent (clusterEnv "1.7.0") errorPodEventA
        { kubePipelineWatch := true, watchChan := true }
        (World.init clusterA)).2.2.pipelines "A").map (fun p => p.State)
      = some PIPELINE_FAILURE := by
  refine ⟨rfl, ?_, ?_, ?_⟩
  · rfl
  · rfl
  · rfl

/-- C11 (amended): for every pod-watch event whose type is ERROR or empty, the
master rebuilds the pod watch (it stops the prior watch if there is one and
issues a new one; on failure both watch variables are nil).  When the object of
the event is not a Pod, that is all: no driver call is made and no pipeline
record is changed.  When the object is a Pod, the container-status inspection
is applied to it as for an event of any other type: the `setPipelineFailure`
calls are those of the waiting failures of the pod, up to the first call that
fails. -/
theorem error_event_rebuilds_then_inspects_pod {σ : Type} (env : Env σ) (event : KubeEvent)
    (v : WatchVars) (w : World σ) (hT : event.Typ = "ERROR" ∨ event.Typ = "") :
    (∃ rest, (handlePodEvent env event v w).2.2.calls = w.calls ++
        (if v.kubePipelineWatch then [Call.podWatchStop] else []) ++
        [Call.podWatch (env.podWatch w.kube).1] ++ rest ∧
      (event.Object = .other → rest = [])) ∧
    (handlePodEvent env event v w).2.1 =
      (match (env.podWatch w.kube).1 with
        | some _ => { kubePipelineWatch := false, watchChan := false }
        | none => { kubePipelineWatch := true, watchChan := true }) ∧
    (event.Object = .other →
      (handlePodEvent env event v w).1 = .next ∧
      (handlePodEvent env event v w).2.2.acts = w.acts ∧
      (handlePodEvent env event v w).2.2.pipelines = w.pipelines) ∧
    (∀ pod, event.Object = .pod pod →
      ∃ results : List (Option Error),
        (handlePodEvent env event v w).2.2.acts = w.acts ++
          failureCalls (mapGet pod.Annotations "pipelineName")
            (waitingFailures pod.ContainerStatuses) results ∧
        ((results.length = (waitingFailures pod.ContainerStatuses).length ∧
            (∀ r ∈ results, r = none) ∧ (handlePodEvent env event v w).1 = .next) ∨
          (∃ before err, results = before ++ [some err] ∧ (∀ r ∈ before, r = none) ∧
            results.length ≤ (waitingFailures pod.ContainerStatuses).length ∧
            (handlePodEvent env event v w).1 = .ret err))) := by
  have hc : (event.Typ == "ERROR" || event.Typ == "") = true := by
    rcases hT with h | h <;> simp [h]
  have hrc : (rebuildWatch env event v w).2.calls = w.calls ++
      (if v.kubePipelineWatch then [Call.podWatchStop] else []) ++
      [Call.podWatch (env.podWatch w.kube).1] := by
    unfold rebuildWatch
    simp only [hc, if_true]
    cases v.kubePipelineWatch <;>
      (repeat' first | split | simp only []) <;> simp [World.run, World.log]
  have hrv : (rebuildWatch env event v w).1 =
      (match (env.podWatch w.kube).1 with
        | some _ => { kubePipelineWatch := false, watchChan := false }
        | none => { kubePipelineWatch := true, watchChan := true }) := by
    unfold rebuildWatch
    simp only [hc, if_true]
    cases v.kubePipelineWatch <;>
      simp only [World.run, World.log, if_true, Bool.false_eq_true, if_false] <;>
      cases (env.podWatch w.kube).1 <;> rfl
  have hrp : (rebuildWatch env event v w).2.pipelines = w.pipelines := by
    unfold rebuildWatch
    simp only [hc, if_true]
    cases v.kubePipelineWatch <;>
      (repeat' first | split | simp only []) <;> simp [World.run, World.log]
  have hv : (handlePodEvent env event v w).2.1 = (rebuildWatch env event v w).1 := by
    unfold handlePodEvent
    repeat' first | split | simp only []
  refine ⟨?_, hv.trans hrv, ?_, ?_⟩
  · cases hO : event.Object with
    | other =>
      refine ⟨[], ?_, fun _ => rfl⟩
      simp [handlePodEvent, hO, hrc]
    | pod pod =>
      obtain ⟨rest, hrest⟩ :=
        failContainers_calls env pod pod.ContainerStatuses (rebuildWatch env event v w).2
      refine ⟨rest, ?_, fun h => by simp at h⟩
      rw [hrc] at hrest
      have hw : (handlePodEvent env event v w).2.2 =
          (failContainers env pod pod.ContainerStatuses (rebuildWatch env event v w).2).2 := by
        simp only [handlePodEvent, hO]
        split <;> simp_all
      rw [hw, hrest]
  · intro hO
    simp [handlePodEvent, hO, rebuildWatch_acts, hrp]
  · intro pod hpod
    obtain ⟨results, h1, h2⟩ :=
      failContainers_spec env pod pod.ContainerStatuses (rebuildWatch env event v w).2
    rw [rebuildWatch_acts] at h1
    refine ⟨results, ?_, ?_⟩
    · simp only [handlePodEvent, hpod]
      split <;> simp_all
    · rcases h2 with ⟨hlen, hall, hres⟩ | ⟨before, err, hr, hall, hlen, hres⟩
      · left
        refine ⟨hlen, hall, ?_⟩
        simp only [handlePodEvent, hpod]
        split <;> simp_all
      · right
        refine ⟨before, err, hr, hall, hlen, ?_⟩
        simp only [handlePodEvent, hpod]
        split <;> simp_all

/-- Witness of the amended C11: an event of type `ERROR` whose object is not a
Pod, in the cluster model. -/
theorem error_event_rebuilds_then_inspects_pod_witness :
    (({ Typ := "ERROR", Object := .other } : KubeEvent).Typ = "ERROR" ∨
      ({ Typ := "ERROR", Object := .other } : KubeEvent).Typ = "") ∧
    (handlePodEvent (clusterEnv "1.7.0") { Typ := "ERROR", Object := .other }
      { kubePipelineWatch := true, watchChan := true } (World.init clusterA)).2.2.calls
      = [Call.podWatchStop, Call.podWatch none] ∧
    (handlePodEvent (clusterEnv "1.7.0") { Typ := "ERROR", Object := .other }
      { kubePipelineWatch := true, watchChan := true } (World.init clusterA)).2.2.acts = [] :=
  ⟨Or.inl rfl, rfl,
    ((error_event_rebuilds_then_inspects_pod (clusterEnv "1.7.0")
      { Typ := "ERROR", Object := .other } { kubePipelineWatch := true, watchChan := true }
      (World.init clusterA) (Or.inl rfl)).2.2.1 rfl).2.1⟩

end PPS

/-! ## The monitor registry -/

namespace PPS
open PipelineState

end PPS

/-! ## The select of the monitor loop -/

namespace PPS
open PipelineState

/-- The calls of an iteration of the commit arm that passes the terminal-job
check: the STM write of RUNNING, then, if it succeeded, `BlockCommit`, then, if
that succeeded, the blocking `InspectJobOutputCommit`. -/
theorem monitorStep_commit_calls {σ : Type} (env : Env σ) (pipelineInfo : PipelineInfo)
    (ci : CommitInfo) (c : StandbyChan) (w w1 : World σ)
    (hf : checkFinished env ci w = (none, w1)) :
    ∃ blocking, (monitorStep env pipelineInfo (.ciChan ci) c w).2.2.calls =
      w1.calls ++ Call.stm pipelineInfo.Name (env.stm w1.kube).1 :: blocking ∧
      ((env.stm w1.kube).1 ≠ none → blocking = []) ∧
      ((env.stm w1.kube).1 = none →
        (∃ b, blocking = [Call.BlockCommit ci.Repo ci.ID (some b)]) ∨
          (∃ r, blocking = [Call.BlockCommit ci.Repo ci.ID none,
            Call.InspectJobOutputCommit ci.Repo ci.ID true r])) := by
  simp only [monitorStep, hf]
  unfold stmUpsert
  simp only [World.run, World.runE]
  cases hs : (env.stm w1.kube).1 with
  | some err => exact ⟨[], by simp, fun _ => rfl, fun h => by simp at h⟩
  | none =>
    simp only []
    have hm : ∀ p, (runningMutator p).2 = none := by
      intro p; unfold runningMutator; split <;> rfl
    simp only [hm]
    cases hb : (env.BlockCommit ci.Repo ci.ID (env.stm w1.kube).2).1 with
    | some b =>
      exact ⟨[Call.BlockCommit ci.Repo ci.ID (some b)], by simp, fun h => by simp at h,
        fun _ => Or.inl ⟨b, rfl⟩⟩
    | none =>
      simp only []
      refine ⟨[Call.BlockCommit ci.Repo ci.ID none,
        Call.InspectJobOutputCommit ci.Repo ci.ID true
          (errOf (env.InspectJobOutputCommit ci.Repo ci.ID true
            (env.BlockCommit ci.Repo ci.ID (env.stm w1.kube).2).2).1)], ?_,
        fun h => by simp at h, fun _ => Or.inr ⟨_, rfl⟩⟩
      cases (env.InspectJobOutputCommit ci.Repo ci.ID true
        (env.BlockCommit ci.Repo ci.ID (env.stm w1.kube).2).2).1 <;> simp

/-- C13 (the code diverges from the claim): at the start of a run of the
monitor body of pipeline `A`, the gate is the closed channel; with the READY
commit `commitReady` waiting to be received on `ciChan`, the `select` can take
either arm, and the iteration that takes the standby arm performs the STM write
that moves pipeline `A` from RUNNING to STANDBY while the commit is still
queued.  The second half of the claim holds: in an iteration of the commit arm
that passes the terminal-job check, the STM write of RUNNING comes first, and
`BlockCommit` and the blocking `InspectJobOutputCommit` follow it only when the
write succeeded. -/
theorem standby_taken_while_commit_waits :
    selectArms (some commitReady) .closed = [Arm.ciChan commitReady, Arm.standbyChan] ∧
    armReady .closed .standbyChan = true ∧
    worldRunningA.pipelines "A" = some runningRecord1 ∧
    (monitorStep (clusterEnv "1.7.0") pipelineA .standbyChan .closed worldRunningA).1
      = .next ∧
    (monitorStep (clusterEnv "1.7.0") pipelineA .standbyChan .closed worldRunningA).2.2.calls
      = [Call.stm "A" none] ∧
    (monitorStep (clusterEnv "1.7.0") pipelineA .standbyChan .closed
        worldRunningA).2.2.pipelines "A"
      = some { runningRecord1 with State := PIPELINE_STANDBY } ∧
    (∀ (σ : Type) (env : Env σ) (pipelineInfo : PipelineInfo) (ci : CommitInfo)
      (c : StandbyChan) (w w1 : World σ),
      checkFinished env ci w = (none, w1) →
      ∃ blocking, (monitorStep env pipelineInfo (.ciChan ci) c w).2.2.calls =
        w1.calls ++ Call.stm pipelineInfo.Name (env.stm w1.kube).1 :: blocking ∧
        ((env.stm w1.kube).1 ≠ none → blocking = []) ∧
        ((env.stm w1.kube).1 = none →
          (∃ b, blocking = [Call.BlockCommit ci.Repo ci.ID (some b)]) ∨
            (∃ r, blocking = [Call.BlockCommit ci.Repo ci.ID none,
              Call.InspectJobOutputCommit ci.Repo ci.ID true r]))) :=
  ⟨rfl, rfl, rfl, rfl, rfl, rfl,
    fun _ env pipelineInfo ci c w w1 hf => monitorStep_commit_calls env pipelineInfo ci c w w1 hf⟩

end PPS

/-! ## Restart and spec update in one event -/

namespace PPS
open PipelineState

/-- The reconciliation of an event that is both a restart (the previous state
is stopped, the current one is not) and a spec update (the spec commits
differ): the restart branch checks the githook service and upserts the workers,
then the created/updated branch deletes the previous workers, checks the githook
service and upserts the workers again, and then the workers are scaled. -/
theorem reconcile_restartUpdate {σ : Type} (env : Env σ) (l : PutLocals) (w : World σ)
    (p : EtcdPipelineInfo × PipelineInfo) (commit prevCommit : Commit)
    (hprev : l.prev = some p)
    (hps : pipelineStateToStopped p.1.State = true)
    (hcs : pipelineStateToStopped l.pipelinePtr.State = false)
    (hpc : p.1.SpecCommit = some prevCommit) (hc : l.pipelinePtr.SpecCommit = some commit)
    (hne : commit.ID ≠ prevCommit.ID) :
    reconcile env l w =
      ((((whenStage (hasGitInput l.pipelineInfo)
            (orReturn (mCheckOrDeployGithookService env))).andThen
          (upsertOrFail env l)).andThen
        (((orReturn (mDeleteWorkers env p.2)).andThen
          (whenStage (hasGitInput l.pipelineInfo)
            (orReturn (mCheckOrDeployGithookService env)))).andThen
          (upsertOrFail env l))).andThen (stageScale env l)) w := by
  have hpp : l.prevPipelinePtr = p.1 := by simp [PutLocals.prevPipelinePtr, hprev]
  have hup : pipelineUpserted l = some true := by
    simp [pipelineUpserted, hpp, hpc, hc, hne]
  have h1 : stageStopped env l = fun w => (none, w) := by
    funext w; simp [stageStopped, whenStage, hcs]
  have h2 : stageRestarted env l =
      (whenStage (hasGitInput l.pipelineInfo)
        (orReturn (mCheckOrDeployGithookService env))).andThen (upsertOrFail env l) := by
    funext w; simp [stageRestarted, whenStage, hcs, hpp, hps, hprev]
  have h3 : stageUpserted env l =
      ((orReturn (mDeleteWorkers env p.2)).andThen
        (whenStage (hasGitInput l.pipelineInfo)
          (orReturn (mCheckOrDeployGithookService env)))).andThen (upsertOrFail env l) := by
    funext w; simp [stageUpserted, hup, hcs, hprev, whenStage]
  unfold reconcile
  rw [h1, h2, h3]
  rfl

/-- In the cluster model, the upsert statement of the master succeeds and logs
one successful `upsertWorkers` call. -/
theorem upsertOrFail_cluster (v : String) (l : PutLocals) (w : World Cluster) :
    ∃ w1, upsertOrFail (clusterEnv v) l w = (none, w1) ∧
      w1.acts = w.acts ++ [Action.upsertWorkers l.pipelineInfo none] := by
  have h1 := (upsertWorkers_cluster v l.pipelineInfo w).1
  have h2 := upsertWorkersForPipeline_acts (clusterEnv v) l.pipelineInfo w
  unfold upsertOrFail mUpsertWorkers
  simp only [h1]
  exact ⟨_, rfl, by simp [World.act, h2]⟩

/-- In the cluster model, the delete statement of the master succeeds and logs
one successful `deleteWorkers` call. -/
theorem deleteStage_cluster (v : String) (p : PipelineInfo) (w : World Cluster) :
    ∃ w1, orReturn (mDeleteWorkers (clusterEnv v) p) w = (none, w1) ∧
      w1.acts = w.acts ++ [Action.deleteWorkers p none] := by
  have h1 := (deleteWorkers_cluster v p w).1
  have h2 := deleteWorkersForPipeline_acts (clusterEnv v) p w
  unfold orReturn mDeleteWorkers
  simp only [h1]
  exact ⟨_, rfl, by simp [World.act, h2]⟩

/-- In the cluster model, an event that is both a restart and a spec update of a
pipeline without git input makes the master upsert the workers of the current
PipelineInfo, delete those of the previous one, and upsert those of the current
one again. -/
theorem restartUpdate_cluster (v : String) (event : PipelineEvent) (w : World Cluster)
    (l : PutLocals) (p : EtcdPipelineInfo × PipelineInfo) (commit prevCommit : Commit)
    (hE : event.Err = none) (hT : event.Typ = .EventPut)
    (hl : (putLocals (clusterEnv v) event w).1 = .ok l)
    (hprev : l.prev = some p)
    (hps : pipelineStateToStopped p.1.State = true)
    (hcs : pipelineStateToStopped l.pipelinePtr.State = false)
    (hpc : p.1.SpecCommit = some prevCommit) (hc : l.pipelinePtr.SpecCommit = some commit)
    (hne : commit.ID ≠ prevCommit.ID) (hg : hasGitInput l.pipelineInfo = false) :
    ∃ after, (handlePipelineEvent (clusterEnv v) event w).2.acts = w.acts ++
      [Action.upsertWorkers l.pipelineInfo none, Action.deleteWorkers p.2 none,
        Action.upsertWorkers l.pipelineInfo none] ++ after := by
  have hacts := putLocals_acts (clusterEnv v) event w
  rcases hp : putLocals (clusterEnv v) event w with ⟨r, w1⟩
  rw [hp] at hl hacts
  simp only [] at hl hacts
  subst hl
  have hh : handlePipelineEvent (clusterEnv v) event w =
      finish (reconcile (clusterEnv v) l w1) := by
    simp [handlePipelineEvent, hE, hT, hp]
  rw [hh, reconcile_restartUpdate (clusterEnv v) l w1 p commit prevCommit hprev hps hcs hpc hc
    hne]
  obtain ⟨w2, hu1, a1⟩ := upsertOrFail_cluster v l w1
  obtain ⟨w3, hd, b1⟩ := deleteStage_cluster v p.2 w2
  obtain ⟨w4, hu2, a2⟩ := upsertOrFail_cluster v l w3
  obtain ⟨new, hnew⟩ := stageScale_acts (clusterEnv v) l w4
  refine ⟨new, ?_⟩
  simp only [finish, andThen_apply, hg, whenStage_false, hu1, hd, hu2, hnew, a2, b1, a1, hacts]
  simp

/-- C14: there is a pipeline PUT event, with a previous value in a stopped
state, a current state that is not stopped and a spec commit that differs from
the previous one, for which both the restart branch and the created/updated
branch fire: handling it (in the cluster model, from the world that holds both
specs) the master calls `upsertWorkers` on the current PipelineInfo, then
`deleteWorkers` on the previous one, then `upsertWorkers` on the current one
again. -/
theorem restart_and_update_upserts_twice :
    ∃ (event : PipelineEvent) (l : PutLocals) (p : EtcdPipelineInfo × PipelineInfo)
      (commit prevCommit : Commit) (w : World Cluster),
      event.Err = none ∧ event.Typ = .EventPut ∧
      (putLocals (clusterEnv "1.7.0") event w).1 = .ok l ∧
      l.prev = some p ∧
      pipelineStateToStopped p.1.State = true ∧
      pipelineStateToStopped l.pipelinePtr.State = false ∧
      p.1.SpecCommit = some prevCommit ∧ l.pipelinePtr.SpecCommit = some commit ∧
      commit.ID ≠ prevCommit.ID ∧
      ∃ after, (handlePipelineEvent (clusterEnv "1.7.0") event w).2.acts = w.acts ++
        [Action.upsertWorkers l.pipelineInfo none, Action.deleteWorkers p.2 none,
          Action.upsertWorkers l.pipelineInfo none] ++ after :=
  ⟨restartUpdatePut, restartUpdateLocals,
    (pausedRecord, { pipelineA with State := PIPELINE_PAUSED }), { ID := "c2" }, { ID := "c1" },
    World.init clusterA2, rfl, rfl, rfl, rfl, rfl, rfl, rfl, rfl, by decide,
    restartUpdate_cluster "1.7.0" restartUpdatePut (World.init clusterA2) restartUpdateLocals
      (pausedRecord, { pipelineA with State := PIPELINE_PAUSED }) { ID := "c2" } { ID := "c1" }
      rfl rfl rfl rfl rfl rfl rfl rfl (by decide) (by decide)⟩

end PPS

/-! ## The mutators of the monitor -/

namespace PPS
open PipelineState

/-- A successful STM upsert stores the record its mutator returns for the
stored record. -/
theorem stmUpsert_writes {σ : Type} (env : Env σ) (key : String)
    (mutator : EtcdPipelineInfo → EtcdPipelineInfo × Option Error) (p : EtcdPipelineInfo)
    (w : World σ) (hw : w.pipelines key = some p)
    (hs : (stmUpsert env key mutator w).1 = none) :
    (stmUpsert env key mutator w).2.pipelines key = some (mutator p).1 := by
  unfold stmUpsert at hs ⊢
  simp only [World.run] at hs ⊢
  cases h1 : (env.stm w.kube).1 with
  | some err => simp [h1] at hs
  | none =>
    simp only [h1, hw, Option.getD_some] at hs ⊢
    cases h2 : (mutator p).2 with
    | some err => simp [h2] at hs
    | none => simp

/-- The blocking calls that follow the RUNNING write leave the pipeline records
as they are. -/
theorem monitorStep_commit_pipelines {σ : Type} (env : Env σ) (pipelineInfo : PipelineInfo)
    (ci : CommitInfo) (c : StandbyChan) (w : World σ)
    (hf : (checkFinished env ci w).1 = none) :
    (monitorStep env pipelineInfo (.ciChan ci) c w).2.2.pipelines =
      (stmUpsert env pipelineInfo.Name runningMutator (checkFinished env ci w).2).2.pipelines := by
  simp only [monitorStep]
  rcases hcf : checkFinished env ci w with ⟨o, w1⟩
  rw [hcf] at hf
  simp only [] at hf
  subst hf
  simp only []
  rcases hst : stmUpsert env pipelineInfo.Name runningMutator w1 with ⟨r, w2⟩
  cases r with
  | some err => rfl
  | none =>
    simp only [World.run, World.runE]
    cases (env.BlockCommit ci.Repo ci.ID w2.kube).1 with
    | some e => rfl
    | none =>
      simp only []
      cases (env.InspectJobOutputCommit ci.Repo ci.ID true
        (env.BlockCommit ci.Repo ci.ID w2.kube).2).1 <;> rfl

/-- C15: for every pipeline record whose state is not PAUSED (STARTING, RUNNING,
STANDBY or FAILURE), the mutator of the commit arm returns the same record with
state RUNNING and the mutator of the standby arm the same record with state
STANDBY, both with a nil error: the spec commit and the reason are unchanged.
Accordingly, in the monitor loop, an iteration of the commit arm that passes the
terminal-job check and whose STM write succeeds stores the record with state
RUNNING, and an iteration of the standby arm whose STM write succeeds stores it
with state STANDBY. -/
theorem mutators_change_state_only {σ : Type} (env : Env σ) (pipelineInfo : PipelineInfo)
    (p : EtcdPipelineInfo) (hp : p.State ≠ PIPELINE_PAUSED) :
    runningMutator p = ({ p with State := PIPELINE_RUNNING }, none) ∧
    standbyMutator p = ({ p with State := PIPELINE_STANDBY }, none) ∧
    (runningMutator p).1.SpecCommit = p.SpecCommit ∧
    (runningMutator p).1.Reason = p.Reason ∧
    (standbyMutator p).1.SpecCommit = p.SpecCommit ∧
    (standbyMutator p).1.Reason = p.Reason ∧
    (∀ (ci : CommitInfo) (c : StandbyChan) (w : World σ),
      w.pipelines pipelineInfo.Name = some p →
      (checkFinished env ci w).1 = none →
      (stmUpsert env pipelineInfo.Name runningMutator (checkFinished env ci w).2).1 = none →
      (monitorStep env pipelineInfo (.ciChan ci) c w).2.2.pipelines pipelineInfo.Name =
        some { p with State := PIPELINE_RUNNING }) ∧
    (∀ (c : StandbyChan) (w : World σ),
      w.pipelines pipelineInfo.Name = some p →
      (monitorStep env pipelineInfo .standbyChan c w).1 = .next →
      (monitorStep env pipelineInfo .standbyChan c w).2.2.pipelines pipelineInfo.Name =
        some { p with State := PIPELINE_STANDBY }) := by
  have hr : runningMutator p = ({ p with State := PIPELINE_RUNNING }, none) := by
    simp [runningMutator, hp]
  have hs : standbyMutator p = ({ p with State := PIPELINE_STANDBY }, none) := by
    simp [standbyMutator, hp]
  refine ⟨hr, hs, by rw [hr], by rw [hr], by rw [hs], by rw [hs], ?_, ?_⟩
  · intro ci c w hw hf hst
    rw [monitorStep_commit_pipelines env pipelineInfo ci c w hf]
    have h1 : (checkFinished env ci w).2.pipelines pipelineInfo.Name = some p := by
      rw [checkFinished_pipelines]; exact hw
    rw [stmUpsert_writes env pipelineInfo.Name runningMutator p _ h1 hst, hr]
  · intro c w hw hn
    have hst : (stmUpsert env pipelineInfo.Name standbyMutator w).1 = none := by
      simp only [monitorStep] at hn
      rcases h : stmUpsert env pipelineInfo.Name standbyMutator w with ⟨r, w1⟩
      rw [h] at hn
      cases r with
      | some err => simp at hn
      | none => rfl
    have hw2 := stmUpsert_writes env pipelineInfo.Name standbyMutator p w hw hst
    rw [hs] at hw2
    simp only [monitorStep]
    rcases h : stmUpsert env pipelineInfo.Name standbyMutator w with ⟨r, w1⟩
    rw [h] at hst hw2
    simp only [] at hst hw2
    subst hst
    exact hw2

/-- Witness of C15: the record of pipeline `A` in state FAILURE. -/
theorem mutators_change_state_only_witness :
    failedRecord.State ≠ PIPELINE_PAUSED ∧
    runningMutator failedRecord = ({ failedRecord with State := PIPELINE_RUNNING }, none) ∧
    standbyMutator failedRecord = ({ failedRecord with State := PIPELINE_STANDBY }, none) ∧
    (runningMutator failedRecord).1.Reason = "boom" :=
  ⟨by decide,
    (mutators_change_state_only (clusterEnv "1.7.0") pipelineA failedRecord (by decide)).1,
    (mutators_change_state_only (clusterEnv "1.7.0") pipelineA failedRecord (by decide)).2.1,
    (mutators_change_state_only (clusterEnv "1.7.0") pipelineA failedRecord
      (by decide)).2.2.2.1⟩

end PPS

/-! ## The standby gate -/

namespace PPS
open PipelineState

/-- A run of the monitor loop over two lists of arms is the run over the first
list followed, if all its iterations went on, by the run over the second. -/
theorem monitorLoop_append {σ : Type} (env : Env σ) (pipelineInfo : PipelineInfo)
    (a b : List Arm) (c : StandbyChan) (w : World σ) :
    monitorLoop env pipelineInfo (a ++ b) c w =
      match monitorLoop env pipelineInfo a c w with
      | some (.next, c1, w1) => monitorLoop env pipelineInfo b c1 w1
      | other => other := by
  induction a generalizing c w with
  | nil => simp [monitorLoop]
  | cons arm rest ih =>
    simp only [List.cons_append, monitorLoop]
    split
    · rcases hs : monitorStep env pipelineInfo arm c w with ⟨o, c1, w1⟩
      cases o with
      | next => simp only []; exact ih c1 w1
      | ret err => rfl
      | crash => rfl
    · rfl

/-- The gate after an iteration of the commit arm: the closed channel when the
iteration passed the terminal-job check and its RUNNING write succeeded, and
the gate as it was otherwise. -/
theorem monitorStep_commit_gate {σ : Type} (env : Env σ) (pipelineInfo : PipelineInfo)
    (ci : CommitInfo) (c : StandbyChan) (w : World σ) :
    (monitorStep env pipelineInfo (.ciChan ci) c w).2.1 =
      if (checkFinished env ci w).1 = none ∧
          (stmUpsert env pipelineInfo.Name runningMutator (checkFinished env ci w).2).1 = none
      then .closed else c := by
  simp only [monitorStep]
  rcases hcf : checkFinished env ci w with ⟨o, w1⟩
  cases o with
  | some o => simp
  | none =>
    simp only []
    rcases hst : stmUpsert env pipelineInfo.Name runningMutator w1 with ⟨r, w2⟩
    cases r with
    | some err => simp
    | none =>
      simp only [World.run, World.runE, and_self, if_true]
      cases (env.BlockCommit ci.Repo ci.ID w2.kube).1 with
      | some e => rfl
      | none =>
        simp only []
        cases (env.InspectJobOutputCommit ci.Repo ci.ID true
          (env.BlockCommit ci.Repo ci.ID w2.kube).2).1 <;> rfl

/-- The gate after an iteration of the standby arm that goes on is nil. -/
theorem monitorStep_standby_gate {σ : Type} (env : Env σ) (pipelineInfo : PipelineInfo)
    (c : StandbyChan) (w : World σ)
    (h : (monitorStep env pipelineInfo .standbyChan c w).1 = .next) :
    (monitorStep env pipelineInfo .standbyChan c w).2.1 = .nil := by
  simp only [monitorStep] at h ⊢
  rcases hst : stmUpsert env pipelineInfo.Name standbyMutator w with ⟨r, w1⟩
  rw [hst] at h
  cases r with
  | some err => simp at h
  | none => rfl

/-- From a nil gate, a run of iterations that all go on either leaves the gate
nil, or contains an iteration of the commit arm that passed the terminal-job
check and whose RUNNING write succeeded. -/
theorem monitorLoop_from_nil {σ : Type} (env : Env σ) (pipelineInfo : PipelineInfo)
    (mid : List Arm) (w1 : World σ) (c2 : StandbyChan) (w2 : World σ)
    (h : monitorLoop env pipelineInfo mid .nil w1 = some (.next, c2, w2)) :
    c2 = .nil ∨
    ∃ mid1 ci mid2 w3, mid = mid1 ++ Arm.ciChan ci :: mid2 ∧
      monitorLoop env pipelineInfo mid1 .nil w1 = some (.next, .nil, w3) ∧
      (checkFinished env ci w3).1 = none ∧
      (stmUpsert env pipelineInfo.Name runningMutator (checkFinished env ci w3).2).1 = none := by
  induction mid generalizing w1 with
  | nil =>
    simp only [monitorLoop, Option.some.injEq, Prod.mk.injEq] at h
    exact Or.inl h.2.1.symm
  | cons arm rest ih =>
    cases arm with
    | standbyChan => simp [monitorLoop, armReady] at h
    | ciChan ci =>
      have hg := monitorStep_commit_gate env pipelineInfo ci .nil w1
      simp only [monitorLoop, armReady, if_true] at h
      rcases hs : monitorStep env pipelineInfo (.ciChan ci) .nil w1 with ⟨o, c1, w1b⟩
      rw [hs] at h hg
      simp only [] at hg
      cases o with
      | ret err => simp at h
      | crash => simp at h
      | next =>
        simp only [] at h
        by_cases hw : (checkFinished env ci w1).1 = none ∧
            (stmUpsert env pipelineInfo.Name runningMutator (checkFinished env ci w1).2).1 = none
        · exact Or.inr ⟨[], ci, rest, w1, rfl, by simp [monitorLoop], hw.1, hw.2⟩
        · rw [if_neg hw] at hg
          subst hg
          rcases ih w1b h with h1 | ⟨mid1, ci2, mid2, w3, hm, hr, hc, hst⟩
          · exact Or.inl h1
          · refine Or.inr ⟨Arm.ciChan ci :: mid1, ci2, mid2, w3, by simp [hm], ?_, hc, hst⟩
            simp only [monitorLoop, armReady, if_true, hs]
            exact hr

/-- C16: within one run of the monitor body the monitor never performs two
STANDBY writes without a RUNNING write between them.  The standby arm can be
taken only while the gate is the closed channel; an iteration of the standby arm
that goes on leaves the gate nil; an iteration of the commit arm leaves the gate
closed when it passed the terminal-job check and its RUNNING write succeeded,
and leaves the gate as it was otherwise; a received commit that is finished
with a terminal job changes neither the pipeline records nor the gate.  Hence,
after an iteration of the standby arm (the run up to it, over `pre`, from any
gate and world), if the following iterations `mid` all go on and the standby
arm can be taken again, then one of the iterations of `mid` is an iteration of
the commit arm that passed the terminal-job check and whose RUNNING write
succeeded (and the gate was nil until then). -/
theorem standby_writes_need_running_between {σ : Type} (env : Env σ)
    (pipelineInfo : PipelineInfo) :
    (∀ c : StandbyChan, armReady c .standbyChan = true ↔ c = .closed) ∧
    (∀ (c : StandbyChan) (w : World σ),
      (monitorStep env pipelineInfo .standbyChan c w).1 = .next →
      (monitorStep env pipelineInfo .standbyChan c w).2.1 = .nil) ∧
    (∀ (ci : CommitInfo) (c : StandbyChan) (w : World σ),
      (monitorStep env pipelineInfo (.ciChan ci) c w).2.1 =
        if (checkFinished env ci w).1 = none ∧
          (stmUpsert env pipelineInfo.Name runningMutator (checkFinished env ci w).2).1 = none
        then .closed else c) ∧
    (∀ (ci : CommitInfo) (c : StandbyChan) (w : World σ) (jobInfo : JobInfo),
      ci.Finished = true →
      (env.InspectJobOutputCommit ci.Repo ci.ID false w.kube).1 = .ok jobInfo →
      env.IsTerminal jobInfo.State = true →
      (monitorStep env pipelineInfo (.ciChan ci) c w).1 = .next ∧
      (monitorStep env pipelineInfo (.ciChan ci) c w).2.1 = c ∧
      (monitorStep env pipelineInfo (.ciChan ci) c w).2.2.pipelines = w.pipelines) ∧
    (∀ (pre mid : List Arm) (c c1 c2 : StandbyChan) (w w1 w2 : World σ),
      monitorLoop env pipelineInfo (pre ++ [.standbyChan]) c w = some (.next, c1, w1) →
      monitorLoop env pipelineInfo mid c1 w1 = some (.next, c2, w2) →
      armReady c2 .standbyChan = true →
      ∃ mid1 ci mid2 w3, mid = mid1 ++ Arm.ciChan ci :: mid2 ∧
        monitorLoop env pipelineInfo mid1 c1 w1 = some (.next, .nil, w3) ∧
        (checkFinished env ci w3).1 = none ∧
        (stmUpsert env pipelineInfo.Name runningMutator (checkFinished env ci w3).2).1
          = none) := by
  refine ⟨?_, monitorStep_standby_gate env pipelineInfo,
    monitorStep_commit_gate env pipelineInfo, ?_, ?_⟩
  · intro c
    cases c <;> simp [armReady]
  · intro ci c w jobInfo hf hi ht
    have hcf : checkFinished env ci w =
        (some .next, (w.runE (env.InspectJobOutputCommit ci.Repo ci.ID false)
          (fun x => Call.InspectJobOutputCommit ci.Repo ci.ID false (errOf x))).2) := by
      simp [checkFinished, hf, World.runE, hi, ht]
    have hp := checkFinished_pipelines env ci w
    rw [hcf] at hp
    simp only [monitorStep, hcf, true_and]
    exact hp
  · intro pre mid c c1 c2 w w1 w2 h1 h2 h3
    have hc1 : c1 = .nil := by
      rw [monitorLoop_append] at h1
      rcases hp : monitorLoop env pipelineInfo pre c w with _ | ⟨o, c0, w0⟩
      · simp [hp] at h1
      · rw [hp] at h1
        cases o with
        | ret err => simp at h1
        | crash => simp at h1
        | next =>
          simp only [monitorLoop] at h1
          split at h1
          · have hg := monitorStep_standby_gate env pipelineInfo c0 w0
            rcases hs : monitorStep env pipelineInfo .standbyChan c0 w0 with ⟨o, c3, w3⟩
            rw [hs] at h1 hg
            cases o with
            | ret err => simp at h1
            | crash => simp at h1
            | next =>
              simp only [Option.some.injEq, Prod.mk.injEq, true_and] at h1
              rw [← h1.1]
              exact hg rfl
          · simp at h1
    subst hc1
    rcases monitorLoop_from_nil env pipelineInfo mid w1 c2 w2 h2 with h | h
    · subst h
      simp [armReady] at h3
    · exact h

/-- Witness of C16: in the cluster model, a run that takes the standby arm, then
receives the commit `o1`, and can then take the standby arm again: the commit
iteration between the two performed the RUNNING write. -/
theorem standby_writes_need_running_between_witness :
    monitorLoop (clusterEnv "1.7.0") pipelineA ([] ++ [Arm.standbyChan]) .closed worldJobA =
      some (.next, .nil,
        (monitorStep (clusterEnv "1.7.0") pipelineA .standbyChan .closed worldJobA).2.2) ∧
    monitorLoop (clusterEnv "1.7.0") pipelineA [Arm.ciChan commitReady] .nil
        (monitorStep (clusterEnv "1.7.0") pipelineA .standbyChan .closed worldJobA).2.2 =
      some (.next, .closed,
        (monitorStep (clusterEnv "1.7.0") pipelineA (.ciChan commitReady) .nil
          (monitorStep (clusterEnv "1.7.0") pipelineA .standbyChan .closed worldJobA).2.2).2.2) ∧
    monitorLoop (clusterEnv "1.7.0") pipelineA [Arm.standbyChan] .nil
        (monitorStep (clusterEnv "1.7.0") pipelineA .standbyChan .closed worldJobA).2.2 = none ∧
    ∃ mid1 ci mid2 w3, [Arm.ciChan commitReady] = mid1 ++ Arm.ciChan ci :: mid2 ∧
      monitorLoop (clusterEnv "1.7.0") pipelineA mid1 .nil
        (monitorStep (clusterEnv "1.7.0") pipelineA .standbyChan .closed worldJobA).2.2
        = some (.next, .nil, w3) ∧
      (checkFinished (clusterEnv "1.7.0") ci w3).1 = none ∧
      (stmUpsert (clusterEnv "1.7.0") pipelineA.Name runningMutator
        (checkFinished (clusterEnv "1.7.0") ci w3).2).1 = none :=
  ⟨rfl, rfl, rfl,
    (standby_writes_need_running_between (clusterEnv "1.7.0") pipelineA).2.2.2.2
      [] [Arm.ciChan commitReady] .closed .nil .closed worldJobA _ _ rfl rfl rfl⟩

end PPS
